import Mathlib

/-!
# Fy_AI worker: credential and token service, history handling

A shallow embedding of `src/backend/worker.js` (a Cloudflare Worker): the three helpers
`hashPassword`, `signJWT`, `verifyJWT` and the `fetch` handler with its routes.

Conventions of the embedding.

* A JavaScript string is the list of its UTF-16 code units (`JSString`); a `Uint8Array`
  is a list of bytes (`Fin 256`).
* An operation that may throw returns `Except JSError _`; `try { .. } catch` is a `match`
  on that result.
* The built-ins of the platform that the worker calls (`btoa`, `atob`, `TextEncoder`,
  `String.prototype.split`, `JSON.stringify`, `JSON.parse`) are written out after their
  standards (HTML for `btoa` and the forgiving `atob`, Encoding for `TextEncoder`,
  ECMA-262 for the rest). The cryptographic primitives (`crypto.subtle`,
  `crypto.getRandomValues`, `crypto.randomUUID`), the clock and the outbound HTTP call are
  inputs of the model: the keyed hash and the key derivation are fields of `Platform`, what
  the platform answers during a request is an `Oracle`.
* A JSON number is the double that `JSON.parse` rounds its literal to; `JSON.stringify`
  and `ToString` write the shortest decimal text that denotes the double.
* The relational store is not under `src/`; its three operations are modelled from the
  specification, and the theorems on the claims hold whatever they return.

The file gives the definitions first, then the lemmas on base64, on JSON and on the
routes, then the theorems on the claims C1 to C11.
-/

namespace Worker

/-! ## Strings, bytes, exceptions -/

/-- A JavaScript string: its UTF-16 code units, in order. -/
abbrev JSString := List Nat

/-- One element of a `Uint8Array`. -/
abbrev Byte := Fin 256

/-- The exceptions the worker can meet. -/
inductive JSError where
  | TypeError
  | SyntaxError
  | InvalidCharacterError
  | DataError
  | ConstraintError
  deriving DecidableEq, Repr

deriving instance DecidableEq for Except

/-- A string constant of the source (all of them are ASCII), as code units. -/
def jss (s : String) : JSString := s.toList.map Char.toNat

/-- Storing a number into a `Uint8Array` keeps its low eight bits. -/
def toByte (n : Nat) : Byte := ⟨n % 256, Nat.mod_lt n (by decide)⟩

/-- `Uint8Array.from(s, c => c.charCodeAt(0))`. -/
def bytesOfString (s : JSString) : List Byte := s.map toByte

/-- `String.fromCharCode(...bytes)`. -/
def stringOfBytes (bs : List Byte) : JSString := bs.map Fin.val

/-- `s.split(sep)` for a one-character separator: the segments between the separators,
at least one segment. -/
def split (sep : Nat) : JSString → List JSString
  | [] => [[]]
  | c :: cs =>
    if c = sep then [] :: split sep cs
    else match split sep cs with
      | [] => [[c]]
      | seg :: segs => (c :: seg) :: segs

/-- The regular-expression replacement `s.replace(/a/g, "b")` for single characters. -/
def replaceAll (a b : Nat) (s : JSString) : JSString :=
  s.map fun c => if c = a then b else c

/-- The replacement `s.replace(/a/g, "")`. -/
def removeAll (a : Nat) (s : JSString) : JSString :=
  s.filter fun c => c != a

/-! ## TextEncoder -/

/-- The three bytes of U+FFFD, which `TextEncoder` writes for an unpaired surrogate. -/
def replacementBytes : List Byte := [toByte 0xEF, toByte 0xBF, toByte 0xBD]

/-- `new TextEncoder().encode(s)`: the UTF-8 encoding of the string, a surrogate pair
giving one four-byte sequence and an unpaired surrogate giving U+FFFD. -/
def utf8Encode : JSString → List Byte
  | [] => []
  | [c] =>
    if c < 0x80 then [toByte c]
    else if c < 0x800 then [toByte (0xC0 + c / 64), toByte (0x80 + c % 64)]
    else if 0xD800 ≤ c ∧ c < 0xE000 then replacementBytes
    else [toByte (0xE0 + c / 4096), toByte (0x80 + c / 64 % 64), toByte (0x80 + c % 64)]
  | c :: d :: rest =>
    if c < 0x80 then toByte c :: utf8Encode (d :: rest)
    else if c < 0x800 then
      toByte (0xC0 + c / 64) :: toByte (0x80 + c % 64) :: utf8Encode (d :: rest)
    else if 0xD800 ≤ c ∧ c < 0xDC00 then
      if 0xDC00 ≤ d ∧ d < 0xE000 then
        let cp := 0x10000 + (c - 0xD800) * 1024 + (d - 0xDC00)
        toByte (0xF0 + cp / 262144) :: toByte (0x80 + cp / 4096 % 64) ::
          toByte (0x80 + cp / 64 % 64) :: toByte (0x80 + cp % 64) :: utf8Encode rest
      else replacementBytes ++ utf8Encode (d :: rest)
    else if 0xDC00 ≤ c ∧ c < 0xE000 then replacementBytes ++ utf8Encode (d :: rest)
    else
      toByte (0xE0 + c / 4096) :: toByte (0x80 + c / 64 % 64) :: toByte (0x80 + c % 64) ::
        utf8Encode (d :: rest)

/-! ## Base64: `btoa` and `atob` -/

/-- The base64 alphabet, by index. -/
def b64Alphabet : JSString :=
  jss "ABCDEFGHIJKLMNOPQRSTUVWXYZabcdefghijklmnopqrstuvwxyz0123456789+/"

/-- The character of a six-bit value. -/
def b64Char (i : Nat) : Nat := b64Alphabet.getD i 0

/-- The six-bit value of a base64 character, if it is one. -/
def b64Val (c : Nat) : Option Nat :=
  if 65 ≤ c ∧ c ≤ 90 then some (c - 65)
  else if 97 ≤ c ∧ c ≤ 122 then some (c - 71)
  else if 48 ≤ c ∧ c ≤ 57 then some (c + 4)
  else if c = 43 then some 62
  else if c = 47 then some 63
  else none

/-- The six-bit values of a text, if every character is a base64 character. -/
def b64Vals : JSString → Option (List Nat)
  | [] => some []
  | c :: cs =>
    match b64Val c, b64Vals cs with
    | some v, some vs => some (v :: vs)
    | _, _ => none

/-- Base64 of a sequence of byte values, with `=` padding. -/
def b64Encode : List Nat → JSString
  | [] => []
  | [a] => [b64Char (a / 4), b64Char (a % 4 * 16), 61, 61]
  | [a, b] => [b64Char (a / 4), b64Char (a % 4 * 16 + b / 16), b64Char (b % 16 * 4), 61]
  | a :: b :: c :: rest =>
    b64Char (a / 4) :: b64Char (a % 4 * 16 + b / 16) :: b64Char (b % 16 * 4 + c / 64) ::
      b64Char (c % 64) :: b64Encode rest

/-- `btoa(s)`: throws when a code unit is above 0xFF, otherwise the base64 of the code
units read as bytes. -/
def btoa (s : JSString) : Except JSError JSString :=
  if s.all (fun c => decide (c ≤ 255)) then .ok (b64Encode s)
  else .error .InvalidCharacterError

/-- ASCII whitespace, which `atob` drops: TAB, LF, FF, CR, SPACE. -/
def isAsciiWhitespace (c : Nat) : Bool :=
  c = 9 || c = 10 || c = 12 || c = 13 || c = 32

/-- Removal of one or two trailing `=`. -/
def removePadding (d : JSString) : JSString :=
  if d.getLast? = some 61 then
    if d.dropLast.getLast? = some 61 then d.dropLast.dropLast else d.dropLast
  else d

/-- The bytes of a sequence of six-bit values; a last group of two or three values gives
one or two bytes, its unused low bits dropped. -/
def b64DecodeVals : List Nat → List Nat
  | a :: b :: c :: d :: rest =>
    (a * 4 + b / 16) :: (b % 16 * 16 + c / 4) :: (c % 4 * 64 + d) :: b64DecodeVals rest
  | [a, b, c] => [a * 4 + b / 16, b % 16 * 16 + c / 4]
  | [a, b] => [a * 4 + b / 16]
  | _ => []

/-- `atob(s)`, the forgiving base64 decoding: whitespace is dropped, padding is removed
when the length is a multiple of four, and a length of 1 modulo 4 or a character outside
the alphabet throws. -/
def atob (s : JSString) : Except JSError JSString :=
  let data := s.filter fun c => !isAsciiWhitespace c
  let data := if data.length % 4 = 0 then removePadding data else data
  if data.length % 4 = 1 then .error .InvalidCharacterError
  else match b64Vals data with
    | none => .error .InvalidCharacterError
    | some vals => .ok (b64DecodeVals vals)

/-! ## JSON number literals -/

/-- A decimal digit. -/
def isDigit (c : Nat) : Bool := decide (48 ≤ c) && decide (c ≤ 57)

/-- The integer part of a JSON number: `0`, or a non-zero digit followed by digits. -/
def scanInt : JSString → Option (JSString × JSString)
  | [] => none
  | c :: rest =>
    if c = 48 then some ([48], rest)
    else if isDigit c then some (c :: rest.takeWhile isDigit, rest.dropWhile isDigit)
    else none

/-- The optional fraction of a JSON number: `.` and at least one digit. -/
def scanFrac : JSString → Option (JSString × JSString)
  | [] => some ([], [])
  | c :: rest =>
    if c = 46 then
      match rest.takeWhile isDigit with
      | [] => none
      | d :: ds => some (46 :: d :: ds, rest.dropWhile isDigit)
    else some ([], c :: rest)

/-- The optional sign of an exponent. -/
def scanSign : JSString → JSString × JSString
  | [] => ([], [])
  | c :: rest => if c = 43 ∨ c = 45 then ([c], rest) else ([], c :: rest)

/-- The optional exponent of a JSON number: `e` or `E`, an optional sign, and at least one
digit. -/
def scanExp : JSString → Option (JSString × JSString)
  | [] => some ([], [])
  | c :: rest =>
    if c = 101 ∨ c = 69 then
      match (scanSign rest).2.takeWhile isDigit with
      | [] => none
      | d :: ds => some (c :: (scanSign rest).1 ++ d :: ds, (scanSign rest).2.dropWhile isDigit)
    else some ([], c :: rest)

/-- The optional minus sign of a number. -/
def scanMinus : JSString → JSString × JSString
  | [] => ([], [])
  | c :: rest => if c = 45 then ([45], rest) else ([], c :: rest)

/-- The longest JSON number literal at the head of the text, and what follows it. -/
def scanNumber (s : JSString) : Option (JSString × JSString) :=
  match scanInt (scanMinus s).2 with
  | none => none
  | some (i, s2) =>
    match scanFrac s2 with
    | none => none
    | some (f, s3) =>
      match scanExp s3 with
      | none => none
      | some (e, s4) => some ((scanMinus s).1 ++ i ++ f ++ e, s4)

/-! ## Numbers -/

/-- A Number value: NaN, a zero, an infinity, or a finite non-zero double
`± mant × 2 ^ exp` with `2 ^ 52 ≤ mant < 2 ^ 53` and `-1074 ≤ exp ≤ 971`, or with
`mant < 2 ^ 52` and `exp = -1074` below the normal range. -/
inductive JSNumber where
  | nan
  | zero (neg : Bool)
  | inf (neg : Bool)
  | finite (neg : Bool) (mant : Nat) (exp : Int)
  deriving DecidableEq, Repr

/-- The halvings that bring `n` below 2; the first argument bounds their number. -/
def log2Aux : Nat → Nat → Nat
  | 0, _ => 0
  | fuel + 1, n => if n < 2 then 0 else log2Aux fuel (n / 2) + 1

/-- The integer part of the binary logarithm of a positive natural number. -/
def log2 (n : Nat) : Nat := log2Aux n n

/-- The quotient `num / den` rounded to the nearest integer, a tie going to the even
one. -/
def roundHalfEven (num den : Nat) : Nat :=
  if 2 * (num % den) < den then num / den
  else if den < 2 * (num % den) then num / den + 1
  else if num / den % 2 = 0 then num / den
  else num / den + 1

/-- Whether `2 ^ k ≤ num / den`. -/
def atLeastPow2 (num den : Nat) (k : Int) : Bool :=
  if 0 ≤ k then decide (den * 2 ^ k.toNat ≤ num) else decide (den ≤ num * 2 ^ (-k).toNat)

/-- The double nearest to the rational `num / den` (`den` positive), a tie going to the
even significand, with the given sign: `roundTiesToEven` of IEEE 754 in the binary64
format. -/
def roundToDouble (neg : Bool) (num den : Nat) : JSNumber :=
  if num = 0 then .zero neg
  else
    let k0 : Int := (log2 num : Int) - (log2 den : Int)
    let k : Int := if atLeastPow2 num den k0 then k0 else k0 - 1
    let e : Int := max (k - 52) (-1074)
    let m : Nat :=
      if 0 ≤ e then roundHalfEven num (den * 2 ^ e.toNat)
      else roundHalfEven (num * 2 ^ (-e).toNat) den
    if m = 0 then .zero neg
    else if m = 2 ^ 53 then (if 971 < e + 1 then .inf neg else .finite neg (2 ^ 52) (e + 1))
    else if 971 < e then .inf neg
    else .finite neg m e

/-- The decimal digits of a natural number, most significant first; the first argument
bounds their number. -/
def decimalDigitsAux : Nat → Nat → JSString → JSString
  | 0, _, acc => acc
  | fuel + 1, n, acc =>
    if n < 10 then (48 + n) :: acc
    else decimalDigitsAux fuel (n / 10) ((48 + n % 10) :: acc)

/-- The decimal digits of a natural number, most significant first (`0` for zero). -/
def decimalDigits (n : Nat) : JSString := decimalDigitsAux (n + 1) n []

/-- The value of a run of decimal digits. -/
def digitsValue (ds : JSString) : Nat := ds.foldl (fun acc c => 10 * acc + (c - 48)) 0

/-- The double nearest to `d × 10 ^ e`, with the given sign. A value of 310 digits or
more before the decimal point is above every double, one that starts more than 325 places
after the point is below half the least double; in between the value is rounded. -/
def decimalToDouble (neg : Bool) (d : Nat) (e : Int) : JSNumber :=
  if d = 0 then .zero neg
  else if 310 < e + (decimalDigits d).length then .inf neg
  else if e + (decimalDigits d).length < -325 then .zero neg
  else if 0 ≤ e then roundToDouble neg (d * 10 ^ e.toNat) 1
  else roundToDouble neg d (10 ^ (-e).toNat)

/-- The Number that a JSON number literal denotes; NaN for a text that is no literal. -/
def numberOfLiteral (lit : JSString) : JSNumber :=
  match scanInt (scanMinus lit).2 with
  | none => .nan
  | some (i, s2) =>
    match scanFrac s2 with
    | none => .nan
    | some (f, s3) =>
      match scanExp s3 with
      | some (e, []) =>
        let exp10 : Int :=
          if e.contains 45 then -(digitsValue (e.filter isDigit) : Int)
          else (digitsValue (e.filter isDigit) : Int)
        decimalToDouble (!(scanMinus lit).1.isEmpty) (digitsValue (i ++ f.drop 1))
          (exp10 - ((f.drop 1).length : Int))
      | _ => .nan

/-- The number of zeros between the decimal point and the first significant digit of
`num / den`, a positive rational below 1; the first argument bounds the search. -/
def fractionZeros : Nat → Nat → Nat → Nat → Nat
  | 0, _, _, z => z
  | fuel + 1, num, den, z =>
    if den ≤ num * 10 then z else fractionZeros fuel (num * 10) den (z + 1)

/-- The integer `n` with `10 ^ (n - 1) ≤ num / den < 10 ^ n`, for a positive rational. -/
def decimalExponent (num den : Nat) : Int :=
  if den ≤ num then ((decimalDigits (num / den)).length : Int)
  else -(fractionZeros den num den 0 : Int)

/-- The integer `s` of `k` digits for which `s × 10 ^ (n - k)` is nearest to `num / den`
among those that round to the double `x`, with the exponent `n`; `none` when no integer of
`k` digits rounds to `x`. Of the two integers around `num / den × 10 ^ (k - n)` the nearer
one is taken, the even one in a tie. -/
def digitsOfLength (x : JSNumber) (num den : Nat) (n : Int) (k : Nat) : Option (Nat × Int) :=
  let a : Nat := if n ≤ k then num * 10 ^ ((k : Int) - n).toNat else num
  let b : Nat := if n ≤ k then den else den * 10 ^ (n - (k : Int)).toNat
  let lo : Nat := a / b
  let okLo : Bool := decide (decimalToDouble false lo (n - k) = x)
  let okHi : Bool := decide (decimalToDouble false (lo + 1) (n - k) = x)
  let s : Option Nat :=
    if okLo && okHi then
      (if 2 * (a % b) < b then some lo
       else if b < 2 * (a % b) then some (lo + 1)
       else if lo % 2 = 0 then some lo else some (lo + 1))
    else if okLo then some lo
    else if okHi then some (lo + 1)
    else none
  s.map fun s => if s = 10 ^ k then (10 ^ (k - 1), n + 1) else (s, n)

/-- The shortest digits that denote the double `x = num / den`: the least `k` from the
given one for which an integer of `k` digits rounds to `x`. Seventeen digits always
do; the first argument bounds the search. -/
def shortestDigits (x : JSNumber) (num den : Nat) (n : Int) : Nat → Nat → Nat × Int
  | 0, k => (roundHalfEven (if n ≤ k then num * 10 ^ ((k : Int) - n).toNat else num)
      (if n ≤ k then den else den * 10 ^ (n - (k : Int)).toNat), n)
  | fuel + 1, k =>
    match digitsOfLength x num den n k with
    | some r => r
    | none => shortestDigits x num den n fuel (k + 1)

/-- The text of a positive finite Number from its `k` significant digits and its decimal
exponent `n` (`Number::toString`, steps 7 to 10). -/
def formatDigits (digits : JSString) (n : Int) : JSString :=
  if (digits.length : Int) ≤ n ∧ n ≤ 21 then
    digits ++ List.replicate (n.toNat - digits.length) 48
  else if 0 < n ∧ n ≤ 21 then digits.take n.toNat ++ 46 :: digits.drop n.toNat
  else if -6 < n ∧ n ≤ 0 then 48 :: 46 :: List.replicate (-n).toNat 48 ++ digits
  else
    match digits with
    | [] => []
    | [d] => d :: 101 :: (if n - 1 < 0 then 45 else 43) :: decimalDigits (n - 1).natAbs
    | d :: ds =>
      d :: 46 :: ds ++ 101 :: (if n - 1 < 0 then 45 else 43) :: decimalDigits (n - 1).natAbs

/-- `Number::toString(x)` in radix 10. -/
def numberToString : JSNumber → JSString
  | .nan => jss "NaN"
  | .zero _ => [48]
  | .inf neg => (if neg then [45] else []) ++ jss "Infinity"
  | .finite neg m e =>
    let num : Nat := if 0 ≤ e then m * 2 ^ e.toNat else m
    let den : Nat := if 0 ≤ e then 1 else 2 ^ (-e).toNat
    let r := shortestDigits (.finite false m e) num den (decimalExponent num den) 16 1
    (if neg then [45] else []) ++ formatDigits (decimalDigits r.1) r.2

/-- The text of a Number inside `JSON.stringify`: `ToString` of a finite Number, `null`
for NaN and the infinities. -/
def serializeNumber : JSNumber → JSString
  | .nan => jss "null"
  | .inf _ => jss "null"
  | x => numberToString x

/-- `Number::equal`, the strict equality of two Numbers: NaN equals nothing, the two
zeros are equal. -/
def numberEqual : JSNumber → JSNumber → Bool
  | .nan, _ => false
  | _, .nan => false
  | .zero _, .zero _ => true
  | x, y => decide (x = y)

/-- `ToBoolean` of a Number: false for the zeros and NaN. -/
def numberTruthy : JSNumber → Bool
  | .nan => false
  | .zero _ => false
  | _ => true

/-! ## JSON values -/

/-- A JSON value, as `JSON.parse` builds it and `JSON.stringify` reads it. A number is a
double; an object is the list of its properties in the order in which they are enumerated
(array indices in ascending order, then the other names in the order of their
creation). -/
inductive JSON where
  | null
  | bool (b : Bool)
  | num (value : JSNumber)
  | str (s : JSString)
  | arr (items : List JSON)
  | obj (props : List (JSString × JSON))

/-- A lowercase hexadecimal digit. -/
def hexDigit (n : Nat) : Nat := if n < 10 then 48 + n else 87 + n

/-- The value of a hexadecimal digit of either case. -/
def hexVal (c : Nat) : Option Nat :=
  if 48 ≤ c ∧ c ≤ 57 then some (c - 48)
  else if 97 ≤ c ∧ c ≤ 102 then some (c - 87)
  else if 65 ≤ c ∧ c ≤ 70 then some (c - 55)
  else none

/-- The escape `\uXXXX` of a code unit. -/
def unicodeEscape (c : Nat) : JSString :=
  [92, 117, hexDigit (c / 4096 % 16), hexDigit (c / 256 % 16), hexDigit (c / 16 % 16),
    hexDigit (c % 16)]

/-- The escape of one code unit that `JSON.stringify` never writes as itself: the short
escapes, and `\uXXXX` for the other control characters. `none` for every other code
unit. -/
def shortEscape (c : Nat) : Option JSString :=
  if c = 8 then some [92, 98]
  else if c = 9 then some [92, 116]
  else if c = 10 then some [92, 110]
  else if c = 12 then some [92, 102]
  else if c = 13 then some [92, 114]
  else if c = 34 then some [92, 34]
  else if c = 92 then some [92, 92]
  else if c < 32 then some (unicodeEscape c)
  else none

/-- A leading (high) surrogate. -/
def isHighSurrogate (c : Nat) : Bool := decide (0xD800 ≤ c) && decide (c < 0xDC00)

/-- A trailing (low) surrogate. -/
def isLowSurrogate (c : Nat) : Bool := decide (0xDC00 ≤ c) && decide (c < 0xE000)

/-- The body of `QuoteJSONString`: short escapes, `\uXXXX` for control characters and
unpaired surrogates, every other code unit as itself. -/
def quoteChars : JSString → JSString
  | [] => []
  | [c] =>
    match shortEscape c with
    | some e => e
    | none => if isHighSurrogate c || isLowSurrogate c then unicodeEscape c else [c]
  | c :: d :: rest =>
    match shortEscape c with
    | some e => e ++ quoteChars (d :: rest)
    | none =>
      if isHighSurrogate c then
        if isLowSurrogate d then c :: d :: quoteChars rest
        else unicodeEscape c ++ quoteChars (d :: rest)
      else if isLowSurrogate c then unicodeEscape c ++ quoteChars (d :: rest)
      else c :: quoteChars (d :: rest)

/-- `QuoteJSONString`. -/
def quote (s : JSString) : JSString := 34 :: quoteChars s ++ [34]

mutual
/-- `JSON.stringify(v)`, without indentation. -/
def JSON.stringify : JSON → JSString
  | .null => jss "null"
  | .bool true => jss "true"
  | .bool false => jss "false"
  | .num x => serializeNumber x
  | .str s => quote s
  | .arr items => 91 :: stringifyItems items ++ [93]
  | .obj props => 123 :: stringifyProps props ++ [125]
/-- The elements of an array, separated by commas. -/
def stringifyItems : List JSON → JSString
  | [] => []
  | [v] => JSON.stringify v
  | v :: w :: rest => JSON.stringify v ++ 44 :: stringifyItems (w :: rest)
/-- The properties of an object, separated by commas. -/
def stringifyProps : List (JSString × JSON) → JSString
  | [] => []
  | [(k, v)] => quote k ++ 58 :: JSON.stringify v
  | (k, v) :: p :: rest => quote k ++ 58 :: JSON.stringify v ++ 44 :: stringifyProps (p :: rest)
end

/-- JSON whitespace: space, TAB, LF, CR. -/
def isJsonWs (c : Nat) : Bool := c = 32 || c = 9 || c = 10 || c = 13

/-- The text after its leading whitespace. -/
def skipWs (s : JSString) : JSString := s.dropWhile isJsonWs

/-- The code unit of an escape `\uXXXX`, from its four digits. -/
def unescape4 (a b c d : Nat) : Option Nat :=
  match hexVal a, hexVal b, hexVal c, hexVal d with
  | some x, some y, some z, some w => some (x * 4096 + y * 256 + z * 16 + w)
  | _, _, _, _ => none

/-- The code unit of a one-letter escape. -/
def unescape1 (c : Nat) : Option Nat :=
  if c = 34 then some 34
  else if c = 92 then some 92
  else if c = 47 then some 47
  else if c = 98 then some 8
  else if c = 102 then some 12
  else if c = 110 then some 10
  else if c = 114 then some 13
  else if c = 116 then some 9
  else none

/-- The characters of a JSON string up to its closing quote (the opening quote already
read), and the text after the closing quote. -/
def parseChars : JSString → Option (JSString × JSString)
  | [] => none
  | 92 :: 117 :: a :: b :: c :: d :: rest =>
    match unescape4 a b c d, parseChars rest with
    | some u, some (str, r) => some (u :: str, r)
    | _, _ => none
  | 92 :: e :: rest =>
    match unescape1 e, parseChars rest with
    | some u, some (str, r) => some (u :: str, r)
    | _, _ => none
  | c :: rest =>
    if c = 34 then some ([], rest)
    else if c = 92 then none
    else if c < 32 then none
    else match parseChars rest with
      | some (str, r) => some (c :: str, r)
      | none => none

/-- The array index that a property name denotes: a decimal numeral without leading zero
whose value is below `2 ^ 32 - 1`. -/
def arrayIndex (k : JSString) : Option Nat :=
  match k with
  | [] => none
  | c :: rest =>
    if (c :: rest).all isDigit && (c != 48 || rest.isEmpty) &&
        decide (digitsValue (c :: rest) < 4294967295) then
      some (digitsValue (c :: rest))
    else none

/-- Whether a property named `k` is enumerated before a property named `k0` that was
created earlier: an array index comes before a larger array index and before every name
that is no array index. -/
def keyBefore (k k0 : JSString) : Bool :=
  match arrayIndex k, arrayIndex k0 with
  | some i, some j => decide (i < j)
  | some _, none => true
  | none, _ => false

/-- A new property at its place in the order of enumeration. -/
def insertProp (props : List (JSString × JSON)) (k : JSString) (v : JSON) :
    List (JSString × JSON) :=
  match props with
  | [] => [(k, v)]
  | (k0, v0) :: rest =>
    if keyBefore k k0 then (k, v) :: (k0, v0) :: rest else (k0, v0) :: insertProp rest k v

/-- `CreateDataProperty` on a property list: a key already present keeps its place and
takes the new value, a new key goes to its place in the order of enumeration (after the
smaller array indices when it is an array index, last otherwise). -/
def setProp (props : List (JSString × JSON)) (k : JSString) (v : JSON) :
    List (JSString × JSON) :=
  if props.any (fun p => p.1 == k) then props.map fun p => if p.1 = k then (k, v) else p
  else insertProp props k v

/-- The object built from the members of an object literal, read left to right. -/
def mkObject (members : List (JSString × JSON)) : List (JSString × JSON) :=
  members.foldl (fun acc kv => setProp acc kv.1 kv.2) []

mutual
/-- One JSON value at the head of the text (after whitespace), and the text that follows
it. The first argument bounds the number of nested calls. -/
def parseValue : Nat → JSString → Option (JSON × JSString)
  | 0, _ => none
  | fuel + 1, s =>
    match skipWs s with
    | 110 :: 117 :: 108 :: 108 :: r => some (.null, r)
    | 116 :: 114 :: 117 :: 101 :: r => some (.bool true, r)
    | 102 :: 97 :: 108 :: 115 :: 101 :: r => some (.bool false, r)
    | 34 :: r =>
      match parseChars r with
      | some (str, r1) => some (.str str, r1)
      | none => none
    | 91 :: r =>
      match skipWs r with
      | 93 :: r1 => some (.arr [], r1)
      | _ =>
        match parseItems fuel r with
        | some (items, r1) => some (.arr items, r1)
        | none => none
    | 123 :: r =>
      match skipWs r with
      | 125 :: r1 => some (.obj [], r1)
      | _ =>
        match parseProps fuel r with
        | some (members, r1) => some (.obj (mkObject members), r1)
        | none => none
    | t =>
      match scanNumber t with
      | some (lit, r) => some (.num (numberOfLiteral lit), r)
      | none => none
/-- The elements of a non-empty array up to its closing bracket. -/
def parseItems : Nat → JSString → Option (List JSON × JSString)
  | 0, _ => none
  | fuel + 1, s =>
    match parseValue fuel s with
    | none => none
    | some (v, r) =>
      match skipWs r with
      | 44 :: r1 =>
        match parseItems fuel r1 with
        | some (items, r2) => some (v :: items, r2)
        | none => none
      | 93 :: r1 => some ([v], r1)
      | _ => none
/-- The members of a non-empty object up to its closing brace. -/
def parseProps : Nat → JSString → Option (List (JSString × JSON) × JSString)
  | 0, _ => none
  | fuel + 1, s =>
    match skipWs s with
    | 34 :: r =>
      match parseChars r with
      | none => none
      | some (k, r1) =>
        match skipWs r1 with
        | 58 :: r2 =>
          match parseValue fuel r2 with
          | none => none
          | some (v, r3) =>
            match skipWs r3 with
            | 44 :: r4 =>
              match parseProps fuel r4 with
              | some (members, r5) => some ((k, v) :: members, r5)
              | none => none
            | 125 :: r4 => some ([(k, v)], r4)
            | _ => none
        | _ => none
    | _ => none
end

/-- `JSON.parse(text)`: one value between optional whitespace, `SyntaxError` otherwise. -/
def JSON.parse (text : JSString) : Except JSError JSON :=
  match parseValue (2 * text.length + 1) text with
  | some (v, rest) => if skipWs rest = [] then .ok v else .error .SyntaxError
  | none => .error .SyntaxError

/-- The text is exactly one JSON number literal. -/
def isNumberLit (lit : JSString) : Bool := decide (scanNumber lit = some (lit, []))

/-- The Number is one that `JSON.parse` gives back from the text `JSON.stringify` writes
for it, as a finite double other than the negative zero is (the digits of
`Number::toString` are chosen so that they denote the double). NaN, the infinities, which
are written `null`, and the negative zero, which is written `0`, are not. -/
def isJsonNumber (x : JSNumber) : Bool :=
  isNumberLit (serializeNumber x) && decide (numberOfLiteral (serializeNumber x) = x)

/-- The names are in the order of enumeration of an object. -/
def keysOrdered (keys : List JSString) : Bool :=
  decide (keys.Pairwise fun a b => keyBefore b a = false)

mutual
/-- The value is one that `JSON.parse` gives back from the text `JSON.stringify` writes
for it: every number is one that `JSON.parse` gives back, no object has two properties of
the same name, and the properties of every object are in the order of enumeration. -/
def JSON.wellFormed : JSON → Bool
  | .null => true
  | .bool _ => true
  | .num x => isJsonNumber x
  | .str _ => true
  | .arr items => wellFormedItems items
  | .obj props => decide ((props.map Prod.fst).Nodup) && keysOrdered (props.map Prod.fst) &&
      wellFormedProps props
/-- Every element is well formed. -/
def wellFormedItems : List JSON → Bool
  | [] => true
  | v :: rest => v.wellFormed && wellFormedItems rest
/-- Every property value is well formed. -/
def wellFormedProps : List (JSString × JSON) → Bool
  | [] => true
  | (_, v) :: rest => v.wellFormed && wellFormedProps rest
end

/-! ## Conversions of values -/

mutual
/-- `ToString` of a JSON value, as a template literal applies it. An array joins its
elements with commas, `null` elements giving nothing. -/
def JSON.toStr : JSON → JSString
  | .null => jss "null"
  | .bool true => jss "true"
  | .bool false => jss "false"
  | .num x => numberToString x
  | .str s => s
  | .arr items => joinItems items
  | .obj _ => jss "[object Object]"
/-- `Array.prototype.join` with the comma. -/
def joinItems : List JSON → JSString
  | [] => []
  | [v] => joinItem v
  | v :: w :: rest => joinItem v ++ 44 :: joinItems (w :: rest)
/-- One element inside `join`: nothing for `null`. -/
def joinItem : JSON → JSString
  | .null => []
  | .bool true => jss "true"
  | .bool false => jss "false"
  | .num x => numberToString x
  | .str s => s
  | .arr items => joinItems items
  | .obj _ => jss "[object Object]"
end

/-- `ToString` of a value that may be `undefined` (`none`). -/
def toStr : Option JSON → JSString
  | none => jss "undefined"
  | some v => v.toStr

/-- `ToString` of a string that may be `undefined`. -/
def strOrUndefined : Option JSString → JSString
  | none => jss "undefined"
  | some s => s

/-- `ToBoolean`: what `!v` and `v || w` test. -/
def JSON.truthy : JSON → Bool
  | .null => false
  | .bool b => b
  | .num x => numberTruthy x
  | .str s => !s.isEmpty
  | .arr _ => true
  | .obj _ => true

/-- `ToBoolean` of a value that may be `undefined`. -/
def truthy : Option JSON → Bool
  | none => false
  | some v => v.truthy

/-- The value of an own property in a property list. -/
def lookupProp (k : JSString) : List (JSString × JSON) → Option JSON
  | [] => none
  | (k0, v0) :: rest => if k0 = k then some v0 else lookupProp k rest

/-- The expression `v.name` for one of the property names the worker reads (`id`,
`message`, `sessionId`, `candidates`, `content`, `parts`, `text`), none of which a
prototype defines: `TypeError` on `null`, the own property of an object, `undefined`
on every other value. -/
def JSON.getProp (v : JSON) (name : JSString) : Except JSError (Option JSON) :=
  match v with
  | .null => .error .TypeError
  | .obj props => .ok (lookupProp name props)
  | _ => .ok none

/-- The expression `v?.name`: `undefined` on `undefined` and `null`. -/
def optProp (v : Option JSON) (name : JSString) : Option JSON :=
  match v with
  | some (.obj props) => lookupProp name props
  | _ => none

/-- The expression `v?.[0]`: the first element of an array, the first character of a
string, the property `0` of an object. -/
def optFirst (v : Option JSON) : Option JSON :=
  match v with
  | some (.arr items) => items.head?
  | some (.str s) => s.head?.map fun c => .str [c]
  | some (.obj props) => lookupProp (jss "0") props
  | _ => none

/-- The comparison `a !== b` between two values read from two different JSON texts: two
primitives differ when their types or their values do (two numbers by `Number::equal`),
and an array or an object, being a fresh reference, differs from everything. -/
def strictNe : Option JSON → Option JSON → Bool
  | none, none => false
  | some .null, some .null => false
  | some (.bool a), some (.bool b) => a != b
  | some (.num a), some (.num b) => !numberEqual a b
  | some (.str a), some (.str b) => a != b
  | _, _ => true

/-! ## The cryptographic primitives -/

/-- The primitives of `crypto.subtle` that the worker uses, as inputs of the model. -/
structure Platform where
  /-- Whether `importKey("raw", key, {name: "HMAC", hash: "SHA-256"}, ..)` accepts the
  key bytes. -/
  hmacKeyOk : List Byte → Bool
  /-- The HMAC-SHA256 tag of a message under a key. -/
  hmac : List Byte → List Byte → List Byte
  /-- The key PBKDF2 derives with SHA-256 from a password and a salt, for an iteration
  count and a length in bits. -/
  pbkdf2 : List Byte → List Byte → Nat → Nat → List Byte

/-- `crypto.subtle.importKey("raw", key, {name: "HMAC", hash: "SHA-256"}, false, ..)`. -/
def importHmacKey (P : Platform) (key : List Byte) : Except JSError (List Byte) :=
  if P.hmacKeyOk key then .ok key else .error .DataError

/-- `crypto.subtle.verify("HMAC", key, signature, data)`: the tag is computed again and
compared with the signature. -/
def hmacVerify (P : Platform) (key signature data : List Byte) : Bool :=
  decide (P.hmac key data = signature)

/-! ## `hashPassword`, `signJWT`, `verifyJWT` -/

/-- The result of `hashPassword`. -/
structure PasswordHash where
  hash : JSString
  salt : JSString
  deriving DecidableEq, Repr

/-- `hashPassword(password, salt = null)` (worker.js 4-23). `rnd` is what
`crypto.getRandomValues(new Uint8Array(16))` returns if it is called. A salt that is
`null` or the empty string is falsy, so the random bytes are taken. -/
def hashPassword (P : Platform) (rnd : List Byte) (password : JSString)
    (salt : Option JSString) : Except JSError PasswordHash :=
  let saltBytes : Except JSError (List Byte) :=
    match salt with
    | none => .ok rnd
    | some s => if s.isEmpty then .ok rnd else (atob s).map bytesOfString
  match saltBytes with
  | .error e => .error e
  | .ok saltBytes =>
    let exported := P.pbkdf2 (utf8Encode password) saltBytes 100000 256
    match btoa (stringOfBytes exported), btoa (stringOfBytes saltBytes) with
    | .ok hash, .ok salt => .ok { hash := hash, salt := salt }
    | .error e, _ => .error e
    | _, .error e => .error e

/-- The header object of `signJWT`: `{ alg: "HS256", type: "JWT" }`. -/
def jwtHeader : JSON := .obj [(jss "alg", .str (jss "HS256")), (jss "type", .str (jss "JWT"))]

/-- The signature segment: base64 with `=` removed, `+` replaced by `-` and `/` by `_`. -/
def base64Url (sig : JSString) : JSString :=
  replaceAll 47 95 (replaceAll 43 45 (removeAll 61 sig))

/-- A character of the URL-safe base64 alphabet: a letter, a digit, `-` or `_`. -/
def isBase64UrlChar (c : Nat) : Bool :=
  (decide (65 ≤ c) && decide (c ≤ 90)) || (decide (97 ≤ c) && decide (c ≤ 122)) ||
    (decide (48 ≤ c) && decide (c ≤ 57)) || c = 45 || c = 95

/-- `signJWT(payload, secret)` (worker.js 27-40). -/
def signJWT (P : Platform) (payload : JSON) (secret : JSString) : Except JSError JSString :=
  match btoa jwtHeader.stringify with
  | .error e => .error e
  | .ok header =>
    match btoa payload.stringify with
    | .error e => .error e
    | .ok body =>
      match importHmacKey P (utf8Encode secret) with
      | .error e => .error e
      | .ok key =>
        let signature := P.hmac key (utf8Encode (header ++ 46 :: body))
        match btoa (stringOfBytes signature) with
        | .error e => .error e
        | .ok sig => .ok (header ++ 46 :: body ++ 46 :: base64Url sig)

/-- The loop `while (signStr.length % 4) signStr += "="`; the first argument bounds the
number of iterations. -/
def padLoop : Nat → JSString → JSString
  | 0, s => s
  | fuel + 1, s => if s.length % 4 ≠ 0 then padLoop fuel (s ++ [61]) else s

/-- The body of the `try` block of `verifyJWT` (worker.js 46-60). A token that is
`undefined` or not a string is `none`: `token.split` throws on it. -/
def verifyJWTTry (P : Platform) (token : Option JSString) (secret : JSString) :
    Except JSError JSON :=
  match token with
  | none => .error .TypeError
  | some token =>
    let segs := split 46 token
    let header := segs.get? 0
    let body := segs.get? 1
    let signature := segs.get? 2
    match importHmacKey P (utf8Encode secret) with
    | .error e => .error e
    | .ok key =>
      match signature with
      | none => .error .TypeError
      | some signature =>
        let signStr := padLoop 3 (replaceAll 95 47 (replaceAll 45 43 signature))
        match atob signStr with
        | .error e => .error e
        | .ok sigBin =>
          let valid := hmacVerify P key (bytesOfString sigBin)
            (utf8Encode (strOrUndefined header ++ 46 :: strOrUndefined body))
          if valid then
            match atob (strOrUndefined body) with
            | .error e => .error e
            | .ok text => JSON.parse text
          else .ok .null

/-- `verifyJWT(token, secret)` (worker.js 44-62): the `try` block, and `null` from the
`catch`. -/
def verifyJWT (P : Platform) (token : Option JSString) (secret : JSString) : JSON :=
  match verifyJWTTry P token secret with
  | .ok v => v
  | .error _ => .null

/-! ## The stores, the request and the response -/

/-- A row of the table `users`. -/
structure UserRow where
  id : JSString
  username : JSON
  email : JSON
  password_hash : JSString
  salt : JSString

/-- The bindings of the worker: the relational store `DB`, the key-value store
`CHAT_HISTORY` (the text stored under each key) and the secret `JWT_SECRET`. -/
structure Env where
  DB : List UserRow
  CHAT_HISTORY : JSString → Option JSString
  JWT_SECRET : JSString

/-- What the handler reads of a request: the method, the path of the URL, the value of
`headers.get("Authorization")` (`none` for `null`) and the result of `request.json()`. -/
structure Request where
  method : JSString
  pathname : JSString
  authorization : Option JSString
  json : Except JSError JSON

/-- What the platform answers during one request: the bytes of `getRandomValues`, the
string of `randomUUID`, the literal of `Date.now()`, and the JSON of the reply of the
generative API (or the exception of that call). -/
structure Oracle where
  randomBytes : List Byte
  uuid : JSString
  now : JSString
  gemini : Except JSError JSON

/-- A response: its status and its body. -/
structure Response where
  status : Nat
  body : JSString
  deriving DecidableEq, Repr

/-- An operation on the key-value store. -/
inductive KVOp where
  | get (key : JSString)
  | put (key value : JSString)
  deriving DecidableEq, Repr

/-- What one call of `fetch` does: the response (or the exception that escapes), the
bindings afterwards, and the operations on the key-value store in order. -/
structure Outcome where
  response : Except JSError Response
  env : Env
  kvOps : List KVOp

/-- A response that leaves the stores as they are. -/
def respond (env : Env) (status : Nat) (body : JSString) : Outcome :=
  { response := .ok { status := status, body := body }, env := env, kvOps := [] }

/-- An exception that escapes before any store is touched. -/
def throwOut (env : Env) (e : JSError) : Outcome :=
  { response := .error e, env := env, kvOps := [] }

/-- `CHAT_HISTORY.put(key, value)`. -/
def kvPut (env : Env) (key value : JSString) : Env :=
  { env with CHAT_HISTORY := fun k => if k = key then some value else env.CHAT_HISTORY k }

/-- `CHAT_HISTORY.get(key, { type: "json" })`: `null` for a missing key, the parsed text
otherwise. -/
def kvGetJson (env : Env) (key : JSString) : Except JSError JSON :=
  match env.CHAT_HISTORY key with
  | none => .ok .null
  | some text => JSON.parse text

/-- Modelled from the spec: the binding of a statement parameter of the relational store,
whose schema and driver are not under src/. A primitive is bound (a boolean as 0 or 1),
`undefined`, arrays and objects are refused. -/
def bindValue : Option JSON → Except JSError JSON
  | some .null => .ok .null
  | some (.bool b) => .ok (.num (numberOfLiteral (if b then [49] else [48])))
  | some (.num x) => .ok (.num x)
  | some (.str s) => .ok (.str s)
  | _ => .error .TypeError

/-- Modelled from the spec: the SQL comparison `column = ?` of the relational store:
two strings or two numbers that are the same; NULL equals nothing. -/
def sqlEq : JSON → JSON → Bool
  | .str a, .str b => a == b
  | .num a, .num b => numberEqual a b
  | _, _ => false

/-- Modelled from the spec: `INSERT INTO users ..` on the relational store, which refuses
a second row with the same identifier or the same email (section 3: identifier and email
are unique). -/
def dbInsert (db : List UserRow) (id : JSString) (username email : Option JSON)
    (hash salt : JSString) : Except JSError (List UserRow) :=
  match bindValue username, bindValue email with
  | .ok username, .ok email =>
    if db.any (fun row => row.id == id || sqlEq row.email email) then .error .ConstraintError
    else .ok (db ++ [{ id := id, username := username, email := email,
                       password_hash := hash, salt := salt }])
  | .error e, _ => .error e
  | _, .error e => .error e

/-- Modelled from the spec: `SELECT * FROM users WHERE email = ?` followed by `first()`. -/
def dbFirstByEmail (db : List UserRow) (email : Option JSON) :
    Except JSError (Option UserRow) :=
  match bindValue email with
  | .ok email => .ok (db.find? fun row => sqlEq row.email email)
  | .error e => .error e

/-- The argument of `TextEncoder.encode`, whose parameter defaults to the empty string. -/
def encodeArg : Option JSON → JSString
  | none => []
  | some v => v.toStr

/-! ## The routes of `fetch` -/

/-- POST /auth/signup (worker.js 83-100). -/
def signup (P : Platform) (env : Env) (req : Request) (o : Oracle) : Outcome :=
  match req.json with
  | .error e => throwOut env e
  | .ok body =>
    match body.getProp (jss "email"), body.getProp (jss "password"),
        body.getProp (jss "username") with
    | .ok email, .ok password, .ok username =>
      match hashPassword P o.randomBytes (encodeArg password) none with
      | .error e => throwOut env e
      | .ok h =>
        match dbInsert env.DB o.uuid username email h.hash h.salt with
        | .ok db => respond { env with DB := db } 200 (JSON.stringify (.obj [(jss "success", .bool true)]))
        | .error _ => respond env 400
            (JSON.stringify (.obj [(jss "error", .str (jss "Email exists or Error"))]))
    | .error e, _, _ => throwOut env e
    | _, .error e, _ => throwOut env e
    | _, _, .error e => throwOut env e

/-- The part of POST /auth/login after the row was found (worker.js 110-118). -/
def loginUser (P : Platform) (env : Env) (o : Oracle) (password : Option JSON)
    (user : UserRow) : Outcome :=
  match hashPassword P o.randomBytes (encodeArg password) (some user.salt) with
  | .error e => throwOut env e
  | .ok h =>
    if h.hash ≠ user.password_hash then respond env 401 (jss "Invalid pass")
    else
      match signJWT P (.obj [(jss "id", .str user.id), (jss "email", user.email)])
          env.JWT_SECRET with
      | .error e => throwOut env e
      | .ok token =>
        respond env 200
          (JSON.stringify (.obj [(jss "token", .str token), (jss "userId", .str user.id)]))

/-- POST /auth/login (worker.js 103-119). -/
def login (P : Platform) (env : Env) (req : Request) (o : Oracle) : Outcome :=
  match req.json with
  | .error e => throwOut env e
  | .ok body =>
    match body.getProp (jss "email"), body.getProp (jss "password") with
    | .ok email, .ok password =>
      match dbFirstByEmail env.DB email with
      | .error e => throwOut env e
      | .ok none => respond env 401 (jss "User not found")
      | .ok (some user) => loginUser P env o password user
    | .error e, _ => throwOut env e
    | _, .error e => throwOut env e

/-- The key of a user in the key-value store: the template `user:${id}:history`. -/
def historyKey (userId : Option JSON) : JSString :=
  jss "user:" ++ toStr userId ++ jss ":history"

/-- The expression `stored || []` followed by a call of an array method: the elements of
an array, no element for a falsy value, `TypeError` for any other value. -/
def historyItems (stored : JSON) : Except JSError (List JSON) :=
  if !stored.truthy then .ok []
  else match stored with
    | .arr items => .ok items
    | _ => .error .TypeError

/-- The properties of an object literal that `JSON.stringify` writes: those whose value
is not `undefined`. -/
def definedProps : List (JSString × Option JSON) → List (JSString × JSON)
  | [] => []
  | (k, some v) :: rest => (k, v) :: definedProps rest
  | (_, none) :: rest => definedProps rest

/-- A history entry `{ role, text, sessionId, timestamp }`, as it is serialized. -/
def mkEntry (role : JSString) (text sessionId : Option JSON) (timestamp : JSString) : JSON :=
  .obj (definedProps [(jss "role", some (.str role)), (jss "text", text),
    (jss "sessionId", sessionId), (jss "timestamp", some (.num (numberOfLiteral timestamp)))])

/-- The update of the history in POST /chat (worker.js 156-160): two `push`, then
`slice(-100)` when the length is above 100. -/
def chatHistory (history : List JSON) (userEntry botEntry : JSON) : List JSON :=
  let history := (history ++ [userEntry]) ++ [botEntry]
  if history.length > 100 then history.drop (history.length - 100) else history

/-- The value of `data.candidates?.[0]?.content?.parts?.[0]?.text || "Error from AI"`. -/
def botReply (data : JSON) : Except JSError JSON :=
  match data.getProp (jss "candidates") with
  | .error e => .error e
  | .ok candidates =>
    let text := optProp (optFirst (optProp (optProp (optFirst candidates) (jss "content"))
      (jss "parts"))) (jss "text")
    match text with
    | some v => if v.truthy then .ok v else .ok (.str (jss "Error from AI"))
    | none => .ok (.str (jss "Error from AI"))

/-- POST /chat (worker.js 131-166), for the verified payload of the token. -/
def chat (env : Env) (req : Request) (o : Oracle) (userPayload : JSON) : Outcome :=
  match req.json with
  | .error e => throwOut env e
  | .ok body =>
    match body.getProp (jss "message"), body.getProp (jss "sessionId"),
        userPayload.getProp (jss "id") with
    | .ok message, .ok sessionId, .ok userId =>
      match o.gemini with
      | .error e => throwOut env e
      | .ok data =>
        match botReply data with
        | .error e => throwOut env e
        | .ok reply =>
          let key := historyKey userId
          match kvGetJson env key with
          | .error e => { response := .error e, env := env, kvOps := [.get key] }
          | .ok stored =>
            match historyItems stored with
            | .error e => { response := .error e, env := env, kvOps := [.get key] }
            | .ok history =>
              let history := chatHistory history
                (mkEntry (jss "user") message sessionId o.now)
                (mkEntry (jss "bot") (some reply) sessionId o.now)
              let value := JSON.stringify (.arr history)
              { response := .ok { status := 200,
                                  body := JSON.stringify (.obj [(jss "reply", reply)]) },
                env := kvPut env key value,
                kvOps := [.get key, .put key value] }
    | .error e, _, _ => throwOut env e
    | _, .error e, _ => throwOut env e
    | _, _, .error e => throwOut env e

/-- GET /history (worker.js 169-173). -/
def historyGet (env : Env) (userPayload : JSON) : Outcome :=
  match userPayload.getProp (jss "id") with
  | .error e => throwOut env e
  | .ok userId =>
    let key := historyKey userId
    match kvGetJson env key with
    | .error e => { response := .error e, env := env, kvOps := [.get key] }
    | .ok stored =>
      let history := if stored.truthy then stored else .arr []
      { response := .ok { status := 200, body := JSON.stringify history },
        env := env, kvOps := [.get key] }

/-- The callback of `history.filter(m => m.sessionId !== sessionId)` on every element. -/
def filterSession (sessionId : Option JSON) : List JSON → Except JSError (List JSON)
  | [] => .ok []
  | m :: rest =>
    match m.getProp (jss "sessionId") with
    | .error e => .error e
    | .ok sid =>
      match filterSession sessionId rest with
      | .error e => .error e
      | .ok kept => .ok (if strictNe sid sessionId then m :: kept else kept)

/-- DELETE /history (worker.js 176-187). -/
def historyDelete (env : Env) (req : Request) (userPayload : JSON) : Outcome :=
  match req.json with
  | .error e => throwOut env e
  | .ok body =>
    match body.getProp (jss "sessionId"), userPayload.getProp (jss "id") with
    | .ok sessionId, .ok userId =>
      let key := historyKey userId
      match kvGetJson env key with
      | .error e => { response := .error e, env := env, kvOps := [.get key] }
      | .ok stored =>
        match historyItems stored with
        | .error e => { response := .error e, env := env, kvOps := [.get key] }
        | .ok history =>
          match filterSession sessionId history with
          | .error e => { response := .error e, env := env, kvOps := [.get key] }
          | .ok newHistory =>
            let value := JSON.stringify (.arr newHistory)
            { response := .ok { status := 200,
                                body := JSON.stringify (.obj [(jss "success", .bool true)]) },
              env := kvPut env key value,
              kvOps := [.get key, .put key value] }
    | .error e, _ => throwOut env e
    | _, .error e => throwOut env e

/-- The handler `fetch(request, env)` (worker.js 68-191). -/
def fetch (P : Platform) (env : Env) (req : Request) (o : Oracle) : Outcome :=
  if req.method = jss "OPTIONS" then respond env 200 []
  else if req.pathname = jss "/auth/signup" ∧ req.method = jss "POST" then
    signup P env req o
  else if req.pathname = jss "/auth/login" ∧ req.method = jss "POST" then
    login P env req o
  else
    match req.authorization with
    | none => respond env 401 (jss "Unauthorized")
    | some authHeader =>
      if authHeader.isEmpty then respond env 401 (jss "Unauthorized")
      else
        let userPayload := verifyJWT P ((split 32 authHeader).get? 1) env.JWT_SECRET
        if !userPayload.truthy then respond env 403 (jss "Invalid Token")
        else if req.pathname = jss "/chat" ∧ req.method = jss "POST" then
          chat env req o userPayload
        else if req.pathname = jss "/history" ∧ req.method = jss "GET" then
          historyGet env userPayload
        else if req.pathname = jss "/history" ∧ req.method = jss "DELETE" then
          historyDelete env req userPayload
        else respond env 404 (jss "Not Found")

/-! ## Auxiliary definitions for the proofs -/

/-- The base64 characters of a byte sequence, without the padding. -/
def b64Core : List Nat → JSString
  | [] => []
  | [a] => [b64Char (a / 4), b64Char (a % 4 * 16)]
  | [a, b] => [b64Char (a / 4), b64Char (a % 4 * 16 + b / 16), b64Char (b % 16 * 4)]
  | a :: b :: c :: rest =>
    b64Char (a / 4) :: b64Char (a % 4 * 16 + b / 16) :: b64Char (b % 16 * 4 + c / 64) ::
      b64Char (c % 64) :: b64Core rest

/-- The six-bit values of a byte sequence. -/
def b64Sextets : List Nat → List Nat
  | [] => []
  | [a] => [a / 4, a % 4 * 16]
  | [a, b] => [a / 4, a % 4 * 16 + b / 16, b % 16 * 4]
  | a :: b :: c :: rest =>
    (a / 4) :: (a % 4 * 16 + b / 16) :: (b % 16 * 4 + c / 64) :: (c % 64) :: b64Sextets rest

/-- What `parseChars` returns after one more decoded code unit. -/
def consChar (c : Nat) : Option (JSString × JSString) → Option (JSString × JSString)
  | some (str, r) => some (c :: str, r)
  | none => none

/-- What may follow a number literal without extending it. -/
def NumFollow (rest : JSString) : Prop :=
  ∀ c, rest.head? = some c → isDigit c = false ∧ c ≠ 46 ∧ c ≠ 101 ∧ c ≠ 69

/-- The three statements of the round trip, for one bound on the nested calls. -/
def RoundTrip (n : Nat) : Prop :=
  (∀ v rest, v.wellFormed = true → 2 * v.stringify.length ≤ n → NumFollow rest →
      parseValue n (v.stringify ++ rest) = some (v, rest)) ∧
  (∀ v items rest, wellFormedItems (v :: items) = true →
      2 * (stringifyItems (v :: items)).length + 1 ≤ n →
      parseItems n (stringifyItems (v :: items) ++ 93 :: rest) = some (v :: items, rest)) ∧
  (∀ p props rest, wellFormedProps (p :: props) = true →
      2 * (stringifyProps (p :: props)).length + 1 ≤ n →
      parseProps n (stringifyProps (p :: props) ++ 125 :: rest) = some (p :: props, rest))

/-- A small instance of the primitives, on which the model is evaluated at concrete
inputs: the tag is the lengths and the byte sums of the key and of the message, the
derived key the byte sums and lengths of the password and of the salt. It stands for no
real algorithm. -/
def demoPlatform : Platform where
  hmacKeyOk := fun key => !key.isEmpty
  hmac := fun key msg =>
    [toByte key.length, toByte (key.map Fin.val).sum, toByte msg.length,
      toByte (msg.map Fin.val).sum]
  pbkdf2 := fun password salt _ _ =>
    [toByte password.length, toByte (password.map Fin.val).sum, toByte salt.length,
      toByte (salt.map Fin.val).sum]

/-- The property `id` of a verified payload (`undefined` when it has none). -/
def idOf (payload : JSON) : Option JSON := optProp (some payload) (jss "id")

/-- The property `sessionId` of a history entry (`undefined` when it has none). -/
def sessionOf (m : JSON) : Option JSON := optProp (some m) (jss "sessionId")

/-- The two entries that POST /chat appends, and the history it writes. -/
def chatWritten (history : List JSON) (body reply : JSON) (now : JSString) : List JSON :=
  chatHistory history
    (mkEntry (jss "user") (optProp (some body) (jss "message"))
      (optProp (some body) (jss "sessionId")) now)
    (mkEntry (jss "bot") (some reply) (optProp (some body) (jss "sessionId")) now)

/-- The history that DELETE /history writes. -/
def deleteWritten (history : List JSON) (body : JSON) : List JSON :=
  history.filter fun m => strictNe (sessionOf m) (optProp (some body) (jss "sessionId"))

/-- The payload the middleware of `fetch` verifies: `null` without the header. -/
def verifiedPayload (P : Platform) (env : Env) (req : Request) : JSON :=
  match req.authorization with
  | none => .null
  | some authHeader => verifyJWT P ((split 32 authHeader).get? 1) env.JWT_SECRET

/-- The routes behind the middleware, for the verified payload. -/
def routes (env : Env) (req : Request) (o : Oracle) (userPayload : JSON) : Outcome :=
  if req.pathname = jss "/chat" ∧ req.method = jss "POST" then chat env req o userPayload
  else if req.pathname = jss "/history" ∧ req.method = jss "GET" then
    historyGet env userPayload
  else if req.pathname = jss "/history" ∧ req.method = jss "DELETE" then
    historyDelete env req userPayload
  else respond env 404 (jss "Not Found")

/-- The middleware of `fetch` and what follows it. -/
def guarded (P : Platform) (env : Env) (req : Request) (o : Oracle) : Outcome :=
  match req.authorization with
  | none => respond env 401 (jss "Unauthorized")
  | some authHeader =>
    if authHeader.isEmpty then respond env 401 (jss "Unauthorized")
    else if !(verifiedPayload P env req).truthy then respond env 403 (jss "Invalid Token")
    else routes env req o (verifiedPayload P env req)

/-- The body of the request is a value JavaScript can hold. -/
def Request.wellFormed (req : Request) : Bool :=
  match req.json with
  | .ok body => body.wellFormed
  | .error _ => true

/-- The answers of the platform are values JavaScript can hold: the clock gives a number,
the generative API a JSON value. -/
def Oracle.wellFormed (o : Oracle) : Bool :=
  isJsonNumber (numberOfLiteral o.now) &&
    match o.gemini with
    | .ok data => data.wellFormed
    | .error _ => true

/-- The bindings after a sequence of requests, each with the answers of the platform. -/
def run (P : Platform) (env : Env) : List (Request × Oracle) → Env
  | [] => env
  | (req, o) :: rest => run P (fetch P env req o).env rest

/-- Every text in the key-value store is the serialization of an array of at most 100
well-formed entries. -/
def HistoryCapped (env : Env) : Prop :=
  ∀ key text, env.CHAT_HISTORY key = some text →
    ∃ H : List JSON, text = JSON.stringify (.arr H) ∧ wellFormedItems H = true ∧ H.length ≤ 100

/-- A value that may be `undefined` is well formed. -/
def OptWellFormed (x : Option JSON) : Prop := ∀ v, x = some v → v.wellFormed = true

/-- A value compared by value: `undefined`, `null`, a boolean, a number or a string. -/
def isPrimitive : Option JSON → Bool
  | some (.arr _) => false
  | some (.obj _) => false
  | _ => true

/-- Bindings with empty stores, for the evaluation of the handler at concrete requests. -/
def demoEnv : Env :=
  { DB := [], CHAT_HISTORY := fun _ => none, JWT_SECRET := jss "secret" }

/-- Answers of the platform for the evaluation of the handler at concrete requests: the
generative API replies with the text `hi`. -/
def demoOracle : Oracle :=
  { randomBytes := List.replicate 16 (toByte 1),
    uuid := jss "u1",
    now := jss "1700000000000",
    gemini := .ok (.obj [(jss "candidates", .arr [.obj [(jss "content",
      .obj [(jss "parts", .arr [.obj [(jss "text", .str (jss "hi"))]])])]])]) }

/-- The header `Authorization: Bearer <token>` for the token of the user `u1` under the
secret of `demoEnv`. -/
def demoBearer : JSString :=
  jss "Bearer eyJhbGciOiJIUzI1NiIsInR5cGUiOiJKV1QifQ==.eyJpZCI6InUxIiwiZW1haWwiOiJhQHguY29tIn0=.BoZRhg"

/-- A request POST /chat of the user `u1` with the message `hello` in the session `s1`. -/
def demoChat : Request :=
  { method := jss "POST", pathname := jss "/chat", authorization := some demoBearer,
    json := .ok (.obj [(jss "message", .str (jss "hello")), (jss "sessionId", .str (jss "s1"))]) }

/-- A request DELETE /history of the user `u1` for the session `s1`. -/
def demoDelete : Request :=
  { method := jss "DELETE", pathname := jss "/history", authorization := some demoBearer,
    json := .ok (.obj [(jss "sessionId", .str (jss "s1"))]) }

/-- A request GET /history whose header `Authorization` is present and empty. -/
def demoEmptyAuth : Request :=
  { method := jss "GET", pathname := jss "/history", authorization := some [],
    json := .error .SyntaxError }

/-- A request GET /history without the header `Authorization`. -/
def demoNoAuth : Request :=
  { method := jss "GET", pathname := jss "/history", authorization := none,
    json := .error .SyntaxError }

/-- A history of 100 entries `m0`, .., `m99`, the oldest first. -/
def demoHistory : List JSON :=
  (List.range 100).map fun i => .obj [(jss "text", .str (jss "m" ++ decimalDigits i))]

/-- Bindings in which the history of the user `u1` holds the 100 entries of
`demoHistory`. -/
def demoFullEnv : Env :=
  { DB := [],
    CHAT_HISTORY := fun k =>
      if k = jss "user:u1:history" then some (JSON.stringify (.arr demoHistory)) else none,
    JWT_SECRET := jss "secret" }

/-- Bindings in which the history of the user `u1` holds three entries: two of the session
`s1`, one of the session `s2`. -/
def demoSessionsEnv : Env :=
  { DB := [],
    CHAT_HISTORY := fun k =>
      if k = jss "user:u1:history" then
        some (jss "[\x7b\"text\":\"a\",\"sessionId\":\"s1\"\x7d,\x7b\"text\":\"b\",\"sessionId\":\"s2\"\x7d,\x7b\"text\":\"c\",\"sessionId\":\"s1\"\x7d]")
      else none,
    JWT_SECRET := jss "secret" }

/-- Bindings in which the history of the user `u1` holds two entries whose session
identifiers are the numbers 1 and 2. -/
def demoNumbersEnv : Env :=
  { DB := [],
    CHAT_HISTORY := fun k =>
      if k = jss "user:u1:history" then
        some (jss "[\x7b\"sessionId\":1\x7d,\x7b\"sessionId\":2\x7d]")
      else none,
    JWT_SECRET := jss "secret" }

/-- A request DELETE /history of the user `u1` whose body is `{"sessionId":1.0}`. -/
def demoDeleteNumber : Request :=
  { method := jss "DELETE", pathname := jss "/history", authorization := some demoBearer,
    json := .ok (.obj [(jss "sessionId", .num (numberOfLiteral (jss "1.0")))]) }

/-- Bindings in which the history of the user `u1` holds an entry of the session `s1`
followed by `null`. -/
def demoNullEnv : Env :=
  { DB := [],
    CHAT_HISTORY := fun k =>
      if k = jss "user:u1:history" then
        some (jss "[\x7b\"text\":\"a\",\"sessionId\":\"s1\"\x7d,null]")
      else none,
    JWT_SECRET := jss "secret" }

/-- One step of `parseValue`, for given parsers of the elements and of the members. -/
def parseValueStep (pItems : JSString → Option (List JSON × JSString))
    (pProps : JSString → Option (List (JSString × JSON) × JSString)) (t : JSString) :
    Option (JSON × JSString) :=
  match t with
  | 110 :: 117 :: 108 :: 108 :: r => some (.null, r)
  | 116 :: 114 :: 117 :: 101 :: r => some (.bool true, r)
  | 102 :: 97 :: 108 :: 115 :: 101 :: r => some (.bool false, r)
  | 34 :: r =>
    match parseChars r with
    | some (str, r1) => some (.str str, r1)
    | none => none
  | 91 :: r =>
    match skipWs r with
    | 93 :: r1 => some (.arr [], r1)
    | _ =>
      match pItems r with
      | some (items, r1) => some (.arr items, r1)
      | none => none
  | 123 :: r =>
    match skipWs r with
    | 125 :: r1 => some (.obj [], r1)
    | _ =>
      match pProps r with
      | some (members, r1) => some (.obj (mkObject members), r1)
      | none => none
  | t =>
    match scanNumber t with
    | some (lit, r) => some (.num (numberOfLiteral lit), r)
    | none => none

/-- The parsers of one bound agree with the parsers of another wherever the first give a
result. -/
def FuelLe (f g : Nat) : Prop :=
  (∀ s x, parseValue f s = some x → parseValue g s = some x) ∧
  (∀ s x, parseItems f s = some x → parseItems g s = some x) ∧
  (∀ s x, parseProps f s = some x → parseProps g s = some x)

/-- A result is reached with a bound of at most twice the number of characters read. -/
def FuelBound (f : Nat) : Prop :=
  (∀ s v rest, parseValue f s = some (v, rest) →
    rest.length < s.length ∧
      ∃ g, g ≤ 2 * (s.length - rest.length) ∧ parseValue g s = some (v, rest)) ∧
  (∀ s items rest, parseItems f s = some (items, rest) →
    rest.length < s.length ∧
      ∃ g, g ≤ 2 * (s.length - rest.length) + 1 ∧ parseItems g s = some (items, rest)) ∧
  (∀ s members rest, parseProps f s = some (members, rest) →
    rest.length < s.length ∧
      ∃ g, g ≤ 2 * (s.length - rest.length) + 1 ∧ parseProps g s = some (members, rest))

/-! ## Base64 round trip -/

theorem b64Val_b64Char : ∀ i, i < 64 → b64Val (b64Char i) = some i := by decide

theorem b64Char_ne_pad : ∀ i, i < 64 → b64Char i ≠ 61 := by decide

theorem b64Char_not_ws : ∀ i, i < 64 → isAsciiWhitespace (b64Char i) = false := by decide

theorem b64Encode_eq_core (s : List Nat) :
    b64Encode s = b64Core s ++ List.replicate ((3 - s.length % 3) % 3) 61 := by
  induction s using b64Core.induct with
  | case1 => rfl
  | case2 a => rfl
  | case3 a b => rfl
  | case4 a b c rest ih =>
    simp only [b64Encode, b64Core, ih, List.length_cons, List.cons_append]
    have : (rest.length + 1 + 1 + 1) % 3 = rest.length % 3 := by omega
    rw [this]


theorem b64Sextets_lt (s : List Nat) (hs : ∀ c ∈ s, c ≤ 255) : ∀ v ∈ b64Sextets s, v < 64 := by
  induction s using b64Core.induct with
  | case1 => simp [b64Sextets]
  | case2 a =>
    have := hs a (by simp)
    simp only [b64Sextets, List.mem_cons, List.mem_singleton, List.not_mem_nil, or_false]
    rintro v (rfl | rfl) <;> omega
  | case3 a b =>
    have := hs a (by simp)
    have := hs b (by simp)
    simp only [b64Sextets, List.mem_cons, List.mem_singleton, List.not_mem_nil, or_false]
    rintro v (rfl | rfl | rfl) <;> omega
  | case4 a b c rest ih =>
    have := hs a (by simp)
    have := hs b (by simp)
    have := hs c (by simp)
    have ih := ih (fun x hx => hs x (by simp [hx]))
    simp only [b64Sextets, List.mem_cons]
    rintro v (rfl | rfl | rfl | rfl | hv)
    · omega
    · omega
    · omega
    · omega
    · exact ih v hv

theorem b64Core_eq_map (s : List Nat) : b64Core s = (b64Sextets s).map b64Char := by
  induction s using b64Core.induct with
  | case1 => rfl
  | case2 a => rfl
  | case3 a b => rfl
  | case4 a b c rest ih => simp [b64Core, b64Sextets, ih]

theorem b64DecodeVals_sextets (s : List Nat) (hs : ∀ c ∈ s, c ≤ 255) :
    b64DecodeVals (b64Sextets s) = s := by
  induction s using b64Core.induct with
  | case1 => rfl
  | case2 a =>
    have := hs a (by simp)
    simp only [b64Sextets, b64DecodeVals, List.cons.injEq, and_true]
    omega
  | case3 a b =>
    have := hs a (by simp)
    have := hs b (by simp)
    simp only [b64Sextets, b64DecodeVals, List.cons.injEq, and_true]
    omega
  | case4 a b c rest ih =>
    have := hs a (by simp)
    have := hs b (by simp)
    have := hs c (by simp)
    have ih := ih (fun x hx => hs x (by simp [hx]))
    simp only [b64Sextets, b64DecodeVals, ih, List.cons.injEq, and_true]
    omega

theorem b64Vals_map (vs : List Nat) (h : ∀ v ∈ vs, v < 64) :
    b64Vals (vs.map b64Char) = some vs := by
  induction vs with
  | nil => rfl
  | cons v vs ih =>
    have hv := b64Val_b64Char v (h v (by simp))
    have ih := ih (fun x hx => h x (by simp [hx]))
    simp [b64Vals, hv, ih]

theorem b64Sextets_length (s : List Nat) :
    (b64Sextets s).length + (3 - s.length % 3) % 3 = 4 * ((s.length + 2) / 3) := by
  induction s using b64Core.induct with
  | case1 => rfl
  | case2 a => simp [b64Sextets]
  | case3 a b => simp [b64Sextets]
  | case4 a b c rest ih =>
    simp only [b64Sextets, List.length_cons]
    omega


theorem removePadding_append (core : JSString) (h : ∀ c ∈ core, c ≠ 61) (n : Nat) (hn : n ≤ 2) :
    removePadding (core ++ List.replicate n 61) = core := by
  have hlast : core.getLast? ≠ some 61 := by
    intro hc
    exact h 61 (List.mem_of_getLast?_eq_some hc) rfl
  interval_cases n
  · simp [removePadding, hlast]
  · simp [removePadding, hlast, List.dropLast_concat]
  · have : core ++ List.replicate 2 61 = (core ++ [61]) ++ [61] := by simp [List.replicate]
    rw [this]
    simp [removePadding, hlast, List.dropLast_concat]

theorem atob_b64Encode (s : List Nat) (hs : ∀ c ∈ s, c ≤ 255) : atob (b64Encode s) = .ok s := by
  have hlt := b64Sextets_lt s hs
  have hcore : ∀ c ∈ b64Core s, c ≠ 61 ∧ isAsciiWhitespace c = false := by
    intro c hc
    rw [b64Core_eq_map, List.mem_map] at hc
    obtain ⟨v, hv, rfl⟩ := hc
    exact ⟨b64Char_ne_pad v (hlt v hv), b64Char_not_ws v (hlt v hv)⟩
  have hlen := b64Sextets_length s
  have hlenc : (b64Core s).length = (b64Sextets s).length := by simp [b64Core_eq_map]
  have hfilter : (b64Encode s).filter (fun c => !isAsciiWhitespace c) = b64Encode s := by
    rw [List.filter_eq_self]
    intro c hc
    rw [b64Encode_eq_core, List.mem_append] at hc
    rcases hc with hc | hc
    · simp [(hcore c hc).2]
    · rw [List.mem_replicate] at hc
      rw [hc.2]; decide
  have hmod : (b64Encode s).length % 4 = 0 := by
    rw [b64Encode_eq_core, List.length_append, List.length_replicate, hlenc]
    omega
  have hrm : removePadding (b64Encode s) = b64Core s := by
    rw [b64Encode_eq_core]
    exact removePadding_append _ (fun c hc => (hcore c hc).1) _ (by omega)
  have hne : (b64Core s).length % 4 ≠ 1 := by
    rw [hlenc]; omega
  have hvals : b64Vals (b64Core s) = some (b64Sextets s) := by
    rw [b64Core_eq_map]; exact b64Vals_map _ hlt
  unfold atob
  simp only [hfilter, hmod, if_true, hrm, hne, if_false, hvals, b64DecodeVals_sextets s hs]


theorem removeAll_b64Encode (s : List Nat) (hs : ∀ c ∈ s, c ≤ 255) :
    removeAll 61 (b64Encode s) = b64Core s := by
  have hlt := b64Sextets_lt s hs
  rw [b64Encode_eq_core, removeAll, List.filter_append]
  have h1 : (b64Core s).filter (fun c => c != 61) = b64Core s := by
    rw [List.filter_eq_self]
    intro c hc
    rw [b64Core_eq_map, List.mem_map] at hc
    obtain ⟨v, hv, rfl⟩ := hc
    simpa using b64Char_ne_pad v (hlt v hv)
  have h2 : (List.replicate ((3 - s.length % 3) % 3) 61).filter (fun c => c != 61) = [] := by
    rw [List.filter_eq_nil_iff]
    intro c hc
    rw [List.mem_replicate] at hc
    simp [hc.2]
  rw [h1, h2, List.append_nil]

theorem urlSafe_inverse : ∀ v, v < 64 →
    (fun c => if c = 95 then 47 else c) ((fun c => if c = 45 then 43 else c)
      ((fun c => if c = 47 then 95 else c) ((fun c => if c = 43 then 45 else c) (b64Char v))))
      = b64Char v := by decide

theorem replaceAll_base64Url (s : List Nat) (hs : ∀ c ∈ s, c ≤ 255) :
    replaceAll 95 47 (replaceAll 45 43 (base64Url (b64Encode s))) = b64Core s := by
  have hlt := b64Sextets_lt s hs
  rw [base64Url, removeAll_b64Encode s hs, b64Core_eq_map]
  simp only [replaceAll, List.map_map]
  apply List.map_congr_left
  intro v hv
  exact urlSafe_inverse v (hlt v hv)

theorem padLoop_eq (s : JSString) :
    padLoop 3 s = s ++ List.replicate ((4 - s.length % 4) % 4) 61 := by
  have h4 : s.length % 4 < 4 := Nat.mod_lt _ (by decide)
  rcases Nat.lt_or_ge (s.length % 4) 1 with h | h
  · have h0 : s.length % 4 = 0 := by omega
    simp [padLoop, h0]
  · by_cases h3 : s.length % 4 = 3
    · have : (s.length + 1) % 4 = 0 := by omega
      simp [padLoop, h3, this]
    · by_cases h2 : s.length % 4 = 2
      · have h21 : (s.length + 1) % 4 = 3 := by omega
        have h22 : (s.length + 1 + 1) % 4 = 0 := by omega
        simp [padLoop, h2, h21, h22, List.replicate]
      · have h1 : s.length % 4 = 1 := by omega
        have h11 : (s.length + 1) % 4 = 2 := by omega
        have h12 : (s.length + 1 + 1) % 4 = 3 := by omega
        simp [padLoop, h1, h11, h12, List.replicate]

theorem padLoop_length (s : JSString) : (padLoop 3 s).length % 4 = 0 := by
  rw [padLoop_eq, List.length_append, List.length_replicate]
  omega

theorem padLoop_b64Core (s : List Nat) : padLoop 3 (b64Core s) = b64Encode s := by
  have hlen := b64Sextets_length s
  have hlenc : (b64Core s).length = (b64Sextets s).length := by simp [b64Core_eq_map]
  rw [padLoop_eq, b64Encode_eq_core, hlenc]
  congr 2
  omega

theorem atob_signature (s : List Nat) (hs : ∀ c ∈ s, c ≤ 255) :
    atob (padLoop 3 (replaceAll 95 47 (replaceAll 45 43 (base64Url (b64Encode s))))) = .ok s := by
  rw [replaceAll_base64Url s hs, padLoop_b64Core, atob_b64Encode s hs]

theorem stringOfBytes_le (bs : List Byte) : ∀ c ∈ stringOfBytes bs, c ≤ 255 := by
  intro c hc
  rw [stringOfBytes, List.mem_map] at hc
  obtain ⟨b, _, rfl⟩ := hc
  have := b.isLt
  omega

theorem bytesOfString_stringOfBytes (bs : List Byte) : bytesOfString (stringOfBytes bs) = bs := by
  induction bs with
  | nil => rfl
  | cons b bs ih =>
    have hb : toByte b.val = b := by
      apply Fin.ext
      simp only [toByte]
      exact Nat.mod_eq_of_lt b.isLt
    simp only [bytesOfString, stringOfBytes, List.map_cons, List.map_map] at ih ⊢
    rw [ih, hb]

theorem btoa_stringOfBytes (bs : List Byte) :
    btoa (stringOfBytes bs) = .ok (b64Encode (stringOfBytes bs)) := by
  have h : (stringOfBytes bs).all (fun c => decide (c ≤ 255)) = true := by
    rw [List.all_eq_true]
    intro c hc
    simpa using stringOfBytes_le bs c hc
  simp [btoa, h]

theorem btoa_ok {s t : JSString} (h : btoa s = .ok t) : (∀ c ∈ s, c ≤ 255) ∧ t = b64Encode s := by
  unfold btoa at h
  split at h
  · rename_i hall
    rw [List.all_eq_true] at hall
    refine ⟨fun c hc => by simpa using hall c hc, ?_⟩
    injection h with h
    exact h.symm
  · cases h

theorem b64Char_ne_dot : ∀ i, i < 64 → b64Char i ≠ 46 := by decide

theorem b64Encode_no_dot (s : List Nat) (hs : ∀ c ∈ s, c ≤ 255) : 46 ∉ b64Encode s := by
  have hlt := b64Sextets_lt s hs
  intro hc
  rw [b64Encode_eq_core, List.mem_append] at hc
  rcases hc with hc | hc
  · rw [b64Core_eq_map, List.mem_map] at hc
    obtain ⟨v, hv, hv2⟩ := hc
    exact b64Char_ne_dot v (hlt v hv) hv2
  · rw [List.mem_replicate] at hc
    exact absurd hc.2 (by decide)

theorem urlSafe_char : ∀ v, v < 64 →
    (fun c => if c = 47 then 95 else c) ((fun c => if c = 43 then 45 else c) (b64Char v)) ∉
      [46, 61, 43, 47] := by decide

theorem base64Url_chars (s : List Nat) (hs : ∀ c ∈ s, c ≤ 255) :
    ∀ c ∈ base64Url (b64Encode s), c ≠ 46 ∧ c ≠ 61 ∧ c ≠ 43 ∧ c ≠ 47 := by
  have hlt := b64Sextets_lt s hs
  intro c hc
  rw [base64Url, removeAll_b64Encode s hs, b64Core_eq_map] at hc
  simp only [replaceAll, List.map_map, List.mem_map] at hc
  obtain ⟨v, hv, rfl⟩ := hc
  have := urlSafe_char v (hlt v hv)
  simp only [List.mem_cons, List.mem_singleton, List.not_mem_nil, or_false, not_or] at this
  exact this

theorem split_of_not_mem (sep : Nat) (a : JSString) (h : sep ∉ a) : split sep a = [a] := by
  induction a with
  | nil => rfl
  | cons c cs ih =>
    have hc : c ≠ sep := fun e => h (by simp [e])
    have ih := ih (fun hm => h (by simp [hm]))
    simp [split, hc, ih]

theorem split_append (sep : Nat) (a rest : JSString) (h : sep ∉ a) :
    split sep (a ++ sep :: rest) = a :: split sep rest := by
  induction a with
  | nil => simp [split]
  | cons c cs ih =>
    have hc : c ≠ sep := fun e => h (by simp [e])
    have ih := ih (fun hm => h (by simp [hm]))
    simp [split, hc, ih]

theorem btoa_ok_of_le (s : JSString) (h : ∀ c ∈ s, c ≤ 255) : btoa s = .ok (b64Encode s) := by
  have hall : s.all (fun c => decide (c ≤ 255)) = true := by
    rw [List.all_eq_true]
    intro c hc
    simpa using h c hc
  simp [btoa, hall]

theorem btoa_error {s : JSString} {e : JSError} (h : btoa s = .error e) :
    e = .InvalidCharacterError := by
  unfold btoa at h
  split at h
  · cases h
  · injection h with h; exact h.symm

/-! ## JSON round trip -/

theorem hexVal_hexDigit : ∀ n, n < 16 → hexVal (hexDigit n) = some n := by decide

theorem unescape4_hexDigits (c : Nat) (hc : c < 65536) :
    unescape4 (hexDigit (c / 4096 % 16)) (hexDigit (c / 256 % 16)) (hexDigit (c / 16 % 16))
      (hexDigit (c % 16)) = some c := by
  have h1 := hexVal_hexDigit (c / 4096 % 16) (Nat.mod_lt _ (by decide))
  have h2 := hexVal_hexDigit (c / 256 % 16) (Nat.mod_lt _ (by decide))
  have h3 := hexVal_hexDigit (c / 16 % 16) (Nat.mod_lt _ (by decide))
  have h4 := hexVal_hexDigit (c % 16) (Nat.mod_lt _ (by decide))
  simp only [unescape4, h1, h2, h3, h4, Option.some.injEq]
  omega

theorem parseChars_unicodeEscape (c : Nat) (hc : c < 65536) (tail : JSString) :
    parseChars (unicodeEscape c ++ tail) = consChar c (parseChars tail) := by
  have : unicodeEscape c ++ tail = 92 :: 117 :: hexDigit (c / 4096 % 16) ::
      hexDigit (c / 256 % 16) :: hexDigit (c / 16 % 16) :: hexDigit (c % 16) :: tail := rfl
  rw [this, parseChars.eq_2, unescape4_hexDigits c hc]
  cases h : parseChars tail with
  | none => rfl
  | some p => cases p; rfl

theorem parseChars_plain (c : Nat) (h1 : c ≠ 34) (h2 : c ≠ 92) (h3 : ¬ c < 32)
    (tail : JSString) :
    parseChars (c :: tail) = consChar c (parseChars tail) := by
  rw [parseChars.eq_4]
  · rw [if_neg h1, if_neg h2, if_neg h3]
    cases h : parseChars tail with
    | none => rfl
    | some p => cases p; rfl
  · intro a b c' d rest h _
    exact h2 h
  · intro e rest h _
    exact h2 h

theorem parseChars_escape1 (e u : Nat) (he : e ≠ 117) (hu : unescape1 e = some u)
    (tail : JSString) :
    parseChars (92 :: e :: tail) = consChar u (parseChars tail) := by
  rw [parseChars.eq_3]
  · rw [hu]
    cases h : parseChars tail with
    | none => rfl
    | some p => cases p; rfl
  · intro a b c d rest h _
    exact he h

theorem parseChars_shortEscape (c : Nat) (e : JSString) (h : shortEscape c = some e)
    (tail : JSString) :
    parseChars (e ++ tail) = consChar c (parseChars tail) := by
  unfold shortEscape at h
  split_ifs at h with h8 h9 h10 h12 h13 h34 h92 h32
  all_goals (injection h with h; subst h)
  · subst h8; exact parseChars_escape1 98 8 (by decide) (by decide) tail
  · subst h9; exact parseChars_escape1 116 9 (by decide) (by decide) tail
  · subst h10; exact parseChars_escape1 110 10 (by decide) (by decide) tail
  · subst h12; exact parseChars_escape1 102 12 (by decide) (by decide) tail
  · subst h13; exact parseChars_escape1 114 13 (by decide) (by decide) tail
  · subst h34; exact parseChars_escape1 34 34 (by decide) (by decide) tail
  · subst h92; exact parseChars_escape1 92 92 (by decide) (by decide) tail
  · exact parseChars_unicodeEscape c (by omega) tail

theorem shortEscape_none {c : Nat} (h : shortEscape c = none) : c ≠ 34 ∧ c ≠ 92 ∧ ¬ c < 32 := by
  unfold shortEscape at h
  split_ifs at h
  refine ⟨by assumption, by assumption, by assumption⟩

theorem parseChars_quote_end (rest : JSString) : parseChars (34 :: rest) = some ([], rest) := by
  rw [parseChars.eq_4]
  · simp
  · intro a b c d r h _; exact absurd h (by decide)
  · intro e r h _; exact absurd h (by decide)

theorem highSurrogate_lt {c : Nat} (h : isHighSurrogate c = true) : c < 65536 := by
  simp only [isHighSurrogate, Bool.and_eq_true, decide_eq_true_eq] at h
  omega

theorem lowSurrogate_lt {c : Nat} (h : isLowSurrogate c = true) : c < 65536 := by
  simp only [isLowSurrogate, Bool.and_eq_true, decide_eq_true_eq] at h
  omega

theorem lowSurrogate_plain {c : Nat} (h : isLowSurrogate c = true) :
    c ≠ 34 ∧ c ≠ 92 ∧ ¬ c < 32 := by
  simp only [isLowSurrogate, Bool.and_eq_true, decide_eq_true_eq] at h
  omega

theorem parseChars_quoteChars (s rest : JSString) :
    parseChars (quoteChars s ++ 34 :: rest) = some (s, rest) := by
  induction s using quoteChars.induct with
  | case1 => simp [quoteChars, parseChars_quote_end]
  | case2 c e he =>
    simp only [quoteChars, he]
    rw [parseChars_shortEscape c e he, parseChars_quote_end]; rfl
  | case3 c he hs =>
    simp only [quoteChars, he, hs, if_true]
    have hc : c < 65536 := by
      rcases Bool.or_eq_true _ _ ▸ hs with h | h
      · exact highSurrogate_lt h
      · exact lowSurrogate_lt h
    rw [parseChars_unicodeEscape c hc, parseChars_quote_end]; rfl
  | case4 c he hs =>
    obtain ⟨h1, h2, h3⟩ := shortEscape_none he
    simp only [quoteChars, he, hs, Bool.false_eq_true, if_false, List.cons_append, List.nil_append]
    rw [parseChars_plain c h1 h2 h3, parseChars_quote_end]; rfl
  | case5 c d rest' e he ih =>
    simp only [quoteChars, he, List.append_assoc]
    rw [parseChars_shortEscape c e he, ih]; rfl
  | case6 c d rest' he hh hl ih =>
    obtain ⟨h1, h2, h3⟩ := shortEscape_none he
    obtain ⟨d1, d2, d3⟩ := lowSurrogate_plain hl
    simp only [quoteChars, he, hh, hl, if_true, List.cons_append]
    rw [parseChars_plain c h1 h2 h3, parseChars_plain d d1 d2 d3, ih]; rfl
  | case7 c d rest' he hh hl ih =>
    simp only [quoteChars, he, hh, hl, Bool.false_eq_true, if_true, if_false, List.append_assoc]
    rw [parseChars_unicodeEscape c (highSurrogate_lt hh), ih]; rfl
  | case8 c d rest' he hh hl ih =>
    simp only [quoteChars, he, hh, hl, Bool.false_eq_true, if_true, if_false, List.append_assoc]
    rw [parseChars_unicodeEscape c (lowSurrogate_lt hl), ih]; rfl
  | case9 c d rest' he hh hl ih =>
    obtain ⟨h1, h2, h3⟩ := shortEscape_none he
    simp only [quoteChars, he, hh, hl, Bool.false_eq_true, if_false, List.cons_append]
    rw [parseChars_plain c h1 h2 h3, ih]; rfl

theorem takeWhile_append_stop (p : Nat → Bool) (s rest : JSString)
    (h : s.dropWhile p ≠ [] ∨ ∀ c, rest.head? = some c → p c = false) :
    (s ++ rest).takeWhile p = s.takeWhile p ∧
      (s ++ rest).dropWhile p = s.dropWhile p ++ rest := by
  induction s with
  | nil =>
    rcases h with h | h
    · exact absurd rfl h
    · cases rest with
      | nil => simp
      | cons c r =>
        have := h c rfl
        simp [List.takeWhile, List.dropWhile, this]
  | cons c s ih =>
    by_cases hc : p c = true
    · have h' : s.dropWhile p ≠ [] ∨ ∀ c, rest.head? = some c → p c = false := by
        rcases h with h | h
        · left; simpa [List.dropWhile, hc] using h
        · right; exact h
      have := ih h'
      simp [List.takeWhile, List.dropWhile, hc, this]
    · simp [List.takeWhile, List.dropWhile, hc]

theorem scanInt_append {s t s' : JSString} (rest : JSString) (h : scanInt s = some (t, s'))
    (hr : s' ≠ [] ∨ NumFollow rest) : scanInt (s ++ rest) = some (t, s' ++ rest) := by
  cases s with
  | nil => simp [scanInt] at h
  | cons c r =>
    simp only [scanInt] at h
    simp only [List.cons_append, scanInt]
    split_ifs at h ⊢ with h0 hd
    · simp only [Option.some.injEq, Prod.mk.injEq] at h
      simp [← h.1, ← h.2]
    · simp only [Option.some.injEq, Prod.mk.injEq] at h
      have := takeWhile_append_stop isDigit r rest (by
        rcases hr with hr | hr
        · left; rw [h.2]; exact hr
        · right; intro c hc; exact (hr c hc).1)
      simp [this.1, this.2, ← h.1, ← h.2]

theorem scanFrac_append {s t s' : JSString} (rest : JSString) (h : scanFrac s = some (t, s'))
    (hr : s' ≠ [] ∨ NumFollow rest) : scanFrac (s ++ rest) = some (t, s' ++ rest) := by
  cases s with
  | nil =>
    simp only [scanFrac, Option.some.injEq, Prod.mk.injEq] at h
    obtain ⟨rfl, rfl⟩ := h
    rcases hr with hr | hr
    · exact absurd rfl hr
    · cases rest with
      | nil => rfl
      | cons c r =>
        have := (hr c rfl).2.1
        simp [scanFrac, this]
  | cons c r =>
    simp only [scanFrac] at h
    simp only [List.cons_append, scanFrac]
    split_ifs at h ⊢ with h0
    · have hm : ∀ x, (match x with
          | [] => (none : Option (JSString × JSString))
          | d :: ds => some (46 :: d :: ds, r.dropWhile isDigit)) = some (t, s') →
          t = 46 :: x ∧ s' = r.dropWhile isDigit ∧ x ≠ [] := by
        intro x hx
        cases x with
        | nil => simp at hx
        | cons d ds =>
          simp only [Option.some.injEq, Prod.mk.injEq] at hx
          exact ⟨hx.1.symm, hx.2.symm, by simp⟩
      obtain ⟨ht, hs', hne⟩ := hm _ h
      have := takeWhile_append_stop isDigit r rest (by
        rcases hr with hr | hr
        · left; rw [← hs']; exact hr
        · right; intro c hc; exact (hr c hc).1)
      rw [this.1, this.2]
      cases hx : r.takeWhile isDigit with
      | nil => exact absurd hx hne
      | cons d ds => simp [ht, hs', hx]
    · simp only [Option.some.injEq, Prod.mk.injEq] at h
      simp [← h.1, ← h.2]

theorem scanSign_append (r rest : JSString) (h : r ≠ []) :
    scanSign (r ++ rest) = ((scanSign r).1, (scanSign r).2 ++ rest) := by
  cases r with
  | nil => exact absurd rfl h
  | cons c r =>
    simp only [List.cons_append, scanSign]
    split_ifs <;> simp

theorem scanExp_append {s t s' : JSString} (rest : JSString) (h : scanExp s = some (t, s'))
    (hr : s' ≠ [] ∨ NumFollow rest) : scanExp (s ++ rest) = some (t, s' ++ rest) := by
  cases s with
  | nil =>
    simp only [scanExp, Option.some.injEq, Prod.mk.injEq] at h
    obtain ⟨rfl, rfl⟩ := h
    rcases hr with hr | hr
    · exact absurd rfl hr
    · cases rest with
      | nil => rfl
      | cons c r =>
        have := (hr c rfl).2.2
        simp [scanExp, this]
  | cons c r =>
    simp only [scanExp] at h
    simp only [List.cons_append, scanExp]
    split_ifs at h ⊢ with h0
    · have hm : ∀ x, (match x with
          | [] => (none : Option (JSString × JSString))
          | d :: ds => some (c :: (scanSign r).1 ++ d :: ds,
              (scanSign r).2.dropWhile isDigit)) = some (t, s') →
          t = c :: (scanSign r).1 ++ x ∧ s' = (scanSign r).2.dropWhile isDigit ∧ x ≠ [] := by
        intro x hx
        cases x with
        | nil => simp at hx
        | cons d ds =>
          simp only [Option.some.injEq, Prod.mk.injEq] at hx
          exact ⟨hx.1.symm, hx.2.symm, by simp⟩
      obtain ⟨ht, hs', hne⟩ := hm _ h
      have hrne : r ≠ [] := by
        rintro rfl
        exact hne (by simp [scanSign])
      rw [scanSign_append r rest hrne]
      have := takeWhile_append_stop isDigit (scanSign r).2 rest (by
        rcases hr with hr | hr
        · left; rw [← hs']; exact hr
        · right; intro c hc; exact (hr c hc).1)
      simp only [this.1, this.2]
      cases hx : (scanSign r).2.takeWhile isDigit with
      | nil => exact absurd hx hne
      | cons d ds => simp [ht, hs', hx]
    · simp only [Option.some.injEq, Prod.mk.injEq] at h
      simp [← h.1, ← h.2]

theorem scanMinus_append (s rest : JSString) (h : s ≠ []) :
    scanMinus (s ++ rest) = ((scanMinus s).1, (scanMinus s).2 ++ rest) := by
  cases s with
  | nil => exact absurd rfl h
  | cons c r =>
    simp only [List.cons_append, scanMinus]
    split_ifs <;> simp

theorem scanNumber_append {lit : JSString} (rest : JSString) (h : isNumberLit lit = true)
    (hr : NumFollow rest) : scanNumber (lit ++ rest) = some (lit, rest) := by
  simp only [isNumberLit, decide_eq_true_eq] at h
  have hne : lit ≠ [] := by
    rintro rfl
    simp [scanNumber, scanMinus, scanInt] at h
  unfold scanNumber at h ⊢
  rw [scanMinus_append lit rest hne]
  simp only
  cases hi : scanInt (scanMinus lit).2 with
  | none => simp [hi] at h
  | some pi =>
    obtain ⟨i, s2⟩ := pi
    rw [hi] at h
    simp only at h
    rw [scanInt_append rest hi (Or.inr hr)]
    simp only
    cases hf : scanFrac s2 with
    | none => simp [hf] at h
    | some pf =>
      obtain ⟨f, s3⟩ := pf
      rw [hf] at h
      simp only at h
      rw [scanFrac_append rest hf (Or.inr hr)]
      simp only
      cases he : scanExp s3 with
      | none => simp [he] at h
      | some pe =>
        obtain ⟨e, s4⟩ := pe
        rw [he] at h
        simp only [Option.some.injEq, Prod.mk.injEq] at h
        rw [scanExp_append rest he (Or.inr hr)]
        obtain ⟨h1, h2⟩ := h
        subst h2
        simp only [List.nil_append, Option.some.injEq, Prod.mk.injEq, and_true]
        exact h1

theorem numFollow_nil : NumFollow [] := by
  intro c h; simp at h

theorem numFollow_cons (c : Nat) (rest : JSString) (h : c = 44 ∨ c = 93 ∨ c = 125) :
    NumFollow (c :: rest) := by
  intro d hd
  simp only [List.head?_cons, Option.some.injEq] at hd
  subst hd
  rcases h with h | h | h <;> subst h <;> decide

theorem isNumberLit_head {lit : JSString} (h : isNumberLit lit = true) :
    ∃ c tail, lit = c :: tail ∧ (c = 45 ∨ isDigit c = true) := by
  simp only [isNumberLit, decide_eq_true_eq] at h
  cases lit with
  | nil => simp [scanNumber, scanMinus, scanInt] at h
  | cons c tail =>
    refine ⟨c, tail, rfl, ?_⟩
    by_cases hc : c = 45
    · exact Or.inl hc
    · right
      simp only [scanNumber, scanMinus, hc, if_false, scanInt] at h
      by_cases h0 : c = 48
      · subst h0; decide
      · by_cases hd : isDigit c = true
        · exact hd
        · simp [h0, hd] at h

theorem skipWs_cons (c : Nat) (tail : JSString) (h : isJsonWs c = false) :
    skipWs (c :: tail) = c :: tail := by
  simp [skipWs, List.dropWhile, h]

theorem jss_null : jss "null" = [110, 117, 108, 108] := by decide
theorem jss_true : jss "true" = [116, 114, 117, 101] := by decide
theorem jss_false : jss "false" = [102, 97, 108, 115, 101] := by decide

theorem parseValue_number (n : Nat) (lit rest : JSString) (h : isNumberLit lit = true)
    (hr : NumFollow rest) :
    parseValue (n + 1) (lit ++ rest) = some (.num (numberOfLiteral lit), rest) := by
  obtain ⟨c, tail, rfl, hc⟩ := isNumberLit_head h
  have hscan := scanNumber_append rest h hr
  have hws : isJsonWs c = false := by
    rcases hc with hc | hc
    · subst hc; decide
    · simp only [isDigit, Bool.and_eq_true, decide_eq_true_eq] at hc
      simp only [isJsonWs, Bool.or_eq_false_iff, decide_eq_false_iff_not]
      omega
  have hne : c ≠ 110 ∧ c ≠ 116 ∧ c ≠ 102 ∧ c ≠ 34 ∧ c ≠ 91 ∧ c ≠ 123 := by
    rcases hc with hc | hc
    · subst hc; decide
    · simp only [isDigit, Bool.and_eq_true, decide_eq_true_eq] at hc
      omega
  rw [parseValue, List.cons_append, skipWs_cons c _ hws]
  split
  all_goals (first
    | (rename_i heq; simp only [List.cons.injEq] at heq; omega)
    | skip)
  rename_i t _ _ _ _ _ _
  rw [← List.cons_append, hscan]


theorem parseValue_null (n : Nat) (rest : JSString) :
    parseValue (n + 1) (jss "null" ++ rest) = some (.null, rest) := by
  rw [jss_null]; simp [parseValue, skipWs, List.dropWhile, isJsonWs]

theorem parseValue_true (n : Nat) (rest : JSString) :
    parseValue (n + 1) (jss "true" ++ rest) = some (.bool true, rest) := by
  rw [jss_true]; simp [parseValue, skipWs, List.dropWhile, isJsonWs]

theorem parseValue_false (n : Nat) (rest : JSString) :
    parseValue (n + 1) (jss "false" ++ rest) = some (.bool false, rest) := by
  rw [jss_false]; simp [parseValue, skipWs, List.dropWhile, isJsonWs]

theorem parseValue_str (n : Nat) (s rest : JSString) :
    parseValue (n + 1) (quote s ++ rest) = some (.str s, rest) := by
  have : quote s ++ rest = 34 :: (quoteChars s ++ 34 :: rest) := by simp [quote]
  rw [this, parseValue, skipWs_cons 34 _ (by decide)]
  simp only [parseChars_quoteChars]

theorem isJsonNumber_iff (x : JSNumber) :
    isJsonNumber x = true ↔
      isNumberLit (serializeNumber x) = true ∧ numberOfLiteral (serializeNumber x) = x := by
  simp [isJsonNumber]

/-- The first character of a serialized value: not whitespace, not a closing bracket. -/
theorem stringify_head (v : JSON) (h : v.wellFormed = true) :
    ∃ c tail, v.stringify = c :: tail ∧ isJsonWs c = false ∧ c ≠ 93 ∧ c ≠ 125 := by
  cases v with
  | null => exact ⟨110, [117, 108, 108], by rw [JSON.stringify, jss_null], by decide⟩
  | bool b =>
    cases b
    · exact ⟨102, [97, 108, 115, 101], by rw [JSON.stringify, jss_false], by decide⟩
    · exact ⟨116, [114, 117, 101], by rw [JSON.stringify, jss_true], by decide⟩
  | num x =>
    rw [JSON.wellFormed, isJsonNumber_iff] at h
    obtain ⟨c, tail, hs, hc⟩ := isNumberLit_head h.1
    refine ⟨c, tail, by rw [JSON.stringify, hs], ?_⟩
    rcases hc with hc | hc
    · subst hc; decide
    · simp only [isDigit, Bool.and_eq_true, decide_eq_true_eq] at hc
      simp only [isJsonWs, Bool.or_eq_false_iff, decide_eq_false_iff_not]
      omega
  | str s => exact ⟨34, quoteChars s ++ [34], by rw [JSON.stringify, quote]; rfl, by decide⟩
  | arr items => exact ⟨91, stringifyItems items ++ [93], by rw [JSON.stringify]; rfl, by decide⟩
  | obj props => exact ⟨123, stringifyProps props ++ [125], by rw [JSON.stringify]; rfl, by decide⟩

theorem insertProp_append (acc : List (JSString × JSON)) (k : JSString) (v : JSON)
    (h : ∀ k0 ∈ acc.map Prod.fst, keyBefore k k0 = false) :
    insertProp acc k v = acc ++ [(k, v)] := by
  induction acc with
  | nil => rfl
  | cons p acc ih =>
    obtain ⟨k0, v0⟩ := p
    have h0 : keyBefore k k0 = false := h k0 (by simp)
    have ih := ih (fun k1 hk1 => h k1 (by simp only [List.map_cons, List.mem_cons]; exact Or.inr hk1))
    simp [insertProp, h0, ih]

/-- A new name that no earlier property precedes goes last. -/
theorem setProp_append (acc : List (JSString × JSON)) (k : JSString) (v : JSON)
    (h : k ∉ acc.map Prod.fst) (ho : ∀ k0 ∈ acc.map Prod.fst, keyBefore k k0 = false) :
    setProp acc k v = acc ++ [(k, v)] := by
  have hany : acc.any (fun p => p.1 == k) = false := by
    rw [Bool.eq_false_iff]
    intro hc
    rw [List.any_eq_true] at hc
    obtain ⟨p, hp, hpk⟩ := hc
    exact h (List.mem_map.mpr ⟨p, hp, by simpa using hpk⟩)
  rw [setProp, hany]
  simp only [Bool.false_eq_true, if_false]
  exact insertProp_append acc k v ho

theorem foldl_setProp (members acc : List (JSString × JSON))
    (h : ((acc ++ members).map Prod.fst).Nodup)
    (ho : ((acc ++ members).map Prod.fst).Pairwise fun a b => keyBefore b a = false) :
    members.foldl (fun a kv => setProp a kv.1 kv.2) acc = acc ++ members := by
  induction members generalizing acc with
  | nil => simp
  | cons p members ih =>
    obtain ⟨k, v⟩ := p
    have hk : k ∉ acc.map Prod.fst := by
      rw [List.map_append, List.nodup_append] at h
      intro hmem
      exact h.2.2 hmem (by simp)
    have hb : ∀ k0 ∈ acc.map Prod.fst, keyBefore k k0 = false := by
      rw [List.map_append, List.pairwise_append] at ho
      intro k0 hk0
      exact ho.2.2 k0 hk0 k (by simp)
    rw [List.foldl_cons, setProp_append acc k v hk hb, ih]
    · simp
    · simpa using h
    · simpa using ho

/-- The members of a well-formed object, read left to right, build the object itself. -/
theorem mkObject_wf (props : List (JSString × JSON)) (h : (props.map Prod.fst).Nodup)
    (ho : keysOrdered (props.map Prod.fst) = true) : mkObject props = props := by
  have := foldl_setProp props [] (by simpa using h)
    (by simpa [keysOrdered] using ho)
  simpa [mkObject] using this


theorem stringifyItems_head (v : JSON) (rest : List JSON) (h : v.wellFormed = true) :
    ∃ c tail, stringifyItems (v :: rest) = c :: tail ∧ isJsonWs c = false ∧ c ≠ 93 := by
  obtain ⟨c, tail, hs, hws, h93, _⟩ := stringify_head v h
  cases rest with
  | nil => exact ⟨c, tail, by rw [stringifyItems, hs], hws, h93⟩
  | cons w rest =>
    exact ⟨c, tail ++ 44 :: stringifyItems (w :: rest), by rw [stringifyItems, hs]; rfl, hws, h93⟩

theorem stringifyProps_head (p : JSString × JSON) (rest : List (JSString × JSON)) :
    ∃ tail, stringifyProps (p :: rest) = 34 :: tail := by
  obtain ⟨k, v⟩ := p
  cases rest with
  | nil => exact ⟨quoteChars k ++ [34] ++ 58 :: JSON.stringify v, by simp [stringifyProps, quote]⟩
  | cons q rest =>
    exact ⟨quoteChars k ++ [34] ++ 58 :: JSON.stringify v ++ 44 :: stringifyProps (q :: rest),
      by simp [stringifyProps, quote]⟩

theorem parseValue_arr_nil (n : Nat) (rest : JSString) :
    parseValue (n + 1) (JSON.stringify (.arr []) ++ rest) = some (.arr [], rest) := by
  simp [JSON.stringify, stringifyItems, parseValue, skipWs, List.dropWhile, isJsonWs]

theorem parseValue_obj_nil (n : Nat) (rest : JSString) :
    parseValue (n + 1) (JSON.stringify (.obj []) ++ rest) = some (.obj [], rest) := by
  simp [JSON.stringify, stringifyProps, parseValue, skipWs, List.dropWhile, isJsonWs, mkObject]

theorem parseValue_arr_cons (n : Nat) (v : JSON) (items : List JSON) (rest : JSString)
    (h : v.wellFormed = true) :
    parseValue (n + 1) (JSON.stringify (.arr (v :: items)) ++ rest) =
      match parseItems n (stringifyItems (v :: items) ++ 93 :: rest) with
      | some (items, r1) => some (.arr items, r1)
      | none => none := by
  obtain ⟨c, tail, hs, hws, h93⟩ := stringifyItems_head v items h
  have e : JSON.stringify (.arr (v :: items)) ++ rest
      = 91 :: (stringifyItems (v :: items) ++ 93 :: rest) := by simp [JSON.stringify]
  rw [e, parseValue, skipWs_cons 91 _ (by decide)]
  simp only [hs, List.cons_append, skipWs_cons c _ hws]
  split
  · rename_i heq
    simp only [List.cons.injEq] at heq
    exact absurd heq.1 h93
  · rfl

theorem parseValue_obj_cons (n : Nat) (p : JSString × JSON) (props : List (JSString × JSON))
    (rest : JSString) :
    parseValue (n + 1) (JSON.stringify (.obj (p :: props)) ++ rest) =
      match parseProps n (stringifyProps (p :: props) ++ 125 :: rest) with
      | some (members, r1) => some (.obj (mkObject members), r1)
      | none => none := by
  obtain ⟨tail, hs⟩ := stringifyProps_head p props
  have e : JSON.stringify (.obj (p :: props)) ++ rest
      = 123 :: (stringifyProps (p :: props) ++ 125 :: rest) := by simp [JSON.stringify]
  rw [e, parseValue, skipWs_cons 123 _ (by decide)]
  simp only [hs, List.cons_append, skipWs_cons 34 _ (by decide)]


theorem stringify_length_pos (v : JSON) (h : v.wellFormed = true) : 1 ≤ v.stringify.length := by
  obtain ⟨c, tail, hs, _⟩ := stringify_head v h
  rw [hs]; simp

theorem roundTrip_value (n : Nat) (ih : RoundTrip n) (v : JSON) (rest : JSString)
    (hwf : v.wellFormed = true) (hlen : 2 * v.stringify.length ≤ n + 1) (hr : NumFollow rest) :
    parseValue (n + 1) (v.stringify ++ rest) = some (v, rest) := by
  cases v with
  | null => exact parseValue_null n rest
  | bool b => cases b
              · exact parseValue_false n rest
              · exact parseValue_true n rest
  | num x =>
    rw [JSON.wellFormed, isJsonNumber_iff] at hwf
    rw [JSON.stringify, parseValue_number n _ rest hwf.1 hr, hwf.2]
  | str s => exact parseValue_str n s rest
  | arr items =>
    cases items with
    | nil => exact parseValue_arr_nil n rest
    | cons x xs =>
      simp only [JSON.wellFormed] at hwf
      have hx : x.wellFormed = true := by
        simp only [wellFormedItems, Bool.and_eq_true] at hwf; exact hwf.1
      rw [parseValue_arr_cons n x xs rest hx, ih.2.1 x xs rest hwf]
      simp only [JSON.stringify, List.length_cons, List.length_append, List.length_nil] at hlen
      omega
  | obj props =>
    cases props with
    | nil => exact parseValue_obj_nil n rest
    | cons p ps =>
      simp only [JSON.wellFormed, Bool.and_eq_true, decide_eq_true_eq] at hwf
      rw [parseValue_obj_cons n p ps rest, ih.2.2 p ps rest hwf.2]
      · simp only [mkObject_wf _ hwf.1.1 hwf.1.2]
      · simp only [JSON.stringify, List.length_cons, List.length_append, List.length_nil] at hlen
        omega

theorem roundTrip_items (n : Nat) (ih : RoundTrip n) (v : JSON) (items : List JSON)
    (rest : JSString) (hwf : wellFormedItems (v :: items) = true)
    (hlen : 2 * (stringifyItems (v :: items)).length + 1 ≤ n + 1) :
    parseItems (n + 1) (stringifyItems (v :: items) ++ 93 :: rest) = some (v :: items, rest) := by
  simp only [wellFormedItems, Bool.and_eq_true] at hwf
  cases items with
  | nil =>
    simp only [stringifyItems] at hlen ⊢
    rw [parseItems, ih.1 v (93 :: rest) hwf.1 (by omega) (numFollow_cons 93 rest (by simp))]
    simp [skipWs_cons 93 rest (by decide)]
  | cons w ws =>
    simp only [stringifyItems, List.length_append, List.length_cons] at hlen ⊢
    rw [parseItems, List.append_assoc, List.cons_append,
      ih.1 v _ hwf.1 (by omega) (numFollow_cons 44 _ (by simp))]
    simp only [skipWs_cons 44 _ (by decide)]
    rw [ih.2.1 w ws rest hwf.2 (by omega)]

theorem roundTrip_props (n : Nat) (ih : RoundTrip n) (p : JSString × JSON)
    (props : List (JSString × JSON)) (rest : JSString)
    (hwf : wellFormedProps (p :: props) = true)
    (hlen : 2 * (stringifyProps (p :: props)).length + 1 ≤ n + 1) :
    parseProps (n + 1) (stringifyProps (p :: props) ++ 125 :: rest) = some (p :: props, rest) := by
  obtain ⟨k, v⟩ := p
  simp only [wellFormedProps, Bool.and_eq_true] at hwf
  cases props with
  | nil =>
    simp only [stringifyProps, List.length_append, List.length_cons, quote] at hlen ⊢
    have e : 34 :: quoteChars k ++ [34] ++ 58 :: JSON.stringify v ++ 125 :: rest
        = 34 :: (quoteChars k ++ 34 :: 58 :: (JSON.stringify v ++ 125 :: rest)) := by simp
    rw [e, parseProps, skipWs_cons 34 _ (by decide)]
    simp only [parseChars_quoteChars, skipWs_cons 58 _ (by decide)]
    rw [ih.1 v (125 :: rest) hwf.1 (by omega) (numFollow_cons 125 rest (by simp))]
    simp [skipWs_cons 125 rest (by decide)]
  | cons q qs =>
    simp only [stringifyProps, List.length_append, List.length_cons, quote] at hlen ⊢
    have e : 34 :: quoteChars k ++ [34] ++ 58 :: JSON.stringify v ++
          44 :: stringifyProps (q :: qs) ++ 125 :: rest
        = 34 :: (quoteChars k ++ 34 :: 58 :: (JSON.stringify v ++
            44 :: (stringifyProps (q :: qs) ++ 125 :: rest))) := by simp
    rw [e, parseProps, skipWs_cons 34 _ (by decide)]
    simp only [parseChars_quoteChars, skipWs_cons 58 _ (by decide)]
    rw [ih.1 v _ hwf.1 (by omega) (numFollow_cons 44 _ (by simp))]
    simp only [skipWs_cons 44 _ (by decide)]
    rw [ih.2.2 q qs rest hwf.2 (by omega)]

theorem roundTrip_all (n : Nat) : RoundTrip n := by
  induction n with
  | zero =>
    refine ⟨?_, ?_, ?_⟩
    · intro v rest hwf hlen
      have := stringify_length_pos v hwf
      omega
    · intro v items rest _ hlen; omega
    · intro p props rest _ hlen; omega
  | succ n ih =>
    exact ⟨fun v rest hwf hlen hr => roundTrip_value n ih v rest hwf hlen hr,
      fun v items rest hwf hlen => roundTrip_items n ih v items rest hwf hlen,
      fun p props rest hwf hlen => roundTrip_props n ih p props rest hwf hlen⟩

theorem parse_stringify (v : JSON) (h : v.wellFormed = true) :
    JSON.parse v.stringify = .ok v := by
  have := (roundTrip_all (2 * v.stringify.length + 1)).1 v [] h (by omega) numFollow_nil
  rw [List.append_nil] at this
  simp [JSON.parse, this, skipWs]

/-! ## The bound on the nested calls of the parser -/

theorem parseValue_succ (f : Nat) (s : JSString) :
    parseValue (f + 1) s = parseValueStep (parseItems f) (parseProps f) (skipWs s) := by
  rw [parseValue]
  rfl

theorem skipWs_length (s : JSString) : (skipWs s).length ≤ s.length := by
  induction s with
  | nil => simp [skipWs]
  | cons c s ih =>
    simp only [skipWs, List.dropWhile] at ih ⊢
    split
    · simp only [List.length_cons]; omega
    · simp

theorem dropWhile_length (p : Nat → Bool) (s : JSString) :
    (s.dropWhile p).length ≤ s.length := by
  induction s with
  | nil => simp
  | cons c s ih =>
    simp only [List.dropWhile]
    split
    · simp only [List.length_cons]; omega
    · simp

theorem parseChars_length (n : Nat) : ∀ (s str r : JSString), s.length ≤ n →
    parseChars s = some (str, r) → r.length < s.length := by
  induction n with
  | zero =>
    intro s str r hn h
    have : s = [] := List.length_eq_zero.mp (by omega)
    subst this
    simp [parseChars] at h
  | succ n ih =>
    intro s str r hn h
    unfold parseChars at h
    split at h
    · cases h
    · rename_i a b c d rest
      split at h
      · rename_i u str' r' hu hp
        have := ih rest str' r' (by simp only [List.length_cons] at hn; omega) hp
        simp only [Option.some.injEq, Prod.mk.injEq] at h
        rw [← h.2]
        simp only [List.length_cons]; omega
      · cases h
    · rename_i e rest _
      split at h
      · rename_i u str' r' hu hp
        have := ih rest str' r' (by simp only [List.length_cons] at hn; omega) hp
        simp only [Option.some.injEq, Prod.mk.injEq] at h
        rw [← h.2]
        simp only [List.length_cons]; omega
      · cases h
    · rename_i c rest _ _
      split_ifs at h
      · simp only [Option.some.injEq, Prod.mk.injEq] at h
        rw [← h.2]; simp
      · split at h
        · rename_i str' r' hp
          have := ih rest str' r' (by simp only [List.length_cons] at hn; omega) hp
          simp only [Option.some.injEq, Prod.mk.injEq] at h
          rw [← h.2]
          simp only [List.length_cons]; omega
        · cases h

theorem scanNumber_length (s lit r : JSString) (h : scanNumber s = some (lit, r)) :
    r.length < s.length := by
  unfold scanNumber at h
  have hminus : (scanMinus s).2.length ≤ s.length := by
    cases s with
    | nil => simp [scanMinus]
    | cons c t =>
      simp only [scanMinus]
      split_ifs <;> simp
  cases hi : scanInt (scanMinus s).2 with
  | none => simp [hi] at h
  | some pi =>
    obtain ⟨i, s2⟩ := pi
    have h2 : s2.length < (scanMinus s).2.length := by
      cases hm : (scanMinus s).2 with
      | nil => rw [hm] at hi; simp [scanInt] at hi
      | cons c t =>
        rw [hm] at hi
        simp only [scanInt] at hi
        split_ifs at hi
        · simp only [Option.some.injEq, Prod.mk.injEq] at hi
          rw [← hi.2]; simp
        · simp only [Option.some.injEq, Prod.mk.injEq] at hi
          rw [← hi.2]
          have := dropWhile_length isDigit t
          simp only [List.length_cons]; omega
    rw [hi] at h
    simp only at h
    cases hf : scanFrac s2 with
    | none => simp [hf] at h
    | some pf =>
      obtain ⟨f, s3⟩ := pf
      have h3 : s3.length ≤ s2.length := by
        cases s2 with
        | nil =>
          simp only [scanFrac, Option.some.injEq, Prod.mk.injEq] at hf
          rw [← hf.2]
        | cons c t =>
          simp only [scanFrac] at hf
          split_ifs at hf
          · split at hf
            · cases hf
            · simp only [Option.some.injEq, Prod.mk.injEq] at hf
              rw [← hf.2]
              have := dropWhile_length isDigit t
              simp only [List.length_cons]; omega
          · simp only [Option.some.injEq, Prod.mk.injEq] at hf
            rw [← hf.2]
      rw [hf] at h
      simp only at h
      cases he : scanExp s3 with
      | none => simp [he] at h
      | some pe =>
        obtain ⟨e, s4⟩ := pe
        have h4 : s4.length ≤ s3.length := by
          cases s3 with
          | nil =>
            simp only [scanExp, Option.some.injEq, Prod.mk.injEq] at he
            rw [← he.2]
          | cons c t =>
            simp only [scanExp] at he
            split_ifs at he
            · split at he
              · cases he
              · simp only [Option.some.injEq, Prod.mk.injEq] at he
                rw [← he.2]
                have h5 := dropWhile_length isDigit (scanSign t).2
                have h6 : (scanSign t).2.length ≤ t.length := by
                  cases t with
                  | nil => simp [scanSign]
                  | cons c' t' =>
                    simp only [scanSign]
                    split_ifs <;> simp
                simp only [List.length_cons]; omega
            · simp only [Option.some.injEq, Prod.mk.injEq] at he
              rw [← he.2]
        rw [he] at h
        simp only [Option.some.injEq, Prod.mk.injEq] at h
        rw [← h.2]
        omega


/-- What a step of `parseValue` that gives a result rests on: nothing, the parser of the
elements, or the parser of the members. -/
theorem parseValueStep_cases (pItems : JSString → Option (List JSON × JSString))
    (pProps : JSString → Option (List (JSString × JSON) × JSString)) (t : JSString)
    (v : JSON) (rest : JSString) (h : parseValueStep pItems pProps t = some (v, rest)) :
    (rest.length < t.length ∧ ∀ pi pp, parseValueStep pi pp t = some (v, rest)) ∨
    (∃ r items, t = 91 :: r ∧ pItems r = some (items, rest) ∧
      ∀ pi pp, pi r = some (items, rest) → parseValueStep pi pp t = some (v, rest)) ∨
    (∃ r members, t = 123 :: r ∧ pProps r = some (members, rest) ∧
      ∀ pi pp, pp r = some (members, rest) → parseValueStep pi pp t = some (v, rest)) := by
  unfold parseValueStep at h
  split at h
  · left
    simp only [Option.some.injEq, Prod.mk.injEq] at h
    obtain ⟨rfl, rfl⟩ := h
    exact ⟨by simp only [List.length_cons]; omega, fun _ _ => rfl⟩
  · left
    simp only [Option.some.injEq, Prod.mk.injEq] at h
    obtain ⟨rfl, rfl⟩ := h
    exact ⟨by simp only [List.length_cons]; omega, fun _ _ => rfl⟩
  · left
    simp only [Option.some.injEq, Prod.mk.injEq] at h
    obtain ⟨rfl, rfl⟩ := h
    exact ⟨by simp only [List.length_cons]; omega, fun _ _ => rfl⟩
  · left
    rename_i r
    split at h
    · rename_i str r1 hp
      simp only [Option.some.injEq, Prod.mk.injEq] at h
      obtain ⟨rfl, rfl⟩ := h
      have := parseChars_length r.length r str r1 le_rfl hp
      refine ⟨by simp only [List.length_cons]; omega, fun _ _ => ?_⟩
      simp only [parseValueStep, hp]
    · cases h
  · rename_i r
    split at h
    · left
      rename_i r1 hws
      simp only [Option.some.injEq, Prod.mk.injEq] at h
      obtain ⟨rfl, rfl⟩ := h
      have := skipWs_length r
      rw [hws] at this
      simp only [List.length_cons] at this
      refine ⟨by simp only [List.length_cons]; omega, fun _ _ => ?_⟩
      simp only [parseValueStep, hws]
    · rename_i hws
      right; left
      split at h
      · rename_i items r1 hp
        simp only [Option.some.injEq, Prod.mk.injEq] at h
        obtain ⟨rfl, rfl⟩ := h
        refine ⟨r, items, rfl, hp, fun pi pp hpi => ?_⟩
        simp only [parseValueStep]
        simp only [hpi]
      · cases h
  · rename_i r
    split at h
    · left
      rename_i r1 hws
      simp only [Option.some.injEq, Prod.mk.injEq] at h
      obtain ⟨rfl, rfl⟩ := h
      have := skipWs_length r
      rw [hws] at this
      simp only [List.length_cons] at this
      refine ⟨by simp only [List.length_cons]; omega, fun _ _ => ?_⟩
      simp only [parseValueStep, hws]
    · rename_i hws
      right; right
      split at h
      · rename_i members r1 hp
        simp only [Option.some.injEq, Prod.mk.injEq] at h
        obtain ⟨rfl, rfl⟩ := h
        refine ⟨r, members, rfl, hp, fun pi pp hpp => ?_⟩
        simp only [parseValueStep]
        simp only [hpp]
      · cases h
  · left
    rename_i t' h1 h2 h3 h4 h5 h6
    split at h
    · rename_i lit r hp
      simp only [Option.some.injEq, Prod.mk.injEq] at h
      obtain ⟨rfl, rfl⟩ := h
      refine ⟨scanNumber_length _ _ _ hp, fun pi pp => ?_⟩
      unfold parseValueStep
      split
      · exact (h1 _ rfl).elim
      · exact (h2 _ rfl).elim
      · exact (h3 _ rfl).elim
      · exact (h4 _ rfl).elim
      · exact (h5 _ rfl).elim
      · exact (h6 _ rfl).elim
      · simp only [hp]
    · cases h


/-- One step of `parseItems`, for given parsers of a value and of the other elements. -/
theorem parseItems_succ_eq (f : Nat) (s : JSString) (items : List JSON) (rest : JSString) :
    parseItems (f + 1) s = some (items, rest) ↔
      ∃ v r, parseValue f s = some (v, r) ∧
        ((∃ r1 items', skipWs r = 44 :: r1 ∧ parseItems f r1 = some (items', rest) ∧
            items = v :: items') ∨
          (skipWs r = 93 :: rest ∧ items = [v])) := by
  rw [parseItems]
  constructor
  · intro h
    split at h
    · cases h
    · rename_i v r hv
      refine ⟨v, r, hv, ?_⟩
      split at h
      · rename_i r1 hws
        split at h
        · rename_i items' r2 hp
          simp only [Option.some.injEq, Prod.mk.injEq] at h
          obtain ⟨rfl, rfl⟩ := h
          exact Or.inl ⟨r1, items', hws, hp, rfl⟩
        · cases h
      · rename_i r1 hws
        simp only [Option.some.injEq, Prod.mk.injEq] at h
        obtain ⟨rfl, rfl⟩ := h
        exact Or.inr ⟨hws, rfl⟩
      · cases h
  · rintro ⟨v, r, hv, h⟩
    rw [hv]
    rcases h with ⟨r1, items', hws, hp, rfl⟩ | ⟨hws, rfl⟩
    · simp only [hws, hp]
    · simp only [hws]

/-- One step of `parseProps`, for given parsers of a value and of the other members. -/
theorem parseProps_succ_eq (f : Nat) (s : JSString) (members : List (JSString × JSON))
    (rest : JSString) :
    parseProps (f + 1) s = some (members, rest) ↔
      ∃ r k r1 r2 v r3, skipWs s = 34 :: r ∧ parseChars r = some (k, r1) ∧
        skipWs r1 = 58 :: r2 ∧ parseValue f r2 = some (v, r3) ∧
        ((∃ r4 members', skipWs r3 = 44 :: r4 ∧ parseProps f r4 = some (members', rest) ∧
            members = (k, v) :: members') ∨
          (skipWs r3 = 125 :: rest ∧ members = [(k, v)])) := by
  rw [parseProps]
  constructor
  · intro h
    split at h
    · rename_i r hs
      split at h
      · cases h
      · rename_i k r1 hk
        split at h
        · rename_i r2 hc
          split at h
          · cases h
          · rename_i v r3 hv
            refine ⟨r, k, r1, r2, v, r3, hs, hk, hc, hv, ?_⟩
            split at h
            · rename_i r4 hws
              split at h
              · rename_i members' r5 hp
                simp only [Option.some.injEq, Prod.mk.injEq] at h
                obtain ⟨rfl, rfl⟩ := h
                exact Or.inl ⟨r4, members', hws, hp, rfl⟩
              · cases h
            · rename_i r4 hws
              simp only [Option.some.injEq, Prod.mk.injEq] at h
              obtain ⟨rfl, rfl⟩ := h
              exact Or.inr ⟨hws, rfl⟩
            · cases h
        · cases h
    · cases h
  · rintro ⟨r, k, r1, r2, v, r3, hs, hk, hc, hv, h⟩
    rw [hs]
    simp only [hk, hc, hv]
    rcases h with ⟨r4, members', hws, hp, rfl⟩ | ⟨hws, rfl⟩
    · simp only [hws, hp]
    · simp only [hws]


theorem fuelLe_succ (f g : Nat) (h : FuelLe f g) : FuelLe (f + 1) (g + 1) := by
  refine ⟨?_, ?_, ?_⟩
  · rintro s ⟨v, rest⟩ hs
    rw [parseValue_succ] at hs ⊢
    rcases parseValueStep_cases _ _ _ _ _ hs with hc | ⟨r, items, _, hp, hc⟩ |
      ⟨r, members, _, hp, hc⟩
    · exact hc.2 _ _
    · exact hc _ _ (h.2.1 _ _ hp)
    · exact hc _ _ (h.2.2 _ _ hp)
  · rintro s ⟨items, rest⟩ hs
    rw [parseItems_succ_eq] at hs ⊢
    obtain ⟨v, r, hv, hc⟩ := hs
    refine ⟨v, r, h.1 _ _ hv, ?_⟩
    rcases hc with ⟨r1, items', hws, hp, rfl⟩ | hc
    · exact Or.inl ⟨r1, items', hws, h.2.1 _ _ hp, rfl⟩
    · exact Or.inr hc
  · rintro s ⟨members, rest⟩ hs
    rw [parseProps_succ_eq] at hs ⊢
    obtain ⟨r, k, r1, r2, v, r3, h1, h2, h3, hv, hc⟩ := hs
    refine ⟨r, k, r1, r2, v, r3, h1, h2, h3, h.1 _ _ hv, ?_⟩
    rcases hc with ⟨r4, members', hws, hp, rfl⟩ | hc
    · exact Or.inl ⟨r4, members', hws, h.2.2 _ _ hp, rfl⟩
    · exact Or.inr hc

theorem fuelLe_zero (g : Nat) : FuelLe 0 g := by
  refine ⟨?_, ?_, ?_⟩ <;> intro s x h
  · simp [parseValue] at h
  · simp [parseItems] at h
  · simp [parseProps] at h

/-- A larger bound on the nested calls keeps every result. -/
theorem fuelLe_of_le : ∀ (f g : Nat), f ≤ g → FuelLe f g := by
  intro f
  induction f with
  | zero => intro g _; exact fuelLe_zero g
  | succ f ih =>
    intro g hg
    obtain ⟨g', rfl⟩ : ∃ g', g = g' + 1 := ⟨g - 1, by omega⟩
    exact fuelLe_succ f g' (ih g' (by omega))


theorem skipWs_cons_length {r : JSString} {c : Nat} {r1 : JSString} (h : skipWs r = c :: r1) :
    r1.length < r.length := by
  have := skipWs_length r
  rw [h] at this
  simp only [List.length_cons] at this
  omega

theorem fuelBound_succ (f : Nat) (ih : FuelBound f) : FuelBound (f + 1) := by
  refine ⟨?_, ?_, ?_⟩
  · intro s v rest hs
    rw [parseValue_succ] at hs
    have hws := skipWs_length s
    rcases parseValueStep_cases _ _ _ _ _ hs with hc | ⟨r, items, ht, hp, hc⟩ |
      ⟨r, members, ht, hp, hc⟩
    · refine ⟨by omega, 1, by omega, ?_⟩
      rw [parseValue_succ]
      exact hc.2 _ _
    · obtain ⟨hlt, g0, hg0, hp0⟩ := ih.2.1 r items rest hp
      rw [ht] at hws
      simp only [List.length_cons] at hws
      refine ⟨by omega, g0 + 1, by omega, ?_⟩
      rw [parseValue_succ]
      exact hc _ _ hp0
    · obtain ⟨hlt, g0, hg0, hp0⟩ := ih.2.2 r members rest hp
      rw [ht] at hws
      simp only [List.length_cons] at hws
      refine ⟨by omega, g0 + 1, by omega, ?_⟩
      rw [parseValue_succ]
      exact hc _ _ hp0
  · intro s items rest hs
    rw [parseItems_succ_eq] at hs
    obtain ⟨v, r, hv, hc⟩ := hs
    obtain ⟨hlt, gv, hgv, hv0⟩ := ih.1 s v r hv
    rcases hc with ⟨r1, items', hws, hp, rfl⟩ | ⟨hws, rfl⟩
    · obtain ⟨hlt1, gi, hgi, hp0⟩ := ih.2.1 r1 items' rest hp
      have h1 := skipWs_cons_length hws
      refine ⟨by omega, max gv gi + 1, by omega, ?_⟩
      rw [parseItems_succ_eq]
      exact ⟨v, r, (fuelLe_of_le gv _ (le_max_left gv gi)).1 _ _ hv0,
        Or.inl ⟨r1, items', hws, (fuelLe_of_le gi _ (le_max_right gv gi)).2.1 _ _ hp0, rfl⟩⟩
    · have h1 := skipWs_cons_length hws
      refine ⟨by omega, gv + 1, by omega, ?_⟩
      rw [parseItems_succ_eq]
      exact ⟨v, r, hv0, Or.inr ⟨hws, rfl⟩⟩
  · intro s members rest hs
    rw [parseProps_succ_eq] at hs
    obtain ⟨r, k, r1, r2, v, r3, h1, h2, h3, hv, hc⟩ := hs
    have l1 := skipWs_cons_length h1
    have l2 := parseChars_length r.length r k r1 le_rfl h2
    have l3 := skipWs_cons_length h3
    obtain ⟨hlt, gv, hgv, hv0⟩ := ih.1 r2 v r3 hv
    rcases hc with ⟨r4, members', hws, hp, rfl⟩ | ⟨hws, rfl⟩
    · obtain ⟨hlt1, gp, hgp, hp0⟩ := ih.2.2 r4 members' rest hp
      have l4 := skipWs_cons_length hws
      refine ⟨by omega, max gv gp + 1, by omega, ?_⟩
      rw [parseProps_succ_eq]
      exact ⟨r, k, r1, r2, v, r3, h1, h2, h3,
        (fuelLe_of_le gv _ (le_max_left gv gp)).1 _ _ hv0,
        Or.inl ⟨r4, members', hws, (fuelLe_of_le gp _ (le_max_right gv gp)).2.2 _ _ hp0, rfl⟩⟩
    · have l4 := skipWs_cons_length hws
      refine ⟨by omega, gv + 1, by omega, ?_⟩
      rw [parseProps_succ_eq]
      exact ⟨r, k, r1, r2, v, r3, h1, h2, h3, hv0, Or.inr ⟨hws, rfl⟩⟩

theorem fuelBound_all (f : Nat) : FuelBound f := by
  induction f with
  | zero =>
    refine ⟨?_, ?_, ?_⟩
    · intro s v rest h; simp [parseValue] at h
    · intro s items rest h; simp [parseItems] at h
    · intro s members rest h; simp [parseProps] at h
  | succ f ih => exact fuelBound_succ f ih

/-- The bound that `JSON.parse` gives to `parseValue` is enough: a value that some bound
on the nested calls reads is read with that one. -/
theorem parseValue_enough (f : Nat) (text : JSString) (v : JSON) (rest : JSString)
    (h : parseValue f text = some (v, rest)) :
    parseValue (2 * text.length + 1) text = some (v, rest) := by
  obtain ⟨_, g, hg, hp⟩ := (fuelBound_all f).1 text v rest h
  exact (fuelLe_of_le g _ (by omega)).1 _ _ hp

/-- `JSON.parse` returns a value exactly when some bound on the nested calls reads it,
with only whitespace after it. -/
theorem parse_eq_ok_iff (text : JSString) (v : JSON) :
    JSON.parse text = .ok v ↔
      ∃ f rest, parseValue f text = some (v, rest) ∧ skipWs rest = [] := by
  constructor
  · intro h
    unfold JSON.parse at h
    split at h
    · rename_i v' rest hp
      split_ifs at h with hws
      injection h with h
      subst h
      exact ⟨_, rest, hp, hws⟩
    · cases h
  · rintro ⟨f, rest, hp, hws⟩
    unfold JSON.parse
    rw [parseValue_enough f text v rest hp]
    simp only [hws, if_true]

/-! ## Tokens -/

theorem importHmacKey_ok {P : Platform} {k key : List Byte} (h : importHmacKey P k = .ok key) :
    key = k := by
  unfold importHmacKey at h
  split at h
  · injection h with h; exact h.symm
  · cases h

theorem importHmacKey_error {P : Platform} {k : List Byte} {e : JSError}
    (h : importHmacKey P k = .error e) : e = .DataError := by
  unfold importHmacKey at h
  split at h
  · cases h
  · injection h with h; exact h.symm

/-- What a successful `signJWT` computed. -/
theorem signJWT_ok {P : Platform} {p : JSON} {s tok : JSString} (h : signJWT P p s = .ok tok) :
    (∀ c ∈ p.stringify, c ≤ 255) ∧
    importHmacKey P (utf8Encode s) = .ok (utf8Encode s) ∧
    tok = b64Encode jwtHeader.stringify ++ 46 :: b64Encode p.stringify ++
      46 :: base64Url (b64Encode (stringOfBytes (P.hmac (utf8Encode s)
        (utf8Encode (b64Encode jwtHeader.stringify ++ 46 :: b64Encode p.stringify))))) := by
  unfold signJWT at h
  cases hh : btoa jwtHeader.stringify with
  | error e => simp [hh] at h
  | ok header =>
    cases hb : btoa p.stringify with
    | error e => simp [hh, hb] at h
    | ok body =>
      cases hk : importHmacKey P (utf8Encode s) with
      | error e => simp [hh, hb, hk] at h
      | ok key =>
        have hkey := importHmacKey_ok hk
        subst hkey
        obtain ⟨_, rfl⟩ := btoa_ok hh
        obtain ⟨hle, rfl⟩ := btoa_ok hb
        simp only [hh, hb, hk, btoa_stringOfBytes, Except.ok.injEq] at h
        exact ⟨hle, rfl, h.symm⟩

theorem jwtHeader_le : ∀ c ∈ jwtHeader.stringify, c ≤ 255 := by decide

theorem split_token (a b c : JSString) (ha : 46 ∉ a) (hb : 46 ∉ b) (hc : 46 ∉ c) :
    split 46 (a ++ 46 :: b ++ 46 :: c) = [a, b, c] := by
  have : a ++ 46 :: b ++ 46 :: c = a ++ 46 :: (b ++ 46 :: c) := by simp
  rw [this, split_append 46 a _ ha, split_append 46 b _ hb, split_of_not_mem 46 c hc]

theorem base64Url_no_dot (s : List Nat) (hs : ∀ c ∈ s, c ≤ 255) :
    46 ∉ base64Url (b64Encode s) := fun h => (base64Url_chars s hs 46 h).1 rfl

/-- The `try` block on a token whose first three segments are known. -/
theorem verifyJWTTry_of_split (P : Platform) (t s hd bd sg : JSString) (more : List JSString)
    (hsplit : split 46 t = hd :: bd :: sg :: more) :
    verifyJWTTry P (some t) s =
      match importHmacKey P (utf8Encode s) with
      | .error e => .error e
      | .ok key =>
        match atob (padLoop 3 (replaceAll 95 47 (replaceAll 45 43 sg))) with
        | .error e => .error e
        | .ok sigBin =>
          if hmacVerify P key (bytesOfString sigBin) (utf8Encode (hd ++ 46 :: bd)) then
            match atob bd with
            | .error e => .error e
            | .ok text => JSON.parse text
          else .ok .null := by
  unfold verifyJWTTry
  simp only [hsplit]
  rfl

theorem verifyJWT_signJWT (P : Platform) (p : JSON) (s tok : JSString)
    (hwf : p.wellFormed = true) (h : signJWT P p s = .ok tok) :
    verifyJWT P (some tok) s = p := by
  obtain ⟨hle, hk, rfl⟩ := signJWT_ok h
  have hsplit := split_token (b64Encode jwtHeader.stringify) (b64Encode p.stringify)
    (base64Url (b64Encode (stringOfBytes (P.hmac (utf8Encode s)
        (utf8Encode (b64Encode jwtHeader.stringify ++ 46 :: b64Encode p.stringify))))))
    (b64Encode_no_dot _ jwtHeader_le) (b64Encode_no_dot _ hle)
    (base64Url_no_dot _ (stringOfBytes_le _))
  unfold verifyJWT
  rw [verifyJWTTry_of_split P _ s _ _ _ [] hsplit, hk]
  simp only [atob_signature _ (stringOfBytes_le _), hmacVerify, bytesOfString_stringOfBytes,
    decide_True, if_true, atob_b64Encode _ hle, parse_stringify p hwf]

/-- The `try` block on a token with fewer than three segments throws. -/
theorem verifyJWTTry_short (P : Platform) (t s : JSString) (h : (split 46 t).length < 3) :
    ∃ e, verifyJWTTry P (some t) s = .error e := by
  unfold verifyJWTTry
  have h2 : (split 46 t).get? 2 = none := List.get?_eq_none.mpr (by omega)
  simp only [h2]
  cases importHmacKey P (utf8Encode s) with
  | error e => exact ⟨e, rfl⟩
  | ok key => exact ⟨.TypeError, rfl⟩

theorem verifyJWT_short (P : Platform) (t s : JSString) (h : (split 46 t).length < 3) :
    verifyJWT P (some t) s = .null := by
  obtain ⟨e, he⟩ := verifyJWTTry_short P t s h
  simp [verifyJWT, he]

theorem split_length_of_not_mem (t : JSString) (h : 46 ∉ t) : (split 46 t).length < 3 := by
  rw [split_of_not_mem 46 t h]; simp

theorem signJWT_congr_secret (P : Platform) (p : JSON) (s s' : JSString)
    (h : utf8Encode s = utf8Encode s') : signJWT P p s = signJWT P p s' := by
  unfold signJWT
  rw [h]

theorem verifyJWT_congr_secret (P : Platform) (token : Option JSString) (s s' : JSString)
    (h : utf8Encode s = utf8Encode s') : verifyJWT P token s = verifyJWT P token s' := by
  unfold verifyJWT verifyJWTTry
  rw [h]

/-- A token signed under the secret made of the unpaired surrogate U+D800 verifies under
the secret U+FFFD, for every platform: `TextEncoder` gives both the same bytes. -/
theorem verifyJWT_surrogate_secret (P : Platform) (p : JSON) (tok : JSString)
    (hwf : p.wellFormed = true) (h : signJWT P p [0xD800] = .ok tok) :
    verifyJWT P (some tok) [0xFFFD] = p := by
  have e : utf8Encode [0xFFFD] = utf8Encode [0xD800] := by decide
  rw [verifyJWT_congr_secret P (some tok) [0xFFFD] [0xD800] e]
  exact verifyJWT_signJWT P p [0xD800] tok hwf h

/-- A payload that is not `null` came out of a token whose signature is the tag. -/
theorem verifyJWT_ne_null (P : Platform) (t s : JSString)
    (h : verifyJWT P (some t) s ≠ .null) :
    ∃ hd bd sg more sigBin, split 46 t = hd :: bd :: sg :: more ∧
      atob (padLoop 3 (replaceAll 95 47 (replaceAll 45 43 sg))) = .ok sigBin ∧
      bytesOfString sigBin = P.hmac (utf8Encode s) (utf8Encode (hd ++ 46 :: bd)) := by
  rcases hsp : split 46 t with _ | ⟨hd, _ | ⟨bd, _ | ⟨sg, more⟩⟩⟩
  · exact absurd (verifyJWT_short P t s (by simp [hsp])) h
  · exact absurd (verifyJWT_short P t s (by simp [hsp])) h
  · exact absurd (verifyJWT_short P t s (by simp [hsp])) h
  · refine ⟨hd, bd, sg, more, ?_⟩
    unfold verifyJWT at h
    rw [verifyJWTTry_of_split P t s hd bd sg more hsp] at h
    cases hk : importHmacKey P (utf8Encode s) with
    | error e => simp [hk] at h
    | ok key =>
      have hkey := importHmacKey_ok hk
      subst hkey
      cases ha : atob (padLoop 3 (replaceAll 95 47 (replaceAll 45 43 sg))) with
      | error e => simp [hk, ha] at h
      | ok sigBin =>
        refine ⟨sigBin, rfl, rfl, ?_⟩
        by_cases hv : hmacVerify P (utf8Encode s) (bytesOfString sigBin)
            (utf8Encode (hd ++ 46 :: bd)) = true
        · simp only [hmacVerify, decide_eq_true_eq] at hv
          exact hv.symm
        · simp [hk, ha, hv] at h

/-- A token whose signature segment does not decode to the tag gives `null`. -/
theorem verifyJWT_tag_mismatch (P : Platform) (t s hd bd sg : JSString) (more : List JSString)
    (sigBin : JSString) (hsp : split 46 t = hd :: bd :: sg :: more)
    (ha : atob (padLoop 3 (replaceAll 95 47 (replaceAll 45 43 sg))) = .ok sigBin)
    (hne : P.hmac (utf8Encode s) (utf8Encode (hd ++ 46 :: bd)) ≠ bytesOfString sigBin) :
    verifyJWT P (some t) s = .null := by
  unfold verifyJWT
  rw [verifyJWTTry_of_split P t s hd bd sg more hsp]
  cases hk : importHmacKey P (utf8Encode s) with
  | error e => rfl
  | ok key =>
    have hkey := importHmacKey_ok hk
    subst hkey
    simp [ha, hmacVerify, hne]

theorem urlSafe_isBase64UrlChar : ∀ v, v < 64 →
    isBase64UrlChar ((fun c => if c = 47 then 95 else c)
      ((fun c => if c = 43 then 45 else c) (b64Char v))) = true := by decide

theorem base64Url_alphabet (s : List Nat) (hs : ∀ c ∈ s, c ≤ 255) :
    ∀ c ∈ base64Url (b64Encode s), isBase64UrlChar c = true := by
  have hlt := b64Sextets_lt s hs
  intro c hc
  rw [base64Url, removeAll_b64Encode s hs, b64Core_eq_map] at hc
  simp only [replaceAll, List.map_map, List.mem_map] at hc
  obtain ⟨v, hv, rfl⟩ := hc
  exact urlSafe_isBase64UrlChar v (hlt v hv)

theorem count_token (a b c : JSString) (ha : 46 ∉ a) (hb : 46 ∉ b) (hc : 46 ∉ c) :
    (a ++ 46 :: b ++ 46 :: c).count 46 = 2 := by
  simp [List.count_append, List.count_cons, List.count_eq_zero.mpr ha,
    List.count_eq_zero.mpr hb, List.count_eq_zero.mpr hc]

/-! ## Password hashes -/

/-- What `hashPassword` returns once the salt bytes are known. -/
theorem hashPassword_of_bytes (P : Platform) (password : JSString) (saltBytes : List Byte) :
    (match btoa (stringOfBytes (P.pbkdf2 (utf8Encode password) saltBytes 100000 256)),
        btoa (stringOfBytes saltBytes) with
      | .ok hash, .ok salt => (.ok { hash := hash, salt := salt } : Except JSError PasswordHash)
      | .error e, _ => .error e
      | _, .error e => .error e) =
    .ok { hash := b64Encode (stringOfBytes (P.pbkdf2 (utf8Encode password) saltBytes 100000 256)),
          salt := b64Encode (stringOfBytes saltBytes) } := by
  simp only [btoa_stringOfBytes]

theorem hashPassword_random (P : Platform) (rnd : List Byte) (password : JSString) :
    hashPassword P rnd password none =
      .ok { hash := b64Encode (stringOfBytes (P.pbkdf2 (utf8Encode password) rnd 100000 256)),
            salt := b64Encode (stringOfBytes rnd) } := by
  unfold hashPassword
  exact hashPassword_of_bytes P password rnd

theorem hashPassword_empty (P : Platform) (rnd : List Byte) (password : JSString) :
    hashPassword P rnd password (some []) = hashPassword P rnd password none := by
  unfold hashPassword
  rfl

theorem hashPassword_salt (P : Platform) (rnd : List Byte) (password salt : JSString)
    (h : salt ≠ []) :
    hashPassword P rnd password (some salt) =
      match atob salt with
      | .error e => .error e
      | .ok bin =>
        .ok { hash := b64Encode (stringOfBytes
                (P.pbkdf2 (utf8Encode password) (bytesOfString bin) 100000 256)),
              salt := b64Encode (stringOfBytes (bytesOfString bin)) } := by
  unfold hashPassword
  have he : salt.isEmpty = false := by
    cases salt with
    | nil => exact absurd rfl h
    | cons c cs => rfl
  simp only [he, Bool.false_eq_true, if_false]
  cases atob salt with
  | error e => rfl
  | ok bin => exact hashPassword_of_bytes P password (bytesOfString bin)

theorem b64Encode_ne_nil (s : List Nat) (h : s ≠ []) : b64Encode s ≠ [] := by
  match s, h with
  | [a], _ => simp [b64Encode]
  | [a, b], _ => simp [b64Encode]
  | a :: b :: c :: rest, _ => simp [b64Encode]

theorem hashPassword_stored_salt (P : Platform) (rnd rnd' : List Byte) (password : JSString)
    (hne : rnd ≠ []) :
    hashPassword P rnd' password (some (b64Encode (stringOfBytes rnd))) =
      hashPassword P rnd password none := by
  have h1 : b64Encode (stringOfBytes rnd) ≠ [] := by
    apply b64Encode_ne_nil
    cases rnd with
    | nil => exact absurd rfl hne
    | cons b bs => simp [stringOfBytes]
  rw [hashPassword_salt P rnd' password _ h1, atob_b64Encode _ (stringOfBytes_le rnd),
    hashPassword_random]
  simp only [bytesOfString_stringOfBytes]

/-! ## The routes -/

theorem getProp_ok {v : JSON} {name : JSString} {x : Option JSON}
    (h : v.getProp name = .ok x) : v ≠ .null ∧ x = optProp (some v) name := by
  cases v <;> simp [JSON.getProp, optProp] at h ⊢ <;> exact h.symm

theorem getProp_of_ne_null {v : JSON} (name : JSString) (h : v ≠ .null) :
    v.getProp name = .ok (optProp (some v) name) := by
  cases v <;> simp [JSON.getProp, optProp] at h ⊢

theorem getProp_null (name : JSString) : JSON.null.getProp name = .error .TypeError := rfl

/-- POST /chat when every step succeeds. -/
theorem chat_success (env : Env) (req : Request) (o : Oracle) (payload body data reply stored : JSON)
    (H : List JSON) (hb : req.json = .ok body) (hbn : body ≠ .null) (hpn : payload ≠ .null)
    (hg : o.gemini = .ok data) (hr : botReply data = .ok reply)
    (hk : kvGetJson env (historyKey (idOf payload)) = .ok stored)
    (hh : historyItems stored = .ok H) :
    chat env req o payload =
      { response := .ok ⟨200, JSON.stringify (.obj [(jss "reply", reply)])⟩,
        env := kvPut env (historyKey (idOf payload))
          (JSON.stringify (.arr (chatWritten H body reply o.now))),
        kvOps := [.get (historyKey (idOf payload)),
          .put (historyKey (idOf payload))
            (JSON.stringify (.arr (chatWritten H body reply o.now)))] } := by
  have hid : optProp (some payload) (jss "id") = idOf payload := rfl
  unfold chat
  simp only [hb, getProp_of_ne_null _ hbn, getProp_of_ne_null _ hpn, hg, hr, hid, hk, hh]
  rfl

/-- POST /chat either writes nothing or did every step. -/
theorem chat_cases (env : Env) (req : Request) (o : Oracle) (payload : JSON) :
    ((chat env req o payload).env = env ∧
      ∀ k v, KVOp.put k v ∉ (chat env req o payload).kvOps) ∨
    ∃ body data reply stored H,
      req.json = .ok body ∧ body ≠ .null ∧ payload ≠ .null ∧ o.gemini = .ok data ∧
      botReply data = .ok reply ∧
      kvGetJson env (historyKey (idOf payload)) = .ok stored ∧ historyItems stored = .ok H := by
  have hid : optProp (some payload) (jss "id") = idOf payload := rfl
  cases hb : req.json with
  | error e => left; simp [chat, hb, throwOut]
  | ok body =>
    by_cases hbn : body = .null
    · left; subst hbn; simp [chat, hb, getProp_null, throwOut]
    by_cases hpn : payload = .null
    · left; subst hpn
      simp [chat, hb, getProp_of_ne_null _ hbn, getProp_null, throwOut]
    cases hg : o.gemini with
    | error e =>
      left
      simp [chat, hb, getProp_of_ne_null _ hbn, getProp_of_ne_null _ hpn, hg, throwOut]
    | ok data =>
      cases hr : botReply data with
      | error e =>
        left
        simp [chat, hb, getProp_of_ne_null _ hbn, getProp_of_ne_null _ hpn, hg, hr, throwOut]
      | ok reply =>
        cases hk : kvGetJson env (historyKey (idOf payload)) with
        | error e =>
          left
          simp only [chat, hb, getProp_of_ne_null _ hbn, getProp_of_ne_null _ hpn, hg, hr,
            hid, hk]
          simp
        | ok stored =>
          cases hh : historyItems stored with
          | error e =>
            left
            simp only [chat, hb, getProp_of_ne_null _ hbn, getProp_of_ne_null _ hpn, hg, hr,
              hid, hk, hh]
            simp
          | ok H =>
            right
            exact ⟨body, data, reply, stored, H, rfl, hbn, hpn, rfl, hr, rfl, hh⟩


theorem filterSession_ok (sid : Option JSON) (H kept : List JSON)
    (h : filterSession sid H = .ok kept) :
    (∀ m ∈ H, m ≠ .null) ∧ kept = H.filter fun m => strictNe (sessionOf m) sid := by
  induction H generalizing kept with
  | nil =>
    simp only [filterSession, Except.ok.injEq] at h
    simp [← h]
  | cons m rest ih =>
    unfold filterSession at h
    by_cases hm : m = .null
    · subst hm; simp [getProp_null] at h
    · rw [getProp_of_ne_null _ hm] at h
      simp only at h
      cases hrest : filterSession sid rest with
      | error e => simp [hrest] at h
      | ok kept' =>
        obtain ⟨hnn, hk⟩ := ih kept' hrest
        rw [hrest] at h
        simp only [Except.ok.injEq] at h
        refine ⟨?_, ?_⟩
        · intro x hx
          rcases List.mem_cons.mp hx with rfl | hx
          · exact hm
          · exact hnn x hx
        · rw [← h, hk, List.filter_cons]
          rfl

theorem filterSession_of_ne_null (sid : Option JSON) (H : List JSON) (h : ∀ m ∈ H, m ≠ .null) :
    filterSession sid H = .ok (H.filter fun m => strictNe (sessionOf m) sid) := by
  induction H with
  | nil => rfl
  | cons m rest ih =>
    have hm := h m (by simp)
    have ih := ih (fun x hx => h x (by simp [hx]))
    unfold filterSession
    rw [getProp_of_ne_null _ hm, ih, List.filter_cons]
    rfl

/-- DELETE /history when every step succeeds. -/
theorem historyDelete_success (env : Env) (req : Request) (payload body stored : JSON)
    (H : List JSON) (hb : req.json = .ok body) (hbn : body ≠ .null) (hpn : payload ≠ .null)
    (hk : kvGetJson env (historyKey (idOf payload)) = .ok stored)
    (hh : historyItems stored = .ok H) (hnn : ∀ m ∈ H, m ≠ .null) :
    historyDelete env req payload =
      { response := .ok ⟨200, JSON.stringify (.obj [(jss "success", .bool true)])⟩,
        env := kvPut env (historyKey (idOf payload))
          (JSON.stringify (.arr (deleteWritten H body))),
        kvOps := [.get (historyKey (idOf payload)),
          .put (historyKey (idOf payload)) (JSON.stringify (.arr (deleteWritten H body)))] } := by
  have hid : optProp (some payload) (jss "id") = idOf payload := rfl
  unfold historyDelete
  simp only [hb, getProp_of_ne_null _ hbn, getProp_of_ne_null _ hpn, hid, hk, hh,
    filterSession_of_ne_null _ H hnn]
  rfl

/-- DELETE /history either writes nothing or did every step. -/
theorem historyDelete_cases (env : Env) (req : Request) (payload : JSON) :
    ((historyDelete env req payload).env = env ∧
      ∀ k v, KVOp.put k v ∉ (historyDelete env req payload).kvOps) ∨
    ∃ body stored H,
      req.json = .ok body ∧ body ≠ .null ∧ payload ≠ .null ∧
      kvGetJson env (historyKey (idOf payload)) = .ok stored ∧ historyItems stored = .ok H ∧
      ∀ m ∈ H, m ≠ .null := by
  have hid : optProp (some payload) (jss "id") = idOf payload := rfl
  cases hb : req.json with
  | error e => left; simp [historyDelete, hb, throwOut]
  | ok body =>
    by_cases hbn : body = .null
    · left; subst hbn; simp [historyDelete, hb, getProp_null, throwOut]
    by_cases hpn : payload = .null
    · left; subst hpn
      simp [historyDelete, hb, getProp_of_ne_null _ hbn, getProp_null, throwOut]
    cases hk : kvGetJson env (historyKey (idOf payload)) with
    | error e =>
      left
      simp only [historyDelete, hb, getProp_of_ne_null _ hbn, getProp_of_ne_null _ hpn,
        hid, hk]
      simp
    | ok stored =>
      cases hh : historyItems stored with
      | error e =>
        left
        simp only [historyDelete, hb, getProp_of_ne_null _ hbn, getProp_of_ne_null _ hpn,
          hid, hk, hh]
        simp
      | ok H =>
        cases hf : filterSession (optProp (some body) (jss "sessionId")) H with
        | error e =>
          left
          simp only [historyDelete, hb, getProp_of_ne_null _ hbn, getProp_of_ne_null _ hpn,
            hid, hk, hh, hf]
          simp
        | ok kept =>
          right
          exact ⟨body, stored, H, rfl, hbn, hpn, rfl, hh, (filterSession_ok _ H kept hf).1⟩

theorem historyGet_effect (env : Env) (payload : JSON) :
    (historyGet env payload).env = env ∧
      ∀ k v, KVOp.put k v ∉ (historyGet env payload).kvOps := by
  unfold historyGet
  cases payload.getProp (jss "id") with
  | error e => simp [throwOut]
  | ok userId =>
    simp only
    cases kvGetJson env (historyKey userId) with
    | error e => simp
    | ok stored => simp

/-! ## The handler -/

theorem truthy_ne_null {v : JSON} (h : v.truthy = true) : v ≠ .null := by
  rintro rfl
  simp [JSON.truthy] at h

theorem respond_effect (env : Env) (status : Nat) (body : JSString) :
    (respond env status body).env = env ∧
      ∀ k v, KVOp.put k v ∉ (respond env status body).kvOps := by
  simp [respond]

theorem throwOut_effect (env : Env) (e : JSError) :
    (throwOut env e).env = env ∧ ∀ k v, KVOp.put k v ∉ (throwOut env e).kvOps := by
  simp [throwOut]

theorem signup_effect (P : Platform) (env : Env) (req : Request) (o : Oracle) :
    (signup P env req o).env.CHAT_HISTORY = env.CHAT_HISTORY ∧
      ∀ k v, KVOp.put k v ∉ (signup P env req o).kvOps := by
  unfold signup
  cases req.json with
  | error e => simp [throwOut]
  | ok body =>
    simp only
    cases body.getProp (jss "email") with
    | error e => simp [throwOut]
    | ok email =>
      cases body.getProp (jss "password") with
      | error e => simp [throwOut]
      | ok password =>
        cases body.getProp (jss "username") with
        | error e => simp [throwOut]
        | ok username =>
          simp only
          cases hashPassword P o.randomBytes (encodeArg password) none with
          | error e => simp [throwOut]
          | ok h =>
            simp only
            cases dbInsert env.DB o.uuid username email h.hash h.salt <;> simp [respond]

theorem loginUser_effect (P : Platform) (env : Env) (o : Oracle) (password : Option JSON)
    (user : UserRow) :
    (loginUser P env o password user).env = env ∧
      ∀ k v, KVOp.put k v ∉ (loginUser P env o password user).kvOps := by
  unfold loginUser
  cases hashPassword P o.randomBytes (encodeArg password) (some user.salt) with
  | error e => simp [throwOut]
  | ok h =>
    simp only
    split_ifs
    · simp [respond]
    · cases signJWT P (.obj [(jss "id", .str user.id), (jss "email", user.email)])
        env.JWT_SECRET <;> simp [respond, throwOut]

theorem login_effect (P : Platform) (env : Env) (req : Request) (o : Oracle) :
    (login P env req o).env = env ∧ ∀ k v, KVOp.put k v ∉ (login P env req o).kvOps := by
  unfold login
  cases req.json with
  | error e => simp [throwOut]
  | ok body =>
    simp only
    cases body.getProp (jss "email") with
    | error e => simp [throwOut]
    | ok email =>
      cases body.getProp (jss "password") with
      | error e => simp [throwOut]
      | ok password =>
        simp only
        cases dbFirstByEmail env.DB email with
        | error e => simp [throwOut]
        | ok found =>
          cases found with
          | none => simp [respond]
          | some user => exact loginUser_effect P env o password user

theorem fetch_eq (P : Platform) (env : Env) (req : Request) (o : Oracle) :
    fetch P env req o =
      if req.method = jss "OPTIONS" then respond env 200 []
      else if req.pathname = jss "/auth/signup" ∧ req.method = jss "POST" then
        signup P env req o
      else if req.pathname = jss "/auth/login" ∧ req.method = jss "POST" then
        login P env req o
      else guarded P env req o := by
  unfold fetch guarded routes verifiedPayload
  cases req.authorization <;> rfl


/-- What the routes behind the middleware do to the key-value store. -/
theorem routes_kv (env : Env) (req : Request) (o : Oracle) (payload : JSON)
    (hpn : payload ≠ .null) :
    ((routes env req o payload).env = env ∧
      ∀ k v, KVOp.put k v ∉ (routes env req o payload).kvOps) ∨
    (∃ body data reply stored H,
      req.pathname = jss "/chat" ∧ req.method = jss "POST" ∧
      req.json = .ok body ∧ body ≠ .null ∧ o.gemini = .ok data ∧ botReply data = .ok reply ∧
      kvGetJson env (historyKey (idOf payload)) = .ok stored ∧
      historyItems stored = .ok H ∧
      routes env req o payload =
        { response := .ok ⟨200, JSON.stringify (.obj [(jss "reply", reply)])⟩,
          env := kvPut env (historyKey (idOf payload))
            (JSON.stringify (.arr (chatWritten H body reply o.now))),
          kvOps := [.get (historyKey (idOf payload)),
            .put (historyKey (idOf payload))
              (JSON.stringify (.arr (chatWritten H body reply o.now)))] }) ∨
    (∃ body stored H,
      req.pathname = jss "/history" ∧ req.method = jss "DELETE" ∧
      req.json = .ok body ∧ body ≠ .null ∧
      kvGetJson env (historyKey (idOf payload)) = .ok stored ∧
      historyItems stored = .ok H ∧ (∀ m ∈ H, m ≠ .null) ∧
      routes env req o payload =
        { response := .ok ⟨200, JSON.stringify (.obj [(jss "success", .bool true)])⟩,
          env := kvPut env (historyKey (idOf payload))
            (JSON.stringify (.arr (deleteWritten H body))),
          kvOps := [.get (historyKey (idOf payload)),
            .put (historyKey (idOf payload))
              (JSON.stringify (.arr (deleteWritten H body)))] }) := by
  by_cases hchat : req.pathname = jss "/chat" ∧ req.method = jss "POST"
  · have e : routes env req o payload = chat env req o payload := by
      unfold routes; rw [if_pos hchat]
    rw [e]
    rcases chat_cases env req o payload with hc | hc
    · left; exact hc
    · obtain ⟨body, data, reply, stored, H, hb, hbn, _, hg, hr, hk, hh⟩ := hc
      right; left
      exact ⟨body, data, reply, stored, H, hchat.1, hchat.2, hb, hbn, hg, hr, hk, hh,
        chat_success env req o _ body data reply stored H hb hbn hpn hg hr hk hh⟩
  by_cases hget : req.pathname = jss "/history" ∧ req.method = jss "GET"
  · have e : routes env req o payload = historyGet env payload := by
      unfold routes; rw [if_neg hchat, if_pos hget]
    rw [e]
    left; exact historyGet_effect env payload
  by_cases hdel : req.pathname = jss "/history" ∧ req.method = jss "DELETE"
  · have e : routes env req o payload = historyDelete env req payload := by
      unfold routes; rw [if_neg hchat, if_neg hget, if_pos hdel]
    rw [e]
    rcases historyDelete_cases env req payload with hc | hc
    · left; exact hc
    · obtain ⟨body, stored, H, hb, hbn, _, hk, hh, hnn⟩ := hc
      right; right
      exact ⟨body, stored, H, hdel.1, hdel.2, hb, hbn, hk, hh, hnn,
        historyDelete_success env req _ body stored H hb hbn hpn hk hh hnn⟩
  · have e : routes env req o payload = respond env 404 (jss "Not Found") := by
      unfold routes; rw [if_neg hchat, if_neg hget, if_neg hdel]
    rw [e]
    left; exact respond_effect env _ _

/-- The middleware lets a request through exactly when the header is a non-empty string
and the verified payload is truthy. -/
theorem guarded_cases (P : Platform) (env : Env) (req : Request) (o : Oracle) :
    ((guarded P env req o).env = env ∧ ∀ k v, KVOp.put k v ∉ (guarded P env req o).kvOps) ∨
    ((verifiedPayload P env req).truthy = true ∧
      guarded P env req o = routes env req o (verifiedPayload P env req)) := by
  unfold guarded
  cases req.authorization with
  | none => left; exact respond_effect env _ _
  | some a =>
    simp only
    by_cases hempty : a.isEmpty = true
    · rw [if_pos hempty]; left; exact respond_effect env _ _
    · rw [if_neg hempty]
      by_cases htr : (verifiedPayload P env req).truthy = true
      · right
        refine ⟨htr, ?_⟩
        rw [if_neg (by simp [htr])]
      · left
        rw [if_pos (by simpa using htr)]
        exact respond_effect env _ _

/-- What `fetch` does to the key-value store: nothing is written, or POST /chat ran to
its end, or DELETE /history ran to its end. -/
theorem fetch_kv (P : Platform) (env : Env) (req : Request) (o : Oracle) :
    ((fetch P env req o).env.CHAT_HISTORY = env.CHAT_HISTORY ∧
      ∀ k v, KVOp.put k v ∉ (fetch P env req o).kvOps) ∨
    (∃ body data reply stored H,
      req.pathname = jss "/chat" ∧ req.method = jss "POST" ∧
      (verifiedPayload P env req).truthy = true ∧
      req.json = .ok body ∧ body ≠ .null ∧ o.gemini = .ok data ∧ botReply data = .ok reply ∧
      kvGetJson env (historyKey (idOf (verifiedPayload P env req))) = .ok stored ∧
      historyItems stored = .ok H ∧
      fetch P env req o =
        { response := .ok ⟨200, JSON.stringify (.obj [(jss "reply", reply)])⟩,
          env := kvPut env (historyKey (idOf (verifiedPayload P env req)))
            (JSON.stringify (.arr (chatWritten H body reply o.now))),
          kvOps := [.get (historyKey (idOf (verifiedPayload P env req))),
            .put (historyKey (idOf (verifiedPayload P env req)))
              (JSON.stringify (.arr (chatWritten H body reply o.now)))] }) ∨
    (∃ body stored H,
      req.pathname = jss "/history" ∧ req.method = jss "DELETE" ∧
      (verifiedPayload P env req).truthy = true ∧
      req.json = .ok body ∧ body ≠ .null ∧
      kvGetJson env (historyKey (idOf (verifiedPayload P env req))) = .ok stored ∧
      historyItems stored = .ok H ∧ (∀ m ∈ H, m ≠ .null) ∧
      fetch P env req o =
        { response := .ok ⟨200, JSON.stringify (.obj [(jss "success", .bool true)])⟩,
          env := kvPut env (historyKey (idOf (verifiedPayload P env req)))
            (JSON.stringify (.arr (deleteWritten H body))),
          kvOps := [.get (historyKey (idOf (verifiedPayload P env req))),
            .put (historyKey (idOf (verifiedPayload P env req)))
              (JSON.stringify (.arr (deleteWritten H body)))] }) := by
  rw [fetch_eq]
  by_cases hopt : req.method = jss "OPTIONS"
  · rw [if_pos hopt]; left
    exact ⟨by rw [(respond_effect env _ _).1], (respond_effect env _ _).2⟩
  rw [if_neg hopt]
  by_cases hsign : req.pathname = jss "/auth/signup" ∧ req.method = jss "POST"
  · rw [if_pos hsign]; left; exact signup_effect P env req o
  rw [if_neg hsign]
  by_cases hlogin : req.pathname = jss "/auth/login" ∧ req.method = jss "POST"
  · rw [if_pos hlogin]; left
    exact ⟨by rw [(login_effect P env req o).1], (login_effect P env req o).2⟩
  rw [if_neg hlogin]
  rcases guarded_cases P env req o with hg | ⟨htr, hg⟩
  · left; exact ⟨by rw [hg.1], hg.2⟩
  · rw [hg]
    rcases routes_kv env req o _ (truthy_ne_null htr) with hr | hr | hr
    · left; exact ⟨by rw [hr.1], hr.2⟩
    · obtain ⟨body, data, reply, stored, H, h1, h2, h3, h4, h5, h6, h7, h8, h9⟩ := hr
      right; left
      exact ⟨body, data, reply, stored, H, h1, h2, htr, h3, h4, h5, h6, h7, h8, h9⟩
    · obtain ⟨body, stored, H, h1, h2, h3, h4, h5, h6, h7, h8⟩ := hr
      right; right
      exact ⟨body, stored, H, h1, h2, htr, h3, h4, h5, h6, h7, h8⟩

/-! ## The history and its invariant -/

theorem wellFormedItems_iff (xs : List JSON) :
    wellFormedItems xs = true ↔ ∀ x ∈ xs, x.wellFormed = true := by
  induction xs with
  | nil => simp [wellFormedItems]
  | cons x xs ih => simp [wellFormedItems, ih]

theorem wellFormedProps_iff (props : List (JSString × JSON)) :
    wellFormedProps props = true ↔ ∀ p ∈ props, p.2.wellFormed = true := by
  induction props with
  | nil => simp [wellFormedProps]
  | cons p props ih =>
    obtain ⟨k, v⟩ := p
    simp [wellFormedProps, ih]

theorem lookupProp_mem {k : JSString} {props : List (JSString × JSON)} {v : JSON}
    (h : lookupProp k props = some v) : ∃ k0, (k0, v) ∈ props := by
  induction props with
  | nil => simp [lookupProp] at h
  | cons p props ih =>
    obtain ⟨k0, v0⟩ := p
    simp only [lookupProp] at h
    split_ifs at h
    · injection h with h
      exact ⟨k0, by simp [h]⟩
    · obtain ⟨k1, hk1⟩ := ih h
      exact ⟨k1, by simp [hk1]⟩

theorem optProp_wf (x : Option JSON) (name : JSString) (h : OptWellFormed x) :
    OptWellFormed (optProp x name) := by
  intro w hw
  match x, h with
  | some (.obj props), h =>
    have hwf := h _ rfl
    simp only [JSON.wellFormed, Bool.and_eq_true] at hwf
    obtain ⟨k0, hmem⟩ := lookupProp_mem (show lookupProp name props = some w from hw)
    exact (wellFormedProps_iff props).mp hwf.2 (k0, w) hmem
  | none, _ => simp [optProp] at hw
  | some .null, _ => simp [optProp] at hw
  | some (.bool _), _ => simp [optProp] at hw
  | some (.num _), _ => simp [optProp] at hw
  | some (.str _), _ => simp [optProp] at hw
  | some (.arr _), _ => simp [optProp] at hw

theorem optFirst_wf (x : Option JSON) (h : OptWellFormed x) : OptWellFormed (optFirst x) := by
  intro w hw
  match x, h with
  | some (.obj props), h =>
    have hwf := h _ rfl
    simp only [JSON.wellFormed, Bool.and_eq_true] at hwf
    obtain ⟨k0, hmem⟩ := lookupProp_mem (show lookupProp (jss "0") props = some w from hw)
    exact (wellFormedProps_iff props).mp hwf.2 (k0, w) hmem
  | some (.arr items), h =>
    have hwf := h _ rfl
    simp only [JSON.wellFormed] at hwf
    simp only [optFirst] at hw
    exact (wellFormedItems_iff items).mp hwf w (List.mem_of_mem_head? hw)
  | some (.str s), _ =>
    simp only [optFirst, Option.map_eq_some'] at hw
    obtain ⟨c, _, rfl⟩ := hw
    rfl
  | none, _ => simp [optFirst] at hw
  | some .null, _ => simp [optFirst] at hw
  | some (.bool _), _ => simp [optFirst] at hw
  | some (.num _), _ => simp [optFirst] at hw

theorem optWellFormed_some {v : JSON} (h : v.wellFormed = true) : OptWellFormed (some v) := by
  intro w hw
  injection hw with hw
  rw [← hw]; exact h

theorem botReply_wf {data reply : JSON} (hd : data.wellFormed = true)
    (h : botReply data = .ok reply) : reply.wellFormed = true := by
  unfold botReply at h
  cases hc : data.getProp (jss "candidates") with
  | error e => simp [hc] at h
  | ok candidates =>
    rw [hc] at h
    simp only at h
    have hcw : OptWellFormed candidates := by
      rw [(getProp_ok hc).2]
      exact optProp_wf _ _ (optWellFormed_some hd)
    have htext := optProp_wf _ (jss "text") (optFirst_wf _ (optProp_wf _ (jss "parts")
      (optProp_wf _ (jss "content") (optFirst_wf _ hcw))))
    generalize optProp (optFirst (optProp (optProp (optFirst candidates) (jss "content"))
      (jss "parts"))) (jss "text") = text at h htext
    cases text with
    | none =>
      simp only [Except.ok.injEq] at h
      rw [← h]; rfl
    | some v =>
      simp only at h
      split_ifs at h
      · simp only [Except.ok.injEq] at h
        rw [← h]; exact htext v rfl
      · simp only [Except.ok.injEq] at h
        rw [← h]; rfl

theorem mkEntry_wf (role : JSString) (text sessionId : Option JSON) (now : JSString)
    (ht : OptWellFormed text) (hs : OptWellFormed sessionId) (hn : isJsonNumber (numberOfLiteral now) = true) :
    (mkEntry role text sessionId now).wellFormed = true := by
  have o1 : keysOrdered [jss "role", jss "timestamp"] = true := by decide
  have o2 : keysOrdered [jss "role", jss "sessionId", jss "timestamp"] = true := by decide
  have o3 : keysOrdered [jss "role", jss "text", jss "timestamp"] = true := by decide
  have o4 : keysOrdered [jss "role", jss "text", jss "sessionId", jss "timestamp"] = true := by
    decide
  have k1 : jss "role" ≠ jss "text" := by decide
  have k2 : jss "role" ≠ jss "sessionId" := by decide
  have k3 : jss "role" ≠ jss "timestamp" := by decide
  have k4 : jss "text" ≠ jss "sessionId" := by decide
  have k5 : jss "text" ≠ jss "timestamp" := by decide
  have k6 : jss "sessionId" ≠ jss "timestamp" := by decide
  cases text with
  | none =>
    cases sessionId with
    | none =>
      simp [mkEntry, definedProps, JSON.wellFormed, wellFormedProps, hn, k3, o1]
    | some s =>
      simp [mkEntry, definedProps, JSON.wellFormed, wellFormedProps, hn, k2, k3, k6, hs s rfl, o2]
  | some t =>
    cases sessionId with
    | none =>
      simp [mkEntry, definedProps, JSON.wellFormed, wellFormedProps, hn, k1, k3, k5, ht t rfl, o3]
    | some s =>
      simp [mkEntry, definedProps, JSON.wellFormed, wellFormedProps, hn, k1, k2, k3, k4, k5,
        k6, ht t rfl, hs s rfl, o4]

theorem chatHistory_eq_drop (H : List JSON) (u b : JSON) :
    chatHistory H u b = (H ++ [u, b]).drop (H.length + 2 - min 100 (H.length + 2)) := by
  unfold chatHistory
  have e : H ++ [u] ++ [b] = H ++ [u, b] := by simp
  simp only [e, List.length_append, List.length_cons, List.length_nil]
  split_ifs with h
  · congr 1; omega
  · have : H.length + 2 - min 100 (H.length + 2) = 0 := by omega
    rw [this, List.drop_zero]

theorem chatHistory_length (H : List JSON) (u b : JSON) :
    (chatHistory H u b).length = min 100 (H.length + 2) := by
  rw [chatHistory_eq_drop, List.length_drop]
  simp only [List.length_append, List.length_cons, List.length_nil]
  omega

theorem chatHistory_mem (H : List JSON) (u b : JSON) (x : JSON)
    (h : x ∈ chatHistory H u b) : x ∈ H ∨ x = u ∨ x = b := by
  rw [chatHistory_eq_drop] at h
  have := List.mem_of_mem_drop h
  simpa using this


theorem chatWritten_wf (H : List JSON) (body reply : JSON) (now : JSString)
    (hH : wellFormedItems H = true) (hb : body.wellFormed = true)
    (hr : reply.wellFormed = true) (hn : isJsonNumber (numberOfLiteral now) = true) :
    wellFormedItems (chatWritten H body reply now) = true := by
  rw [wellFormedItems_iff] at hH ⊢
  intro x hx
  have hsid := optProp_wf (some body) (jss "sessionId") (optWellFormed_some hb)
  have hmsg := optProp_wf (some body) (jss "message") (optWellFormed_some hb)
  rcases chatHistory_mem _ _ _ _ hx with h | h | h
  · exact hH x h
  · rw [h]; exact mkEntry_wf _ _ _ _ hmsg hsid hn
  · rw [h]; exact mkEntry_wf _ _ _ _ (optWellFormed_some hr) hsid hn

theorem chatWritten_length (H : List JSON) (body reply : JSON) (now : JSString) :
    (chatWritten H body reply now).length ≤ 100 := by
  rw [chatWritten, chatHistory_length]
  omega

theorem deleteWritten_wf (H : List JSON) (body : JSON) (hH : wellFormedItems H = true) :
    wellFormedItems (deleteWritten H body) = true := by
  rw [wellFormedItems_iff] at hH ⊢
  intro x hx
  exact hH x (List.mem_of_mem_filter hx)

theorem deleteWritten_length (H : List JSON) (body : JSON) :
    (deleteWritten H body).length ≤ H.length :=
  List.length_filter_le _ _

theorem parse_stringify_arr (H : List JSON) (h : wellFormedItems H = true) :
    JSON.parse (JSON.stringify (.arr H)) = .ok (.arr H) :=
  parse_stringify (.arr H) (by simpa [JSON.wellFormed] using h)

/-- Under the invariant, what the handler reads under a key is a well-formed history of
at most 100 entries. -/
theorem stored_history (env : Env) (hinv : HistoryCapped env) (key : JSString) (stored : JSON)
    (H : List JSON) (hk : kvGetJson env key = .ok stored) (hh : historyItems stored = .ok H) :
    wellFormedItems H = true ∧ H.length ≤ 100 := by
  unfold kvGetJson at hk
  cases hc : env.CHAT_HISTORY key with
  | none =>
    rw [hc] at hk
    simp only [Except.ok.injEq] at hk
    subst hk
    simp only [historyItems, JSON.truthy, Bool.not_false, if_true, Except.ok.injEq] at hh
    subst hh
    exact ⟨rfl, by simp⟩
  | some text =>
    obtain ⟨H0, rfl, hwf, hlen⟩ := hinv key text hc
    rw [hc] at hk
    simp only [parse_stringify_arr H0 hwf, Except.ok.injEq] at hk
    subst hk
    simp only [historyItems, JSON.truthy, Bool.not_true, Bool.false_eq_true, if_false,
      Except.ok.injEq] at hh
    subst hh
    exact ⟨hwf, hlen⟩

theorem historyCapped_kvPut (env : Env) (hinv : HistoryCapped env) (key : JSString)
    (H : List JSON) (hwf : wellFormedItems H = true) (hlen : H.length ≤ 100) :
    HistoryCapped (kvPut env key (JSON.stringify (.arr H))) := by
  intro k text hk
  simp only [kvPut] at hk
  split_ifs at hk with hkk
  · injection hk with hk
    exact ⟨H, hk.symm, hwf, hlen⟩
  · exact hinv k text hk

/-- One request keeps the invariant. -/
theorem historyCapped_fetch (P : Platform) (env : Env) (req : Request) (o : Oracle)
    (hinv : HistoryCapped env) (hreq : req.wellFormed = true) (ho : o.wellFormed = true) :
    HistoryCapped (fetch P env req o).env := by
  simp only [Oracle.wellFormed, Bool.and_eq_true] at ho
  rcases fetch_kv P env req o with h | h | h
  · intro k text hk
    rw [h.1] at hk
    exact hinv k text hk
  · obtain ⟨body, data, reply, stored, H, _, _, _, hb, _, hg, hr, hk, hh, hf⟩ := h
    rw [hf]
    obtain ⟨hwf, _⟩ := stored_history env hinv _ stored H hk hh
    have hbw : body.wellFormed = true := by simpa [Request.wellFormed, hb] using hreq
    have hdw : data.wellFormed = true := by simpa [hg] using ho.2
    exact historyCapped_kvPut env hinv _ _
      (chatWritten_wf H body reply o.now hwf hbw (botReply_wf hdw hr) ho.1)
      (chatWritten_length H body reply o.now)
  · obtain ⟨body, stored, H, _, _, _, hb, _, hk, hh, _, hf⟩ := h
    rw [hf]
    obtain ⟨hwf, hlen⟩ := stored_history env hinv _ stored H hk hh
    exact historyCapped_kvPut env hinv _ _ (deleteWritten_wf H body hwf)
      (le_trans (deleteWritten_length H body) hlen)

/-- Every sequence of requests keeps the invariant. -/
theorem historyCapped_run (P : Platform) (steps : List (Request × Oracle)) (env : Env)
    (hinv : HistoryCapped env)
    (hwf : ∀ st ∈ steps, st.1.wellFormed = true ∧ st.2.wellFormed = true) :
    HistoryCapped (run P env steps) := by
  induction steps generalizing env with
  | nil => exact hinv
  | cons st rest ih =>
    obtain ⟨req, o⟩ := st
    have h := hwf (req, o) (by simp)
    exact ih _ (historyCapped_fetch P env req o hinv h.1 h.2)
      (fun st hst => hwf st (by simp [hst]))

theorem chatHistory_eq_append (H : List JSON) (u b : JSON) :
    chatHistory H u b = H.drop (H.length - 98) ++ [u, b] := by
  rw [chatHistory_eq_drop]
  have h1 : H.length + 2 - min 100 (H.length + 2) = H.length - 98 := by omega
  rw [h1, List.drop_append_of_le_length (by omega)]

theorem put_mem_pair {k key v value : JSString}
    (h : KVOp.put k v ∈ [KVOp.get key, KVOp.put key value]) : k = key ∧ v = value := by
  simp only [List.mem_cons, List.mem_singleton, List.not_mem_nil, or_false] at h
  rcases h with h | h
  · cases h
  · injection h with h1 h2
    exact ⟨h1, h2⟩

theorem kvPut_self (env : Env) (key value : JSString) :
    (kvPut env key value).CHAT_HISTORY key = some value := by
  simp [kvPut]

theorem kvPut_other (env : Env) (key value k : JSString) (h : k ≠ key) :
    (kvPut env key value).CHAT_HISTORY k = env.CHAT_HISTORY k := by
  simp [kvPut, h]

theorem fetch_guarded (P : Platform) (env : Env) (req : Request) (o : Oracle)
    (hopt : req.method ≠ jss "OPTIONS")
    (hsign : ¬ (req.pathname = jss "/auth/signup" ∧ req.method = jss "POST"))
    (hlogin : ¬ (req.pathname = jss "/auth/login" ∧ req.method = jss "POST")) :
    fetch P env req o = guarded P env req o := by
  rw [fetch_eq, if_neg hopt, if_neg hsign, if_neg hlogin]

theorem historyKey_injective (u v : JSString)
    (h : historyKey (some (.str u)) = historyKey (some (.str v))) : u = v := by
  simp only [historyKey, toStr, JSON.toStr, List.append_assoc] at h
  exact List.append_cancel_right (List.append_cancel_left h)

theorem numberEqual_serialize {x y : JSNumber} (h : numberEqual x y = true) :
    serializeNumber x = serializeNumber y := by
  cases x <;> cases y <;> simp [numberEqual] at h
  · rfl
  · subst h; rfl
  · obtain ⟨rfl, rfl, rfl⟩ := h; rfl

theorem numberEqual_self {x : JSNumber} (h : x ≠ .nan) : numberEqual x x = true := by
  cases x <;> simp [numberEqual] at h ⊢

theorem isJsonNumber_ne_nan {x : JSNumber} (h : isJsonNumber x = true) : x ≠ .nan := by
  rintro rfl
  exact absurd h (by decide)

/-- Two numbers that `JSON.parse` gives back are equal for `===` exactly when they are
the same double. -/
theorem numberEqual_canonical {a b : JSNumber} (ha : isJsonNumber a = true)
    (hb : isJsonNumber b = true) : numberEqual a b = true ↔ a = b := by
  constructor
  · intro h
    have := numberEqual_serialize h
    rw [← ((isJsonNumber_iff a).mp ha).2, ← ((isJsonNumber_iff b).mp hb).2, this]
  · rintro rfl
    exact numberEqual_self (isJsonNumber_ne_nan ha)

/-- Against a string, `!==` is plain inequality of the values. -/
theorem strictNe_str (x : Option JSON) (s : JSString) :
    strictNe x (some (.str s)) = true ↔ x ≠ some (.str s) := by
  match x with
  | none => simp [strictNe]
  | some .null => simp [strictNe]
  | some (.bool _) => simp [strictNe]
  | some (.num _) => simp [strictNe]
  | some (.str _) => simp [strictNe]
  | some (.arr _) => simp [strictNe]
  | some (.obj _) => simp [strictNe]

/-- Between well-formed values, one of them a primitive, `!==` is plain inequality. -/
theorem strictNe_wellFormed (x sid : Option JSON) (h : isPrimitive sid = true)
    (hx : OptWellFormed x) (hs : OptWellFormed sid) : strictNe x sid = true ↔ x ≠ sid := by
  match sid, h, hs with
  | none, _, _ => cases x <;> simp [strictNe]
  | some .null, _, _ =>
    match x with
    | none => simp [strictNe]
    | some .null => simp [strictNe]
    | some (.bool _) => simp [strictNe]
    | some (.num _) => simp [strictNe]
    | some (.str _) => simp [strictNe]
    | some (.arr _) => simp [strictNe]
    | some (.obj _) => simp [strictNe]
  | some (.bool b), _, _ =>
    match x with
    | none => simp [strictNe]
    | some .null => simp [strictNe]
    | some (.bool _) => simp [strictNe]
    | some (.num _) => simp [strictNe]
    | some (.str _) => simp [strictNe]
    | some (.arr _) => simp [strictNe]
    | some (.obj _) => simp [strictNe]
  | some (.num l), _, hs =>
    match x, hx with
    | none, _ => simp [strictNe]
    | some .null, _ => simp [strictNe]
    | some (.bool _), _ => simp [strictNe]
    | some (.num a), hx =>
      have ha : isJsonNumber a = true := hx _ rfl
      have hl : isJsonNumber l = true := hs _ rfl
      simp only [strictNe, Bool.not_eq_true', ne_eq, Option.some.injEq, JSON.num.injEq]
      rw [← numberEqual_canonical ha hl, Bool.not_eq_true]
    | some (.str _), _ => simp [strictNe]
    | some (.arr _), _ => simp [strictNe]
    | some (.obj _), _ => simp [strictNe]
  | some (.str s), _, _ => exact strictNe_str x s

theorem verifiedPayload_truthy (P : Platform) (env : Env) (req : Request)
    (h : (verifiedPayload P env req).truthy = true) :
    ∃ a, req.authorization = some a ∧ a.isEmpty = false := by
  unfold verifiedPayload at h
  cases ha : req.authorization with
  | none => rw [ha] at h; simp [JSON.truthy] at h
  | some a =>
    refine ⟨a, rfl, ?_⟩
    cases a with
    | nil =>
      rw [ha] at h
      have : verifyJWT P ((split 32 []).get? 1) env.JWT_SECRET = .null := rfl
      simp only [this, JSON.truthy] at h
      exact absurd h (by decide)
    | cons c cs => rfl

/-- Behind the middleware a request with a truthy payload goes to its route. -/
theorem guarded_of_truthy (P : Platform) (env : Env) (req : Request) (o : Oracle)
    (h : (verifiedPayload P env req).truthy = true) :
    guarded P env req o = routes env req o (verifiedPayload P env req) := by
  obtain ⟨a, ha, hemp⟩ := verifiedPayload_truthy P env req h
  unfold guarded
  simp only [ha]
  rw [if_neg (by simp [hemp]), if_neg (by simp [h])]

theorem fetch_chat (P : Platform) (env : Env) (req : Request) (o : Oracle)
    (hpath : req.pathname = jss "/chat") (hmeth : req.method = jss "POST")
    (h : (verifiedPayload P env req).truthy = true) :
    fetch P env req o = chat env req o (verifiedPayload P env req) := by
  rw [fetch_guarded P env req o (by rw [hmeth]; decide)
    (fun hc => absurd (hpath ▸ hc.1) (by decide))
    (fun hc => absurd (hpath ▸ hc.1) (by decide)), guarded_of_truthy P env req o h]
  unfold routes
  rw [if_pos ⟨hpath, hmeth⟩]

theorem fetch_historyDelete (P : Platform) (env : Env) (req : Request) (o : Oracle)
    (hpath : req.pathname = jss "/history") (hmeth : req.method = jss "DELETE")
    (h : (verifiedPayload P env req).truthy = true) :
    fetch P env req o = historyDelete env req (verifiedPayload P env req) := by
  rw [fetch_guarded P env req o (by rw [hmeth]; decide)
    (fun hc => absurd (hpath ▸ hc.1) (by decide))
    (fun hc => absurd (hpath ▸ hc.1) (by decide)), guarded_of_truthy P env req o h]
  unfold routes
  rw [if_neg (fun hc => absurd (hpath ▸ hc.1) (by decide)),
    if_neg (fun hc => absurd (hmeth ▸ hc.2) (by decide)), if_pos ⟨hpath, hmeth⟩]

theorem filterSession_null (sid : Option JSON) (H : List JSON) (h : JSON.null ∈ H) :
    filterSession sid H = .error .TypeError := by
  induction H with
  | nil => simp at h
  | cons m rest ih =>
    unfold filterSession
    by_cases hm : m = .null
    · subst hm; rfl
    · have hr : JSON.null ∈ rest := by
        rcases List.mem_cons.mp h with h | h
        · exact absurd h.symm hm
        · exact h
      rw [getProp_of_ne_null _ hm, ih hr]

/-- DELETE /history on a history with a `null` entry: the callback of `filter` throws. -/
theorem historyDelete_null (env : Env) (req : Request) (payload body stored : JSON)
    (H : List JSON) (hb : req.json = .ok body) (hbn : body ≠ .null) (hpn : payload ≠ .null)
    (hk : kvGetJson env (historyKey (idOf payload)) = .ok stored)
    (hh : historyItems stored = .ok H) (hnull : JSON.null ∈ H) :
    historyDelete env req payload =
      { response := .error .TypeError, env := env,
        kvOps := [.get (historyKey (idOf payload))] } := by
  have hid : optProp (some payload) (jss "id") = idOf payload := rfl
  unfold historyDelete
  simp only [hb, getProp_of_ne_null _ hbn, getProp_of_ne_null _ hpn, hid, hk, hh,
    filterSession_null _ H hnull]

/-! ## The claims -/

set_option maxRecDepth 100000

/-- C1, as stated, fails: the payload `"€"` (the one code unit U+20AC) is a JSON value,
and `signJWT` throws on it, because `btoa` refuses a code unit above 0xFF; there is no
token to verify. -/
theorem signJWT_euro_throws :
    (JSON.str [0x20AC]).wellFormed = true ∧
    signJWT demoPlatform (.str [0x20AC]) (jss "secret") = .error .InvalidCharacterError := by
  decide

/-- C1, amended: for every JSON value `p` and every secret `s` for which `signJWT`
returns a token, `verifyJWT` of that token under `s` returns `p`. -/
theorem sign_then_verify (P : Platform) (p : JSON) (s tok : JSString)
    (hwf : p.wellFormed = true) (h : signJWT P p s = .ok tok) :
    verifyJWT P (some tok) s = p :=
  verifyJWT_signJWT P p s tok hwf h

/-- C1, amended, on the payload `{"id":"u1","email":"a@x.com"}`. -/
theorem sign_then_verify_witness :
    (JSON.obj [(jss "id", .str (jss "u1")), (jss "email", .str (jss "a@x.com"))]).wellFormed
      = true ∧
    signJWT demoPlatform (.obj [(jss "id", .str (jss "u1")), (jss "email", .str (jss "a@x.com"))])
      (jss "secret") = .ok (jss
        "eyJhbGciOiJIUzI1NiIsInR5cGUiOiJKV1QifQ==.eyJpZCI6InUxIiwiZW1haWwiOiJhQHguY29tIn0=.BoZRhg") ∧
    verifyJWT demoPlatform (some (jss
        "eyJhbGciOiJIUzI1NiIsInR5cGUiOiJKV1QifQ==.eyJpZCI6InUxIiwiZW1haWwiOiJhQHguY29tIn0=.BoZRhg"))
      (jss "secret")
      = .obj [(jss "id", .str (jss "u1")), (jss "email", .str (jss "a@x.com"))] :=
  ⟨by decide, by decide, sign_then_verify demoPlatform _ (jss "secret") _ (by decide) (by decide)⟩

/-- C2. `verifyJWT` never throws: whatever the token (a string without dots, a segment
that is not base64, a body that is not JSON, or a value that is not a string, `none`) and
whatever the secret, every exception of the `try` block gives `null`, and the result is
`null` or the JSON value parsed from the decoded body segment. -/
theorem verifyJWT_never_throws (P : Platform) (token : Option JSString) (secret : JSString) :
    (∀ e, verifyJWTTry P token secret = .error e → verifyJWT P token secret = .null) ∧
    (verifyJWT P token secret = .null ∨
      ∃ t hd bd sg more text, token = some t ∧ split 46 t = hd :: bd :: sg :: more ∧
        atob bd = .ok text ∧ JSON.parse text = .ok (verifyJWT P token secret)) ∧
    (token = none → verifyJWT P token secret = .null) ∧
    (∀ t, token = some t → 46 ∉ t → verifyJWT P token secret = .null) ∧
    (∀ t, token = some t → (split 46 t).length < 3 → verifyJWT P token secret = .null) ∧
    (∀ t hd bd sg more, token = some t → split 46 t = hd :: bd :: sg :: more →
      (∀ e, atob (padLoop 3 (replaceAll 95 47 (replaceAll 45 43 sg))) = .error e →
        verifyJWT P token secret = .null) ∧
      (∀ e, atob bd = .error e → verifyJWT P token secret = .null) ∧
      (∀ text e, atob bd = .ok text → JSON.parse text = .error e →
        verifyJWT P token secret = .null)) := by
  have hshort : ∀ t, token = some t → (split 46 t).length < 3 →
      verifyJWT P token secret = .null := by
    intro t ht hlen
    subst ht
    exact verifyJWT_short P t secret hlen
  refine ⟨?_, ?_, ?_, ?_, hshort, ?_⟩
  · intro e he
    simp [verifyJWT, he]
  · cases token with
    | none => left; rfl
    | some t =>
      rcases hsp : split 46 t with _ | ⟨hd, _ | ⟨bd, _ | ⟨sg, more⟩⟩⟩
      · left; exact hshort t rfl (by simp [hsp])
      · left; exact hshort t rfl (by simp [hsp])
      · left; exact hshort t rfl (by simp [hsp])
      · unfold verifyJWT
        rw [verifyJWTTry_of_split P t secret hd bd sg more hsp]
        cases importHmacKey P (utf8Encode secret) with
        | error e => left; rfl
        | ok key =>
          cases atob (padLoop 3 (replaceAll 95 47 (replaceAll 45 43 sg))) with
          | error e => left; rfl
          | ok sigBin =>
            by_cases hv : hmacVerify P key (bytesOfString sigBin)
                (utf8Encode (hd ++ 46 :: bd)) = true
            · cases hb : atob bd with
              | error e => left; simp [hv]
              | ok text =>
                cases hp : JSON.parse text with
                | error e => left; simp [hv, hp]
                | ok v =>
                  right
                  refine ⟨t, hd, bd, sg, more, text, rfl, hsp, hb, ?_⟩
                  simp [hv, hp]
            · left; simp [hv]
  · intro ht; subst ht; rfl
  · intro t ht hnd
    exact hshort t ht (split_length_of_not_mem t hnd)
  · intro t hd bd sg more ht hsp
    subst ht
    unfold verifyJWT
    rw [verifyJWTTry_of_split P t secret hd bd sg more hsp]
    refine ⟨?_, ?_, ?_⟩
    · intro e he
      cases importHmacKey P (utf8Encode secret) with
      | error e => rfl
      | ok key => simp [he]
    · intro e he
      cases importHmacKey P (utf8Encode secret) with
      | error e => rfl
      | ok key =>
        cases atob (padLoop 3 (replaceAll 95 47 (replaceAll 45 43 sg))) with
        | error e => rfl
        | ok sigBin =>
          by_cases hv : hmacVerify P key (bytesOfString sigBin)
              (utf8Encode (hd ++ 46 :: bd)) = true
          · simp [hv, he]
          · simp [hv]
    · intro text e hb hp
      cases importHmacKey P (utf8Encode secret) with
      | error e => rfl
      | ok key =>
        cases atob (padLoop 3 (replaceAll 95 47 (replaceAll 45 43 sg))) with
        | error e => rfl
        | ok sigBin =>
          by_cases hv : hmacVerify P key (bytesOfString sigBin)
              (utf8Encode (hd ++ 46 :: bd)) = true
          · simp [hv, hb, hp]
          · simp [hv]

/-- C2, on a token without dots, on a signature that is not base64 and on a token that is
not a string. -/
theorem verifyJWT_never_throws_witness :
    verifyJWT demoPlatform (some (jss "garbage")) (jss "secret") = .null ∧
    verifyJWT demoPlatform (some (jss "a.b.c")) (jss "secret") = .null ∧
    verifyJWT demoPlatform none (jss "secret") = .null :=
  ⟨(verifyJWT_never_throws demoPlatform (some (jss "garbage")) (jss "secret")).2.2.2.1
      (jss "garbage") rfl (by decide),
   (verifyJWT_never_throws demoPlatform (some (jss "a.b.c")) (jss "secret")).2.2.2.2.2
      (jss "a.b.c") (jss "a") (jss "b") (jss "c") [] rfl (by decide) |>.1
      .InvalidCharacterError (by decide),
   (verifyJWT_never_throws demoPlatform none (jss "secret")).2.2.1 rfl⟩

/-- C3, as stated, fails: the secrets U+D800 (an unpaired surrogate) and U+FFFD are
different strings, and a token signed under the first verifies under the second, because
`TextEncoder` encodes both as the bytes EF BF BD. -/
theorem verify_other_secret_accepts :
    ([0xFFFD] : JSString) ≠ [0xD800] ∧
    signJWT demoPlatform (.obj [(jss "id", .str (jss "u1")), (jss "email", .str (jss "a@x.com"))])
      [0xD800] = .ok (jss
        "eyJhbGciOiJIUzI1NiIsInR5cGUiOiJKV1QifQ==.eyJpZCI6InUxIiwiZW1haWwiOiJhQHguY29tIn0=.A2tRhg") ∧
    verifyJWT demoPlatform (some (jss
        "eyJhbGciOiJIUzI1NiIsInR5cGUiOiJKV1QifQ==.eyJpZCI6InUxIiwiZW1haWwiOiJhQHguY29tIn0=.A2tRhg"))
      [0xFFFD]
      = .obj [(jss "id", .str (jss "u1")), (jss "email", .str (jss "a@x.com"))] :=
  ⟨by decide, by decide,
    verifyJWT_surrogate_secret demoPlatform _ _ (by decide) (by decide)⟩

/-- C3, amended: `verifyJWT` returns a payload other than `null` only when the decoded
signature segment is the keyed hash of `header.body` under the UTF-8 bytes of the given
secret. Hence a token of `signJWT` gives `null` under another secret whose keyed hash of
`header.body` differs, and gives `null` under the same secret once its payload segment is
replaced by a segment whose keyed hash differs. -/
theorem verifyJWT_checks_signature (P : Platform) (p : JSON) (s s' tok body' : JSString) :
    (∀ t, verifyJWT P (some t) s ≠ .null →
      ∃ hd bd sg more sigBin, split 46 t = hd :: bd :: sg :: more ∧
        atob (padLoop 3 (replaceAll 95 47 (replaceAll 45 43 sg))) = .ok sigBin ∧
        bytesOfString sigBin = P.hmac (utf8Encode s) (utf8Encode (hd ++ 46 :: bd))) ∧
    (signJWT P p s = .ok tok →
      P.hmac (utf8Encode s')
          (utf8Encode (b64Encode jwtHeader.stringify ++ 46 :: b64Encode p.stringify)) ≠
        P.hmac (utf8Encode s)
          (utf8Encode (b64Encode jwtHeader.stringify ++ 46 :: b64Encode p.stringify)) →
      verifyJWT P (some tok) s' = .null) ∧
    (signJWT P p s = .ok tok → 46 ∉ body' →
      P.hmac (utf8Encode s) (utf8Encode (b64Encode jwtHeader.stringify ++ 46 :: body')) ≠
        P.hmac (utf8Encode s)
          (utf8Encode (b64Encode jwtHeader.stringify ++ 46 :: b64Encode p.stringify)) →
      verifyJWT P (some (b64Encode jwtHeader.stringify ++ 46 :: body' ++
        46 :: base64Url (b64Encode (stringOfBytes (P.hmac (utf8Encode s)
          (utf8Encode (b64Encode jwtHeader.stringify ++ 46 :: b64Encode p.stringify)))))))
        s = .null) := by
  refine ⟨fun t ht => verifyJWT_ne_null P t s ht, ?_, ?_⟩
  · intro h hne
    obtain ⟨hle, _, rfl⟩ := signJWT_ok h
    have hsplit := split_token (b64Encode jwtHeader.stringify) (b64Encode p.stringify)
      (base64Url (b64Encode (stringOfBytes (P.hmac (utf8Encode s)
          (utf8Encode (b64Encode jwtHeader.stringify ++ 46 :: b64Encode p.stringify))))))
      (b64Encode_no_dot _ jwtHeader_le) (b64Encode_no_dot _ hle)
      (base64Url_no_dot _ (stringOfBytes_le _))
    refine verifyJWT_tag_mismatch P _ s' _ _ _ [] _ hsplit
      (atob_signature _ (stringOfBytes_le _)) ?_
    rw [bytesOfString_stringOfBytes]
    exact hne
  · intro h hdot hne
    obtain ⟨hle, _, _⟩ := signJWT_ok h
    have hsplit := split_token (b64Encode jwtHeader.stringify) body'
      (base64Url (b64Encode (stringOfBytes (P.hmac (utf8Encode s)
          (utf8Encode (b64Encode jwtHeader.stringify ++ 46 :: b64Encode p.stringify))))))
      (b64Encode_no_dot _ jwtHeader_le) hdot
      (base64Url_no_dot _ (stringOfBytes_le _))
    refine verifyJWT_tag_mismatch P _ s _ _ _ [] _ hsplit
      (atob_signature _ (stringOfBytes_le _)) ?_
    rw [bytesOfString_stringOfBytes]
    exact hne

/-- C3, amended, on the token of `{"id":"u1","email":"a@x.com"}` signed under `secret`:
it gives `null` under the secret `other`, and `null` with the payload segment `e30=`. -/
theorem verifyJWT_checks_signature_witness :
    verifyJWT demoPlatform (some (jss
        "eyJhbGciOiJIUzI1NiIsInR5cGUiOiJKV1QifQ==.eyJpZCI6InUxIiwiZW1haWwiOiJhQHguY29tIn0=.BoZRhg"))
      (jss "other") = .null ∧
    verifyJWT demoPlatform (some (jss
        "eyJhbGciOiJIUzI1NiIsInR5cGUiOiJKV1QifQ==.e30=.BoZRhg")) (jss "secret") = .null :=
  ⟨(verifyJWT_checks_signature demoPlatform
      (.obj [(jss "id", .str (jss "u1")), (jss "email", .str (jss "a@x.com"))])
      (jss "secret") (jss "other") _ (jss "e30=")).2.1 (by decide) (by decide),
   (verifyJWT_checks_signature demoPlatform
      (.obj [(jss "id", .str (jss "u1")), (jss "email", .str (jss "a@x.com"))])
      (jss "secret") (jss "other") (jss
        "eyJhbGciOiJIUzI1NiIsInR5cGUiOiJKV1QifQ==.eyJpZCI6InUxIiwiZW1haWwiOiJhQHguY29tIn0=.BoZRhg")
      (jss "e30=")).2.2 (by decide) (by decide) (by decide)⟩

/-- C4, as stated, fails on the empty string: `""` is falsy, so `hashPassword(p, "")`
draws the random bytes, and two calls that draw different bytes return different hashes
(and different salts). -/
theorem hashPassword_empty_salt_differs :
    hashPassword demoPlatform (List.replicate 16 (toByte 1)) (jss "pw") (some [])
      = .ok { hash := jss "AucQEA==", salt := jss "AQEBAQEBAQEBAQEBAQEBAQ==" } ∧
    hashPassword demoPlatform (List.replicate 16 (toByte 2)) (jss "pw") (some [])
      = .ok { hash := jss "AucQIA==", salt := jss "AgICAgICAgICAgICAgICAg==" } ∧
    jss "AucQEA==" ≠ jss "AucQIA==" := by
  decide

/-- C4, amended: for every password and every salt string other than the empty one, two
calls of `hashPassword` return the same result whatever the random source holds: the same
hash and salt when the salt is base64, the same exception of `atob` when it is not. -/
theorem hashPassword_deterministic (P : Platform) (rnd rnd' : List Byte)
    (password salt : JSString) (h : salt ≠ []) :
    hashPassword P rnd password (some salt) = hashPassword P rnd' password (some salt) := by
  rw [hashPassword_salt P rnd password salt h, hashPassword_salt P rnd' password salt h]

/-- C4, amended, on the salt `AQID`. -/
theorem hashPassword_deterministic_witness :
    hashPassword demoPlatform (List.replicate 16 (toByte 1)) (jss "pw") (some (jss "AQID"))
      = hashPassword demoPlatform (List.replicate 16 (toByte 2)) (jss "pw")
          (some (jss "AQID")) :=
  hashPassword_deterministic demoPlatform _ _ (jss "pw") (jss "AQID") (by decide)

/-- C5. With 16 random bytes, what `hashPassword(p)` returns at signup is what
`hashPassword(p, salt)` returns at login with the stored salt: the same hash and the same
salt string. Hence, for the row that holds that hash and that salt and for the same
password, the comparison of the login route finds the hashes equal and the route does
not answer 401 (it answers 200 with a token, or `signJWT` throws). -/
theorem login_recomputes_hash (P : Platform) (rnd rnd' : List Byte) (password : JSString)
    (h : PasswordHash) (hlen : rnd.length = 16)
    (hs : hashPassword P rnd password none = .ok h) :
    hashPassword P rnd' password (some h.salt) = .ok h ∧
    ∀ (env : Env) (o : Oracle) (pw : Option JSON) (user : UserRow),
      encodeArg pw = password → user.password_hash = h.hash → user.salt = h.salt →
      ((loginUser P env o pw user).response = .error .InvalidCharacterError ∨
        (loginUser P env o pw user).response = .error .DataError ∨
        ∃ token, (loginUser P env o pw user).response = .ok ⟨200,
          JSON.stringify (.obj [(jss "token", .str token), (jss "userId", .str user.id)])⟩) ∧
      ∀ r, (loginUser P env o pw user).response = .ok r → r.status ≠ 401 := by
  have hne : rnd ≠ [] := by
    rintro rfl
    simp at hlen
  have hsalt : h.salt = b64Encode (stringOfBytes rnd) := by
    rw [hashPassword_random] at hs
    injection hs with hs
    rw [← hs]
  have hlogin : ∀ r, hashPassword P r password (some h.salt) = .ok h := by
    intro r
    rw [hsalt, hashPassword_stored_salt P rnd r password hne, hs]
  refine ⟨hlogin rnd', ?_⟩
  intro env o pw user hpw hhash hsalt'
  have hcases : (loginUser P env o pw user).response = .error .InvalidCharacterError ∨
      (loginUser P env o pw user).response = .error .DataError ∨
      ∃ token, (loginUser P env o pw user).response = .ok ⟨200,
        JSON.stringify (.obj [(jss "token", .str token), (jss "userId", .str user.id)])⟩ := by
    unfold loginUser
    rw [hpw, hsalt', hlogin o.randomBytes]
    simp only [hhash, ne_eq, not_true_eq_false, if_false]
    cases hj : signJWT P (.obj [(jss "id", .str user.id), (jss "email", user.email)])
        env.JWT_SECRET with
    | ok token => right; right; exact ⟨token, rfl⟩
    | error e =>
      unfold signJWT at hj
      rw [btoa_ok_of_le _ jwtHeader_le] at hj
      simp only at hj
      cases hb : btoa (JSON.stringify (.obj [(jss "id", .str user.id),
          (jss "email", user.email)])) with
      | error e' =>
        have : e' = .InvalidCharacterError := btoa_error hb
        rw [hb] at hj
        simp only [Except.error.injEq] at hj
        subst hj; subst this; left; rfl
      | ok body =>
        rw [hb] at hj
        simp only at hj
        cases hk : importHmacKey P (utf8Encode env.JWT_SECRET) with
        | error e' =>
          have : e' = .DataError := importHmacKey_error hk
          rw [hk] at hj
          simp only [Except.error.injEq] at hj
          subst hj; subst this; right; left; rfl
        | ok key =>
          rw [hk] at hj
          simp [btoa_stringOfBytes] at hj
  refine ⟨hcases, ?_⟩
  intro r hr
  rcases hcases with hc | hc | ⟨token, hc⟩
  · rw [hc] at hr; cases hr
  · rw [hc] at hr; cases hr
  · rw [hc] at hr
    injection hr with hr
    rw [← hr]
    simp

/-- C5, for the password `pw` and the 16 random bytes 01 .. 01. -/
theorem login_recomputes_hash_witness :
    hashPassword demoPlatform (List.replicate 16 (toByte 2)) (jss "pw")
      (some (jss "AQEBAQEBAQEBAQEBAQEBAQ==")) =
      .ok { hash := jss "AucQEA==", salt := jss "AQEBAQEBAQEBAQEBAQEBAQ==" } :=
  (login_recomputes_hash demoPlatform (List.replicate 16 (toByte 1))
    (List.replicate 16 (toByte 2)) (jss "pw")
    { hash := jss "AucQEA==", salt := jss "AQEBAQEBAQEBAQEBAQEBAQ==" }
    (by decide) (by decide)).1

/-- C6. An authenticated POST /chat exchange (the body of the request is a JSON value other
than `null`, the generative API has answered, the stored value is a list `H` or is
missing) answers 200 with the reply and writes back, under the key of the user, `H`
without its first `|H| - 98` entries followed by the new user entry and the new bot entry.
An entry is `{ role, text, sessionId, timestamp }`. That list is the last
`min(100, |H| + 2)` elements of `H` followed by the two entries: it has at most 100
entries, its last two entries are the new ones (user, then bot), and what is dropped is a
prefix of `H`, the oldest entries. Hence, from an empty store, after any
sequence of requests every stored text is the serialization of an array that `JSON.parse`
reads back and that has at most 100 entries. A POST /chat request puts nothing else in the
store. -/
theorem chat_history_capped (P : Platform) :
    (∀ (env : Env) (req : Request) (o : Oracle) (body data reply stored : JSON)
        (H : List JSON),
      req.pathname = jss "/chat" → req.method = jss "POST" →
      (verifiedPayload P env req).truthy = true →
      req.json = .ok body → body ≠ .null →
      o.gemini = .ok data → botReply data = .ok reply →
      kvGetJson env (historyKey (idOf (verifiedPayload P env req))) = .ok stored →
      historyItems stored = .ok H →
      fetch P env req o =
        { response := .ok ⟨200, JSON.stringify (.obj [(jss "reply", reply)])⟩,
          env := kvPut env (historyKey (idOf (verifiedPayload P env req)))
            (JSON.stringify (.arr (chatWritten H body reply o.now))),
          kvOps := [.get (historyKey (idOf (verifiedPayload P env req))),
            .put (historyKey (idOf (verifiedPayload P env req)))
              (JSON.stringify (.arr (chatWritten H body reply o.now)))] } ∧
      (fetch P env req o).env.CHAT_HISTORY (historyKey (idOf (verifiedPayload P env req))) =
        some (JSON.stringify (.arr (chatWritten H body reply o.now)))) ∧
    (∀ (env : Env) (req : Request) (o : Oracle) (key value : JSString),
      req.pathname = jss "/chat" → req.method = jss "POST" →
      KVOp.put key value ∈ (fetch P env req o).kvOps →
      ∃ body data reply stored H,
        req.json = .ok body ∧ o.gemini = .ok data ∧ botReply data = .ok reply ∧
        key = historyKey (idOf (verifiedPayload P env req)) ∧
        kvGetJson env key = .ok stored ∧ historyItems stored = .ok H ∧
        value = JSON.stringify (.arr (chatWritten H body reply o.now))) ∧
    (∀ (H : List JSON) (body reply : JSON) (now : JSString),
      chatWritten H body reply now =
        H.drop (H.length - 98) ++
          [mkEntry (jss "user") (optProp (some body) (jss "message"))
             (optProp (some body) (jss "sessionId")) now,
           mkEntry (jss "bot") (some reply) (optProp (some body) (jss "sessionId")) now]) ∧
    (∀ (role : JSString) (text sessionId : JSON) (now : JSString),
      mkEntry role (some text) (some sessionId) now =
        .obj [(jss "role", .str role), (jss "text", text), (jss "sessionId", sessionId),
          (jss "timestamp", .num (numberOfLiteral now))]) ∧
    (∀ (H : List JSON) (u b : JSON),
      chatHistory H u b = H.drop (H.length - 98) ++ [u, b] ∧
      H.drop (H.length - 98) ++ [u, b] =
        (H ++ [u, b]).drop (H.length + 2 - min 100 (H.length + 2)) ∧
      (H.drop (H.length - 98) ++ [u, b]).length = min 100 (H.length + 2) ∧
      (H.drop (H.length - 98) ++ [u, b]).length ≤ 100 ∧
      H.take (H.length - 98) ++ (H.drop (H.length - 98) ++ [u, b]) = H ++ [u, b]) ∧
    (∀ env steps, (∀ k, env.CHAT_HISTORY k = none) →
      (∀ st ∈ steps, st.1.wellFormed = true ∧ st.2.wellFormed = true) →
      ∀ key text, (run P env steps).CHAT_HISTORY key = some text →
        ∃ items : List JSON, text = JSON.stringify (.arr items) ∧
          JSON.parse text = .ok (.arr items) ∧ items.length ≤ 100) := by
  refine ⟨?_, ?_, ?_, ?_, ?_, ?_⟩
  · intro env req o body data reply stored H hpath hmeth hauth hb hbn hg hr hk hh
    have hf := fetch_chat P env req o hpath hmeth hauth
    have hc := chat_success env req o _ body data reply stored H hb hbn
      (truthy_ne_null hauth) hg hr hk hh
    refine ⟨hf.trans hc, ?_⟩
    rw [hf, hc]
    exact kvPut_self _ _ _
  · intro env req o key value hpath hmeth hput
    rcases fetch_kv P env req o with h | h | h
    · exact absurd hput (h.2 key value)
    · obtain ⟨body, data, reply, stored, H, _, _, _, hb, _, hg, hr, hk, hh, hf⟩ := h
      rw [hf] at hput
      obtain ⟨rfl, rfl⟩ := put_mem_pair hput
      exact ⟨body, data, reply, stored, H, hb, hg, hr, rfl, hk, hh, rfl⟩
    · obtain ⟨_, _, _, hp, _⟩ := h
      rw [hpath] at hp
      exact absurd hp (by decide)
  · intro H body reply now
    rw [chatWritten, chatHistory_eq_append]
  · intro role text sessionId now
    rfl
  · intro H u b
    have e := chatHistory_eq_append H u b
    refine ⟨e, ?_, ?_, ?_, ?_⟩
    · rw [← e, chatHistory_eq_drop]
    · rw [← e, chatHistory_length]
    · rw [← e, chatHistory_length]; omega
    · rw [← List.append_assoc, List.take_append_drop]
  · intro env steps h0 hwf key text hkey
    have hinv : HistoryCapped env := by
      intro k t hk
      rw [h0 k] at hk
      cases hk
    obtain ⟨items, rfl, hw, hlen⟩ := historyCapped_run P steps env hinv hwf key text hkey
    exact ⟨items, rfl, parse_stringify_arr items hw, hlen⟩

/-- C6, on a chat exchange of the user `u1` whose stored history holds the 100 entries
`m0`, .., `m99`: the response is 200 with the reply `hi`, and the history written back
under `user:u1:history` is the stored one without its first two entries, followed by the
user entry and the bot entry. And on one chat exchange from the empty store: the stored
text is the serialization of the two new entries. -/
theorem chat_history_capped_witness :
    (fetch demoPlatform demoFullEnv demoChat demoOracle =
        { response := .ok ⟨200, JSON.stringify (.obj [(jss "reply", .str (jss "hi"))])⟩,
          env := kvPut demoFullEnv
            (historyKey (idOf (verifiedPayload demoPlatform demoFullEnv demoChat)))
            (JSON.stringify (.arr (chatWritten demoHistory
              (.obj [(jss "message", .str (jss "hello")), (jss "sessionId", .str (jss "s1"))])
              (.str (jss "hi")) demoOracle.now))),
          kvOps := [.get (historyKey (idOf (verifiedPayload demoPlatform demoFullEnv demoChat))),
            .put (historyKey (idOf (verifiedPayload demoPlatform demoFullEnv demoChat)))
              (JSON.stringify (.arr (chatWritten demoHistory
                (.obj [(jss "message", .str (jss "hello")), (jss "sessionId", .str (jss "s1"))])
                (.str (jss "hi")) demoOracle.now)))] } ∧
      (fetch demoPlatform demoFullEnv demoChat demoOracle).env.CHAT_HISTORY
          (historyKey (idOf (verifiedPayload demoPlatform demoFullEnv demoChat))) =
        some (JSON.stringify (.arr (chatWritten demoHistory
          (.obj [(jss "message", .str (jss "hello")), (jss "sessionId", .str (jss "s1"))])
          (.str (jss "hi")) demoOracle.now)))) ∧
    chatWritten demoHistory
        (.obj [(jss "message", .str (jss "hello")), (jss "sessionId", .str (jss "s1"))])
        (.str (jss "hi")) demoOracle.now =
      demoHistory.drop (demoHistory.length - 98) ++
        [mkEntry (jss "user")
           (optProp (some (.obj [(jss "message", .str (jss "hello")),
             (jss "sessionId", .str (jss "s1"))])) (jss "message"))
           (optProp (some (.obj [(jss "message", .str (jss "hello")),
             (jss "sessionId", .str (jss "s1"))])) (jss "sessionId")) demoOracle.now,
         mkEntry (jss "bot") (some (.str (jss "hi")))
           (optProp (some (.obj [(jss "message", .str (jss "hello")),
             (jss "sessionId", .str (jss "s1"))])) (jss "sessionId")) demoOracle.now] ∧
    historyKey (idOf (verifiedPayload demoPlatform demoFullEnv demoChat)) =
      jss "user:u1:history" ∧
    demoHistory.length - 98 = 2 ∧
    ∃ items : List JSON,
      jss "[\x7b\"role\":\"user\",\"text\":\"hello\",\"sessionId\":\"s1\",\"timestamp\":1700000000000\x7d,\x7b\"role\":\"bot\",\"text\":\"hi\",\"sessionId\":\"s1\",\"timestamp\":1700000000000\x7d]"
        = JSON.stringify (.arr items) ∧
      JSON.parse (jss "[\x7b\"role\":\"user\",\"text\":\"hello\",\"sessionId\":\"s1\",\"timestamp\":1700000000000\x7d,\x7b\"role\":\"bot\",\"text\":\"hi\",\"sessionId\":\"s1\",\"timestamp\":1700000000000\x7d]")
        = .ok (.arr items) ∧
      items.length ≤ 100 :=
  ⟨(chat_history_capped demoPlatform).1 demoFullEnv demoChat demoOracle
    (.obj [(jss "message", .str (jss "hello")), (jss "sessionId", .str (jss "s1"))])
    (.obj [(jss "candidates", .arr [.obj [(jss "content",
      .obj [(jss "parts", .arr [.obj [(jss "text", .str (jss "hi"))]])])]])])
    (.str (jss "hi")) (.arr demoHistory) demoHistory
    rfl rfl (by decide) rfl (fun h => JSON.noConfusion h) rfl rfl
    ((show kvGetJson demoFullEnv (historyKey (idOf (verifiedPayload demoPlatform demoFullEnv
        demoChat))) = JSON.parse (JSON.stringify (.arr demoHistory)) from rfl).trans
      (parse_stringify_arr demoHistory (by decide))) rfl,
   (chat_history_capped demoPlatform).2.2.1 demoHistory
    (.obj [(jss "message", .str (jss "hello")), (jss "sessionId", .str (jss "s1"))])
    (.str (jss "hi")) demoOracle.now,
   by decide, by decide,
   (chat_history_capped demoPlatform).2.2.2.2.2 demoEnv [(demoChat, demoOracle)]
    (fun _ => rfl) (by decide) (jss "user:u1:history") _ (by decide)⟩

/-- C7, as stated, fails on a stored history with a `null` entry: the callback of `filter`
reads `m.sessionId` on `null` and throws, the request ends in a `TypeError`, nothing is
written back and the entry of the session `s1` is still stored. -/
theorem delete_null_entry_throws :
    fetch demoPlatform demoNullEnv demoDelete demoOracle =
      { response := .error .TypeError, env := demoNullEnv,
        kvOps := [.get (jss "user:u1:history")] } ∧
    (fetch demoPlatform demoNullEnv demoDelete demoOracle).env.CHAT_HISTORY
        (jss "user:u1:history") =
      some (jss "[\x7b\"text\":\"a\",\"sessionId\":\"s1\"\x7d,null]") :=
  ⟨rfl, rfl⟩

/-- C7, amended. An authenticated DELETE /history (the body of the request is a JSON value
other than `null`, the stored value is a list `H` or is missing): when no entry of `H` is
`null`, it answers 200 and writes back, under the key of the user, the entries `m` of `H`
with `m.sessionId !== sessionId`, a sub-sequence of `H` in the same order whose entries
are unchanged; when an entry of `H` is `null`, it throws a `TypeError` and writes nothing.
Against a session identifier that is a string, and between well-formed values when the
identifier is any primitive, `!==` is plain inequality: the entries of the session are
removed and every other entry is kept. A DELETE /history request puts nothing else in the
store. -/
theorem delete_removes_session (P : Platform) :
    (∀ (env : Env) (req : Request) (o : Oracle) (body stored : JSON) (H : List JSON),
      req.pathname = jss "/history" → req.method = jss "DELETE" →
      (verifiedPayload P env req).truthy = true →
      req.json = .ok body → body ≠ .null →
      kvGetJson env (historyKey (idOf (verifiedPayload P env req))) = .ok stored →
      historyItems stored = .ok H →
      ((∀ m ∈ H, m ≠ .null) →
        fetch P env req o =
          { response := .ok ⟨200, JSON.stringify (.obj [(jss "success", .bool true)])⟩,
            env := kvPut env (historyKey (idOf (verifiedPayload P env req)))
              (JSON.stringify (.arr (H.filter fun m =>
                strictNe (sessionOf m) (optProp (some body) (jss "sessionId"))))),
            kvOps := [.get (historyKey (idOf (verifiedPayload P env req))),
              .put (historyKey (idOf (verifiedPayload P env req)))
                (JSON.stringify (.arr (H.filter fun m =>
                  strictNe (sessionOf m) (optProp (some body) (jss "sessionId")))))] } ∧
        (fetch P env req o).env.CHAT_HISTORY
            (historyKey (idOf (verifiedPayload P env req))) =
          some (JSON.stringify (.arr (H.filter fun m =>
            strictNe (sessionOf m) (optProp (some body) (jss "sessionId")))))) ∧
      (JSON.null ∈ H →
        fetch P env req o =
          { response := .error .TypeError, env := env,
            kvOps := [.get (historyKey (idOf (verifiedPayload P env req)))] })) ∧
    (∀ (env : Env) (req : Request) (o : Oracle) (key value : JSString),
      req.pathname = jss "/history" → req.method = jss "DELETE" →
      KVOp.put key value ∈ (fetch P env req o).kvOps →
      ∃ body stored H,
        req.json = .ok body ∧ key = historyKey (idOf (verifiedPayload P env req)) ∧
        kvGetJson env key = .ok stored ∧ historyItems stored = .ok H ∧
        (∀ m ∈ H, m ≠ .null) ∧
        value = JSON.stringify (.arr (H.filter fun m =>
          strictNe (sessionOf m) (optProp (some body) (jss "sessionId"))))) ∧
    (∀ (H : List JSON) (sid : Option JSON),
      (H.filter fun m => strictNe (sessionOf m) sid).Sublist H ∧
      ∀ m, m ∈ (H.filter fun m => strictNe (sessionOf m) sid) ↔
        m ∈ H ∧ strictNe (sessionOf m) sid = true) ∧
    (∀ (x : Option JSON) (s : JSString),
      strictNe x (some (.str s)) = true ↔ x ≠ some (.str s)) ∧
    (∀ x sid : Option JSON, isPrimitive sid = true → OptWellFormed x → OptWellFormed sid →
      (strictNe x sid = true ↔ x ≠ sid)) := by
  refine ⟨?_, ?_, ?_, strictNe_str, strictNe_wellFormed⟩
  · intro env req o body stored H hpath hmeth hauth hb hbn hk hh
    have hf := fetch_historyDelete P env req o hpath hmeth hauth
    refine ⟨?_, ?_⟩
    · intro hnn
      have hd := historyDelete_success env req _ body stored H hb hbn
        (truthy_ne_null hauth) hk hh hnn
      refine ⟨hf.trans hd, ?_⟩
      rw [hf, hd]
      exact kvPut_self _ _ _
    · intro hnull
      exact hf.trans (historyDelete_null env req _ body stored H hb hbn
        (truthy_ne_null hauth) hk hh hnull)
  · intro env req o key value hpath hmeth hput
    rcases fetch_kv P env req o with h | h | h
    · exact absurd hput (h.2 key value)
    · obtain ⟨_, _, _, _, _, hp, _⟩ := h
      rw [hpath] at hp
      exact absurd hp (by decide)
    · obtain ⟨body, stored, H, _, _, _, hb, _, hk, hh, hnn, hf⟩ := h
      rw [hf] at hput
      obtain ⟨rfl, rfl⟩ := put_mem_pair hput
      exact ⟨body, stored, H, hb, rfl, hk, hh, hnn, rfl⟩
  · intro H sid
    exact ⟨List.filter_sublist _, fun m => List.mem_filter⟩

/-- C7, amended, on two requests of the user `u1`. On a history of three entries, two of
the session `s1` around one of the session `s2`, deleting `s1` writes back the entry of
`s2` alone. On a history whose session identifiers are the numbers 1 and 2, deleting the
session `1.0` writes back the entry of the session 2 alone. -/
theorem delete_removes_session_witness :
    (fetch demoPlatform demoSessionsEnv demoDelete demoOracle).env.CHAT_HISTORY
        (jss "user:u1:history") =
      some (jss "[\x7b\"text\":\"b\",\"sessionId\":\"s2\"\x7d]") ∧
    (fetch demoPlatform demoNumbersEnv demoDeleteNumber demoOracle).env.CHAT_HISTORY
        (jss "user:u1:history") =
      some (jss "[\x7b\"sessionId\":2\x7d]") :=
  ⟨(((delete_removes_session demoPlatform).1 demoSessionsEnv demoDelete demoOracle
      (.obj [(jss "sessionId", .str (jss "s1"))])
      (.arr [.obj [(jss "text", .str (jss "a")), (jss "sessionId", .str (jss "s1"))],
        .obj [(jss "text", .str (jss "b")), (jss "sessionId", .str (jss "s2"))],
        .obj [(jss "text", .str (jss "c")), (jss "sessionId", .str (jss "s1"))]])
      [.obj [(jss "text", .str (jss "a")), (jss "sessionId", .str (jss "s1"))],
        .obj [(jss "text", .str (jss "b")), (jss "sessionId", .str (jss "s2"))],
        .obj [(jss "text", .str (jss "c")), (jss "sessionId", .str (jss "s1"))]]
      rfl rfl (by decide) rfl (fun h => JSON.noConfusion h) rfl rfl).1 (by
        intro m hm
        simp only [List.mem_cons, List.mem_singleton, List.not_mem_nil, or_false] at hm
        rcases hm with rfl | rfl | rfl <;> exact fun h => JSON.noConfusion h)).2,
   (((delete_removes_session demoPlatform).1 demoNumbersEnv demoDeleteNumber demoOracle
      (.obj [(jss "sessionId", .num (numberOfLiteral (jss "1.0")))])
      (.arr [.obj [(jss "sessionId", .num (numberOfLiteral (jss "1")))],
        .obj [(jss "sessionId", .num (numberOfLiteral (jss "2")))]])
      [.obj [(jss "sessionId", .num (numberOfLiteral (jss "1")))],
        .obj [(jss "sessionId", .num (numberOfLiteral (jss "2")))]]
      rfl rfl (by decide) rfl (fun h => JSON.noConfusion h) rfl rfl).1 (by
        intro m hm
        simp only [List.mem_cons, List.mem_singleton, List.not_mem_nil, or_false] at hm
        rcases hm with rfl | rfl <;> exact fun h => JSON.noConfusion h)).2⟩

/-- C8, as stated, fails on a header that is present and empty: `verifyJWT` of its second
space-separated part (`undefined`) returns `null`, and the response is 401, not 403. -/
theorem empty_authorization_gives_401 :
    demoEmptyAuth.authorization = some [] ∧
    verifyJWT demoPlatform ((split 32 ([] : JSString)).get? 1) demoEnv.JWT_SECRET = .null ∧
    (fetch demoPlatform demoEnv demoEmptyAuth demoOracle).response
      = .ok ⟨401, jss "Unauthorized"⟩ :=
  ⟨rfl, rfl, by decide⟩

/-- C8, amended: for every request that is not an OPTIONS preflight and not POST
/auth/signup or POST /auth/login, the response is 401 when the header `Authorization` is
absent or empty, and 403 when it is a non-empty string and `verifyJWT` of its second
space-separated part returns `null`; in both cases the bindings are unchanged and the
key-value store is neither read nor written. -/
theorem unauthenticated_rejected (P : Platform) (env : Env) (req : Request) (o : Oracle)
    (hopt : req.method ≠ jss "OPTIONS")
    (hsign : ¬ (req.pathname = jss "/auth/signup" ∧ req.method = jss "POST"))
    (hlogin : ¬ (req.pathname = jss "/auth/login" ∧ req.method = jss "POST")) :
    ((req.authorization = none ∨ req.authorization = some []) →
      fetch P env req o =
        { response := .ok ⟨401, jss "Unauthorized"⟩, env := env, kvOps := [] }) ∧
    (∀ a, req.authorization = some a → a ≠ [] →
      verifyJWT P ((split 32 a).get? 1) env.JWT_SECRET = .null →
      fetch P env req o =
        { response := .ok ⟨403, jss "Invalid Token"⟩, env := env, kvOps := [] }) := by
  rw [fetch_guarded P env req o hopt hsign hlogin]
  refine ⟨?_, ?_⟩
  · rintro (h | h)
    · simp [guarded, h, respond]
    · simp [guarded, h, respond]
  · intro a ha hne hnull
    have hvp : verifiedPayload P env req = .null := by
      simp only [verifiedPayload, ha]
      exact hnull
    have hemp : a.isEmpty = false := by
      cases a with
      | nil => exact absurd rfl hne
      | cons c cs => rfl
    simp [guarded, ha, hemp, hvp, JSON.truthy, respond]

/-- C8, amended, on a request GET /history without the header and on one whose token is
`x.y.z`. -/
theorem unauthenticated_rejected_witness :
    fetch demoPlatform demoEnv demoNoAuth demoOracle =
      { response := .ok ⟨401, jss "Unauthorized"⟩, env := demoEnv, kvOps := [] } ∧
    fetch demoPlatform demoEnv { demoNoAuth with authorization := some (jss "Bearer x.y.z") }
        demoOracle =
      { response := .ok ⟨403, jss "Invalid Token"⟩, env := demoEnv, kvOps := [] } :=
  ⟨(unauthenticated_rejected demoPlatform demoEnv demoNoAuth demoOracle (by decide) (by decide)
      (by decide)).1 (Or.inl rfl),
   (unauthenticated_rejected demoPlatform demoEnv
      { demoNoAuth with authorization := some (jss "Bearer x.y.z") } demoOracle (by decide)
      (by decide) (by decide)).2 (jss "Bearer x.y.z") rfl (by decide) rfl⟩

/-- C9. Whatever the request, the only key `fetch` writes in the key-value store is
`user:<id>:history` for the `id` of the verified payload of the token, and only POST /chat
and DELETE /history write; the text under every other key is unchanged. The key is an
injective function of a string identifier, so the history of every other user identifier
is unchanged. GET /history writes no key and leaves the bindings as they are. -/
theorem writes_only_own_history (P : Platform) (env : Env) (req : Request) (o : Oracle) :
    (∀ key value, KVOp.put key value ∈ (fetch P env req o).kvOps →
      key = historyKey (idOf (verifiedPayload P env req)) ∧
      (verifiedPayload P env req).truthy = true ∧
      ((req.pathname = jss "/chat" ∧ req.method = jss "POST") ∨
        (req.pathname = jss "/history" ∧ req.method = jss "DELETE"))) ∧
    (∀ k, k ≠ historyKey (idOf (verifiedPayload P env req)) →
      (fetch P env req o).env.CHAT_HISTORY k = env.CHAT_HISTORY k) ∧
    (∀ u v : JSString, u ≠ v → historyKey (some (.str u)) ≠ historyKey (some (.str v))) ∧
    (∀ u v : JSString, idOf (verifiedPayload P env req) = some (.str u) → v ≠ u →
      (fetch P env req o).env.CHAT_HISTORY (historyKey (some (.str v)))
        = env.CHAT_HISTORY (historyKey (some (.str v)))) ∧
    (req.pathname = jss "/history" → req.method = jss "GET" →
      (fetch P env req o).env = env ∧ ∀ k v, KVOp.put k v ∉ (fetch P env req o).kvOps) := by
  have hframe : ∀ k, k ≠ historyKey (idOf (verifiedPayload P env req)) →
      (fetch P env req o).env.CHAT_HISTORY k = env.CHAT_HISTORY k := by
    intro k hk
    rcases fetch_kv P env req o with h | h | h
    · rw [h.1]
    · obtain ⟨body, data, reply, stored, H, _, _, _, _, _, _, _, _, _, hf⟩ := h
      rw [hf]
      exact kvPut_other env _ _ k hk
    · obtain ⟨body, stored, H, _, _, _, _, _, _, _, _, hf⟩ := h
      rw [hf]
      exact kvPut_other env _ _ k hk
  refine ⟨?_, hframe, ?_, ?_, ?_⟩
  · intro key value hput
    rcases fetch_kv P env req o with h | h | h
    · exact absurd hput (h.2 key value)
    · obtain ⟨body, data, reply, stored, H, hp, hm, htr, _, _, _, _, _, _, hf⟩ := h
      rw [hf] at hput
      exact ⟨(put_mem_pair hput).1, htr, Or.inl ⟨hp, hm⟩⟩
    · obtain ⟨body, stored, H, hp, hm, htr, _, _, _, _, _, hf⟩ := h
      rw [hf] at hput
      exact ⟨(put_mem_pair hput).1, htr, Or.inr ⟨hp, hm⟩⟩
  · intro u v huv h
    exact huv (historyKey_injective u v h)
  · intro u v hid hvu
    apply hframe
    rw [hid]
    intro h
    exact hvu (historyKey_injective v u h)
  · intro hp hm
    have hopt : req.method ≠ jss "OPTIONS" := by rw [hm]; decide
    have hsign : ¬ (req.pathname = jss "/auth/signup" ∧ req.method = jss "POST") := by
      rw [hp]; exact fun h => absurd h.1 (by decide)
    have hlogin : ¬ (req.pathname = jss "/auth/login" ∧ req.method = jss "POST") := by
      rw [hp]; exact fun h => absurd h.1 (by decide)
    rw [fetch_guarded P env req o hopt hsign hlogin]
    rcases guarded_cases P env req o with hg | ⟨_, hg⟩
    · exact hg
    · rw [hg]
      have hchat : ¬ (req.pathname = jss "/chat" ∧ req.method = jss "POST") := by
        rw [hp]; exact fun h => absurd h.1 (by decide)
      have e : routes env req o (verifiedPayload P env req)
          = historyGet env (verifiedPayload P env req) := by
        unfold routes
        rw [if_neg hchat, if_pos ⟨hp, hm⟩]
      rw [e]
      exact historyGet_effect env _

/-- C9, on one chat exchange of the user `u1`: the key written is `user:u1:history`, and
the history of the user `u2` is unchanged. -/
theorem writes_only_own_history_witness :
    (∀ key value, KVOp.put key value ∈ (fetch demoPlatform demoEnv demoChat demoOracle).kvOps →
      key = jss "user:u1:history") ∧
    (fetch demoPlatform demoEnv demoChat demoOracle).env.CHAT_HISTORY (jss "user:u2:history")
      = demoEnv.CHAT_HISTORY (jss "user:u2:history") :=
  ⟨fun key value h =>
    ((writes_only_own_history demoPlatform demoEnv demoChat demoOracle).1 key value h).1.trans
      (by decide),
   (writes_only_own_history demoPlatform demoEnv demoChat demoOracle).2.1
      (jss "user:u2:history") (by decide)⟩

/-- C10. A token that `signJWT` returns is `header.body.signature`: the header is the
base64 of the fixed JSON header, the body the base64 of the serialized payload, the
signature the base64 of the keyed hash of `header.body` with `=` removed and `+`, `/`
replaced by `-`, `_`. The signature is made of letters, digits, `-` and `_` only, so it
has no `=`, `+` or `/`; no segment has a dot, the token has exactly two dots and `split`
gives back exactly the three segments. -/
theorem signJWT_three_segments (P : Platform) (p : JSON) (s tok : JSString)
    (h : signJWT P p s = .ok tok) :
    ∃ header body sigB64 sig,
      tok = header ++ 46 :: body ++ 46 :: sig ∧
      btoa jwtHeader.stringify = .ok header ∧
      jwtHeader.stringify = jss "\x7b\"alg\":\"HS256\",\"type\":\"JWT\"\x7d" ∧
      btoa p.stringify = .ok body ∧
      btoa (stringOfBytes (P.hmac (utf8Encode s) (utf8Encode (header ++ 46 :: body))))
        = .ok sigB64 ∧
      sig = replaceAll 47 95 (replaceAll 43 45 (removeAll 61 sigB64)) ∧
      (∀ c ∈ sig, isBase64UrlChar c = true) ∧
      (∀ c ∈ sig, c ≠ 61 ∧ c ≠ 43 ∧ c ≠ 47) ∧
      46 ∉ header ∧ 46 ∉ body ∧ 46 ∉ sig ∧
      tok.count 46 = 2 ∧
      split 46 tok = [header, body, sig] := by
  obtain ⟨hle, _, rfl⟩ := signJWT_ok h
  have h1 := b64Encode_no_dot _ jwtHeader_le
  have h2 := b64Encode_no_dot _ hle
  have h3 := base64Url_no_dot _ (stringOfBytes_le (P.hmac (utf8Encode s)
    (utf8Encode (b64Encode jwtHeader.stringify ++ 46 :: b64Encode p.stringify))))
  refine ⟨b64Encode jwtHeader.stringify, b64Encode p.stringify, _, _, rfl,
    btoa_ok_of_le _ jwtHeader_le, by decide, btoa_ok_of_le _ hle, btoa_stringOfBytes _, rfl,
    base64Url_alphabet _ (stringOfBytes_le _), ?_, h1, h2, h3,
    count_token _ _ _ h1 h2 h3, split_token _ _ _ h1 h2 h3⟩
  intro c hc
  exact (base64Url_chars _ (stringOfBytes_le _) c hc).2

/-- C10, on the payload `{"id":"u1","email":"a@x.com"}`. -/
theorem signJWT_three_segments_witness :
    ∃ header body sigB64 sig,
      jss "eyJhbGciOiJIUzI1NiIsInR5cGUiOiJKV1QifQ==.eyJpZCI6InUxIiwiZW1haWwiOiJhQHguY29tIn0=.BoZRhg"
        = header ++ 46 :: body ++ 46 :: sig ∧
      btoa jwtHeader.stringify = .ok header ∧
      jwtHeader.stringify = jss "\x7b\"alg\":\"HS256\",\"type\":\"JWT\"\x7d" ∧
      btoa (JSON.stringify
        (.obj [(jss "id", .str (jss "u1")), (jss "email", .str (jss "a@x.com"))])) = .ok body ∧
      btoa (stringOfBytes (demoPlatform.hmac (utf8Encode (jss "secret"))
        (utf8Encode (header ++ 46 :: body)))) = .ok sigB64 ∧
      sig = replaceAll 47 95 (replaceAll 43 45 (removeAll 61 sigB64)) ∧
      (∀ c ∈ sig, isBase64UrlChar c = true) ∧
      (∀ c ∈ sig, c ≠ 61 ∧ c ≠ 43 ∧ c ≠ 47) ∧
      46 ∉ header ∧ 46 ∉ body ∧ 46 ∉ sig ∧
      (jss "eyJhbGciOiJIUzI1NiIsInR5cGUiOiJKV1QifQ==.eyJpZCI6InUxIiwiZW1haWwiOiJhQHguY29tIn0=.BoZRhg").count
        46 = 2 ∧
      split 46 (jss
        "eyJhbGciOiJIUzI1NiIsInR5cGUiOiJKV1QifQ==.eyJpZCI6InUxIiwiZW1haWwiOiJhQHguY29tIn0=.BoZRhg")
        = [header, body, sig] :=
  signJWT_three_segments demoPlatform
    (.obj [(jss "id", .str (jss "u1")), (jss "email", .str (jss "a@x.com"))]) (jss "secret")
    _ (by decide)

theorem split_ne_nil (sep : Nat) (s : JSString) : split sep s ≠ [] := by
  cases s with
  | nil => simp [split]
  | cons c cs =>
    simp only [split]
    split_ifs
    · simp
    · split <;> simp

/-- The segments of `a + sep + x` are the segments of `a` followed by those of `x`. -/
theorem split_append_sep (sep : Nat) (a x : JSString) :
    split sep (a ++ sep :: x) = split sep a ++ split sep x := by
  induction a with
  | nil => simp [split]
  | cons c cs ih =>
    rw [List.cons_append]
    by_cases hc : c = sep
    · rw [split, if_pos hc, ih, split, if_pos hc]
      rfl
    · rw [split, if_neg hc, ih, split, if_neg hc]
      cases h : split sep cs with
      | nil => exact absurd h (split_ne_nil sep cs)
      | cons seg segs => rfl

/-- A token with at least three segments and the same token followed by a dot and any
text give the same result. -/
theorem verifyJWT_append_segment (P : Platform) (t s x : JSString)
    (h : 3 ≤ (split 46 t).length) :
    verifyJWT P (some (t ++ 46 :: x)) s = verifyJWT P (some t) s := by
  rcases hsp : split 46 t with _ | ⟨hd, _ | ⟨bd, _ | ⟨sg, more⟩⟩⟩
  · rw [hsp] at h; simp at h
  · rw [hsp] at h; simp at h
  · rw [hsp] at h; simp at h
  · have hsp' : split 46 (t ++ 46 :: x) = hd :: bd :: sg :: (more ++ split 46 x) := by
      rw [split_append_sep, hsp]; rfl
    unfold verifyJWT
    rw [verifyJWTTry_of_split P _ s hd bd sg _ hsp', verifyJWTTry_of_split P t s hd bd sg more hsp]

theorem split_length_of_ne_null (P : Platform) (t s : JSString)
    (h : verifyJWT P (some t) s ≠ .null) : 3 ≤ (split 46 t).length := by
  by_contra hlt
  exact h (verifyJWT_short P t s (by omega))

/-- C11. `verifyJWT` reads only the first three dot-separated segments of the token: for
every token with at least three segments, and so for every token that verifies to a
payload other than `null`, the token followed by a dot and any text gives the same
result; in particular a token of `signJWT` followed by a dot and any text still verifies
to its payload, so a token with more than three segments is not rejected. -/
theorem verifyJWT_ignores_extra_segments (P : Platform) (t s x : JSString) :
    (3 ≤ (split 46 t).length →
      verifyJWT P (some (t ++ 46 :: x)) s = verifyJWT P (some t) s) ∧
    (∀ p, verifyJWT P (some t) s = p → p ≠ .null →
      verifyJWT P (some (t ++ 46 :: x)) s = p) ∧
    (∀ p, p.wellFormed = true → signJWT P p s = .ok t →
      verifyJWT P (some (t ++ 46 :: x)) s = p ∧ 3 < (split 46 (t ++ 46 :: x)).length) := by
  refine ⟨verifyJWT_append_segment P t s x, ?_, ?_⟩
  · intro p hp hne
    rw [← hp] at hne ⊢
    exact verifyJWT_append_segment P t s x (split_length_of_ne_null P t s hne)
  · intro p hwf hs
    have hv := verifyJWT_signJWT P p s t hwf hs
    obtain ⟨hle, _, rfl⟩ := signJWT_ok hs
    have hsplit := split_token (b64Encode jwtHeader.stringify) (b64Encode p.stringify)
      (base64Url (b64Encode (stringOfBytes (P.hmac (utf8Encode s)
        (utf8Encode (b64Encode jwtHeader.stringify ++ 46 :: b64Encode p.stringify))))))
      (b64Encode_no_dot _ jwtHeader_le) (b64Encode_no_dot _ hle)
      (base64Url_no_dot _ (stringOfBytes_le _))
    refine ⟨?_, ?_⟩
    · rw [verifyJWT_append_segment P _ s x (by rw [hsplit]; simp), hv]
    · rw [split_append_sep, hsplit, List.length_append]
      have := List.length_pos.mpr (split_ne_nil 46 x)
      simp only [List.length_cons, List.length_nil]
      omega

/-- C11, on the token of `{"id":"u1","email":"a@x.com"}` under `secret`, followed by
`.extra.more`: five segments, and the payload is returned. -/
theorem verifyJWT_ignores_extra_segments_witness :
    verifyJWT demoPlatform (some (jss
        "eyJhbGciOiJIUzI1NiIsInR5cGUiOiJKV1QifQ==.eyJpZCI6InUxIiwiZW1haWwiOiJhQHguY29tIn0=.BoZRhg"
        ++ 46 :: jss "extra.more")) (jss "secret")
      = .obj [(jss "id", .str (jss "u1")), (jss "email", .str (jss "a@x.com"))] ∧
    3 < (split 46 (jss
        "eyJhbGciOiJIUzI1NiIsInR5cGUiOiJKV1QifQ==.eyJpZCI6InUxIiwiZW1haWwiOiJhQHguY29tIn0=.BoZRhg"
        ++ 46 :: jss "extra.more")).length :=
  (verifyJWT_ignores_extra_segments demoPlatform _ (jss "secret") (jss "extra.more")).2.2
    (.obj [(jss "id", .str (jss "u1")), (jss "email", .str (jss "a@x.com"))])
    (by decide) (by decide)

end Worker
